import Mathlib

/-! Frame-data pooling allocator and `vector_intrinsic` handle.

A shallow embedding of `src/src/frame_data_type.h` and of the frame split of
`src/src/image.h`.

* Pointers are natural numbers (addresses counted in elements of `T`); the null
  pointer is `0`.
* `std::size_t` values are natural numbers; the one arithmetic operation on
  them, `n * sizeof(T)`, is taken modulo `2 ^ 64`.
* `::operator new` belongs to the C++ runtime, not to this repository.  Every
  operation that may reach it takes its behaviour as a parameter
  `sysNew : Nat → Option Ptr` (byte count ↦ pointer, `none` for a thrown
  `std::bad_alloc`).
* An iterator range handed to the template `assign` is a list of positions
  (`Iter T`, a multi-pass range); a position is dereferenced when `std::copy`
  reaches it, in the memory as the earlier stores have left it.
* Memory is unbounded: a store past the end of a region is not represented, so
  results on the contents of a region assume that its byte count fits
  `std::size_t`.
* The mutex of the allocators protects the registry and carries no data; a
  call is modelled as one atomic state transformer.
* Callables passed to the frame split are functions `V → Option V`, `none` standing
  for a thrown exception; the thread pool of `ctpl_stl.h` enters as parameters.
-/

namespace FrameData

/-- Addresses, counted in elements of `T`. -/
abbrev Ptr := Nat

/-- The null pointer. -/
def nullptr : Ptr := 0

/-- Width of `std::size_t`. -/
def SIZE_WIDTH : Nat := 64

/-- The argument of `::operator new(n * sizeof(T))`: a `size_t` product. -/
def alloc_bytes (n sizeofT : Nat) : Nat := (n * sizeofT) % 2 ^ SIZE_WIDTH

/-- Behaviour of `::operator new` at one call: the pointer it returns for a
byte count, or `none` when it throws `std::bad_alloc`. -/
abbrev SysNew := Nat → Option Ptr

/-- The entry type `struct Deallocation { T *t; size_t n; }`. -/
structure Deallocation where
  t : Ptr
  n : Nat
deriving DecidableEq, Repr

/-! ## `static_framedata_allocator_array` -/

namespace static_framedata_allocator_array

/-- The reverse scan of `allocate`, lines 60-74.  `scan ds n k` is the loop with
the reverse iterator `di` standing on index `k - 1` (`k = 0` is `rend()`).
On a hit the entry is overwritten by `deallocations.back()` unless it is the
last one, the vector is popped, and the stored pointer is returned. -/
def scan (ds : List Deallocation) (n : Nat) : Nat → Option (Ptr × List Deallocation)
  | 0 => none
  | k + 1 =>
    match ds[k]? with
    | none => none
    | some d =>
      if d.n = n then
        let t := d.t
        let ds1 := if k + 1 ≠ ds.length then ds.set k (ds.getLastD d) else ds
        some (t, ds1.dropLast)
      else
        scan ds n k

/-- The locked block of `allocate`: the scan started at `rbegin()`. -/
def take (ds : List Deallocation) (n : Nat) : Option (Ptr × List Deallocation) :=
  scan ds n ds.length

/-- The method `T* allocate(std::size_t n)`: the pointer returned (`none` when
`::operator new` throws) and the registry afterwards. -/
def allocate (ds : List Deallocation) (n : Nat) (sizeofT : Nat) (sysNew : SysNew) :
    Option Ptr × List Deallocation :=
  match take ds n with
  | some (t, ds1) => (some t, ds1)
  | none => (sysNew (alloc_bytes n sizeofT), ds)

/-- The method `void deallocate(T* a, std::size_t n)`: `push_back({a, n})`. -/
def deallocate (ds : List Deallocation) (a : Ptr) (n : Nat) : List Deallocation :=
  ds ++ [⟨a, n⟩]

end static_framedata_allocator_array

/-! ## `static_framedata_allocator_map` -/

namespace static_framedata_allocator_map

/-- The container `std::map<std::size_t, std::vector<T*>>`, as a key-ordered
association list. -/
abbrev Registry := List (Nat × List Ptr)

/-- Lookup part of `deallocations[n]`: the vector stored under `n`, empty when the
key is absent (`operator[]` default-constructs it). -/
def find (m : Registry) (n : Nat) : List Ptr :=
  match m with
  | [] => []
  | (k, v) :: rest => if k = n then v else find rest n

/-- Write part of `deallocations[n]`: store `v` under `n`, keeping key order. -/
def store (m : Registry) (n : Nat) (v : List Ptr) : Registry :=
  match m with
  | [] => [(n, v)]
  | (k, w) :: rest =>
    if k = n then (k, v) :: rest
    else if n < k then (n, v) :: (k, w) :: rest
    else (k, w) :: store rest n v

/-- The method `T* allocate(std::size_t n)` of the map variant. -/
def allocate (m : Registry) (n : Nat) (sizeofT : Nat) (sysNew : SysNew) :
    Option Ptr × Registry :=
  let av := find m n
  match av.getLast? with
  | some a => (some a, store m n av.dropLast)
  | none => (sysNew (alloc_bytes n sizeofT), store m n av)

/-- The method `void deallocate(T* a, std::size_t n)` of the map variant. -/
def deallocate (m : Registry) (a : Ptr) (n : Nat) : Registry :=
  store m n (find m n ++ [a])

end static_framedata_allocator_map

/-- The alias `static_framedata_allocator<T>` selects the flat-list variant. -/
abbrev static_framedata_allocator.allocate := @static_framedata_allocator_array.allocate

/-- The alias `static_framedata_allocator<T>` selects the flat-list variant. -/
abbrev static_framedata_allocator.deallocate := @static_framedata_allocator_array.deallocate

/-! ## Memory -/

/-- The state outside a handle that its methods touch: the registry of the
singleton `static_framedata_allocator<T>::get_instance()` (empty when the
instance is first created) and the memory holding the elements. -/
structure World (T : Type) where
  deallocations : List Deallocation
  mem : Ptr → T

/-- The elements stored at `p, p + 1, ..., p + k - 1`. -/
def read {T : Type} (mem : Ptr → T) (p : Ptr) (k : Nat) : List T :=
  (List.range k).map (fun i => mem (p + i))

/-- One position of a multi-pass iterator range (forward iterators or better,
which `std::distance` leaves as they are): dereferencing it reads the element
stored at an address, or yields a value that is not kept in the modelled
memory. -/
inductive Iter (T : Type) where
  | stored (p : Ptr)
  | value (v : T)

/-- The expression `*it` in the memory `mem`. -/
def Iter.deref {T : Type} (mem : Ptr → T) : Iter T → T
  | .stored p => mem p
  | .value v => v

/-- The pointer range `[p, p + k)` seen as an iterator range. -/
def contiguous {T : Type} (p : Ptr) (k : Nat) : List (Iter T) :=
  (List.range k).map (fun i => Iter.stored (p + i))

/-- The call `std::copy(begin_, end_, data_)` over the iterator range `xs`: the forward
loop `*dst++ = *it++`.  Each element is read when its turn comes, from the memory
as the earlier stores of the loop have left it. -/
def std_copy {T : Type} (mem : Ptr → T) (xs : List (Iter T)) (dst : Ptr) : Ptr → T :=
  match xs with
  | [] => mem
  | x :: rest => std_copy (Function.update mem dst (x.deref mem)) rest (dst + 1)

/-- Forward copy of `k` elements from `src` to `dst`, reading the memory as it
stands at each step. -/
def copy_elems {T : Type} (mem : Ptr → T) (dst src : Ptr) : Nat → (Ptr → T)
  | 0 => mem
  | k + 1 => copy_elems (Function.update mem dst (mem src)) (dst + 1) (src + 1) k

/-- The call `std::memcpy(dst, src, bytes)` on memory addressed in elements of
`sizeofT` bytes: the whole elements covered by `bytes` are copied.  The C
library leaves overlapping regions undefined; results about `memcpy` assume
the regions are disjoint. -/
def memcpy {T : Type} (mem : Ptr → T) (dst src : Ptr) (bytes sizeofT : Nat) : Ptr → T :=
  copy_elems mem dst src (bytes / sizeofT)

/-- The loop `for (auto *it = begin_; it != end_; ++it) *it = value;` with
`k = end_ - it` steps to go. -/
def fill {T : Type} (mem : Ptr → T) (it : Ptr) (value : T) : Nat → (Ptr → T)
  | 0 => mem
  | k + 1 => fill (Function.update mem it value) (it + 1) value k

/-- The conversion of `std::distance(begin_, end_)` (a `ptrdiff_t`) to the
`std::size_t` parameter of `allocate`. -/
def distance (begin_ end_ : Ptr) : Nat :=
  (((end_ : Int) - (begin_ : Int)) % (2 : Int) ^ SIZE_WIDTH).toNat

/-! ## `vector_intrinsic` -/

/-- The handle `vector_intrinsic<T>`: its two fields. -/
structure vector_intrinsic where
  data_ : Ptr
  size_ : Nat
deriving DecidableEq, Repr

/-- What a handle method that may allocate leaves behind: the handle, the world,
and whether `std::bad_alloc` left the method. -/
structure Outcome (T : Type) where
  h : vector_intrinsic
  w : World T
  threw : Bool

namespace vector_intrinsic

variable {T : Type}

/-- The method `clear()`. -/
def clear (_h : vector_intrinsic) : vector_intrinsic :=
  { data_ := nullptr, size_ := 0 }

/-- The method `deallocate()`. -/
def deallocate (h : vector_intrinsic) (w : World T) : vector_intrinsic × World T :=
  if h.data_ ≠ nullptr then
    (clear h, { w with deallocations :=
      static_framedata_allocator.deallocate w.deallocations h.data_ h.size_ })
  else
    (h, w)

/-- The method `allocate(std::size_t size__)`.  `size_` is stored before the pool
is asked, so it keeps the new value when the pool call throws. -/
def allocate (h : vector_intrinsic) (w : World T) (size__ : Nat) (sizeofT : Nat)
    (sysNew : SysNew) : Outcome T :=
  let hw := deallocate h w
  let h1 : vector_intrinsic := { hw.1 with size_ := size__ }
  match static_framedata_allocator.allocate hw.2.deallocations h1.size_ sizeofT sysNew with
  | (some p, ds) => ⟨{ h1 with data_ := p }, { hw.2 with deallocations := ds }, false⟩
  | (none, ds) => ⟨h1, { hw.2 with deallocations := ds }, true⟩

/-- The method `move_from(vector_intrinsic &&m)` for `m` an object other than
`*this`: the new `*this` and the new `m`. -/
def move_from (_h m : vector_intrinsic) : vector_intrinsic × vector_intrinsic :=
  ({ data_ := m.data_, size_ := m.size_ }, clear m)

/-- The method `move_from` called with `m` bound to `*this` itself: the two field
copies change nothing and `m.clear()` clears the one object. -/
def move_from_self (h : vector_intrinsic) : vector_intrinsic :=
  clear { data_ := h.data_, size_ := h.size_ }

/-- The default constructor `vector_intrinsic()`. -/
def construct : vector_intrinsic :=
  clear { data_ := nullptr, size_ := 0 }

/-- The destructor `~vector_intrinsic()`: the handle as `deallocate()` leaves it
(the object then ends) and the world. -/
def destruct (h : vector_intrinsic) (w : World T) : vector_intrinsic × World T :=
  deallocate h w

/-- The move constructor `vector_intrinsic(vector_intrinsic &&m)`: the new
handle and what is left of `m`. -/
def move_construct (m : vector_intrinsic) : vector_intrinsic × vector_intrinsic :=
  move_from { data_ := nullptr, size_ := 0 } m

/-- The move assignment `operator=(vector_intrinsic &&m)` for `m` another object:
the new `*this`, the new `m`, the world. -/
def move_assign (h m : vector_intrinsic) (w : World T) :
    vector_intrinsic × vector_intrinsic × World T :=
  let hw := deallocate h w
  let hm := move_from hw.1 m
  (hm.1, hm.2, hw.2)

/-- The move assignment `h = std::move(h)`. -/
def move_assign_self (h : vector_intrinsic) (w : World T) : vector_intrinsic × World T :=
  let hw := deallocate h w
  (move_from_self hw.1, hw.2)

/-- The template overload `assign(V begin_, V end_)` for a multi-pass iterator range
`xs`: `std::distance` counts its positions, then `std::copy` reads them one by one
while it stores into the region just obtained. -/
def assign (h : vector_intrinsic) (w : World T) (xs : List (Iter T)) (sizeofT : Nat)
    (sysNew : SysNew) : Outcome T :=
  let o := allocate h w xs.length sizeofT sysNew
  if o.threw then o
  else { o with w := { o.w with mem := std_copy o.w.mem xs o.h.data_ } }

/-- The overload `assign(const T *begin_, const T *end_)`. -/
def assign_ptr (h : vector_intrinsic) (w : World T) (begin_ end_ : Ptr) (sizeofT : Nat)
    (sysNew : SysNew) : Outcome T :=
  let o := allocate h w (distance begin_ end_) sizeofT sysNew
  if o.threw then o
  else { o with w := { o.w with
    mem := memcpy o.w.mem o.h.data_ begin_ (alloc_bytes o.h.size_ sizeofT) sizeofT } }

/-- The accessor `begin()`. -/
def begin (h : vector_intrinsic) : Ptr := h.data_

/-- The accessor `end()`. -/
def end_ (h : vector_intrinsic) : Ptr := h.data_ + h.size_

/-- The accessor `data()`. -/
def data (h : vector_intrinsic) : Ptr := h.data_

/-- The accessor `size()`. -/
def size (h : vector_intrinsic) : Nat := h.size_

/-- The method `resize_with_initialization(size_t n, T value)`. -/
def resize_with_initialization (h : vector_intrinsic) (w : World T) (n : Nat) (value : T)
    (sizeofT : Nat) (sysNew : SysNew) : Outcome T :=
  let o := allocate h w n sizeofT sysNew
  if o.threw then o
  else
    let begin_ := begin o.h
    let end_ := end_ o.h
    { o with w := { o.w with mem := fill o.w.mem begin_ value (end_ - begin_) } }

/-- The method `resize_without_initialization(size_t n, T value)`. -/
def resize_without_initialization (h : vector_intrinsic) (w : World T) (n : Nat) (_value : T)
    (sizeofT : Nat) (sysNew : SysNew) : Outcome T :=
  allocate h w n sizeofT sysNew

/-- The method `resize(size_t n, T value)`. -/
def resize (h : vector_intrinsic) (w : World T) (n : Nat) (value : T)
    (sizeofT : Nat) (sysNew : SysNew) : Outcome T :=
  if n < 1024 then resize_with_initialization h w n value sizeofT sysNew
  else resize_without_initialization h w n value sizeofT sysNew

end vector_intrinsic

/-! ## Clients of the allocator -/

/-- The registry of one allocator instance together with the regions its callers
currently hold (pointer and the count it was allocated with). -/
structure AllocState where
  deallocations : List Deallocation
  held : List Deallocation

/-- One call of a client on the allocator; an `allocate` call carries the behaviour
of the system allocator at that moment. -/
inductive AllocCall where
  | allocate (n : Nat) (sysNew : SysNew)
  | deallocate (a : Ptr) (n : Nat)

namespace AllocState

/-- The state before the first call: `get_instance()` creates an empty registry. -/
def init : AllocState := { deallocations := [], held := [] }

/-- The pointers in the registry. -/
def registered (s : AllocState) : List Ptr := s.deallocations.map (fun d => d.t)

/-- The pointers held by callers. -/
def owned (s : AllocState) : List Ptr := s.held.map (fun d => d.t)

/-- Effect of one call: `allocate` gives its result to the caller, `deallocate`
takes the region away from the caller. -/
def step (sizeofT : Nat) (s : AllocState) : AllocCall → AllocState
  | .allocate n sysNew =>
    match static_framedata_allocator_array.allocate s.deallocations n sizeofT sysNew with
    | (some p, ds) => { deallocations := ds, held := ⟨p, n⟩ :: s.held }
    | (none, ds) => { deallocations := ds, held := s.held }
  | .deallocate a n =>
    { deallocations := static_framedata_allocator_array.deallocate s.deallocations a n,
      held := s.held.erase ⟨a, n⟩ }

/-- A call is admissible when the caller deallocates only a region it holds, with
the count it was allocated with, and the system allocator answers an
`allocate` only with a pointer that is neither held nor registered. -/
def admissible (sizeofT : Nat) (s : AllocState) : AllocCall → Prop
  | .allocate n sysNew =>
    ∀ p, sysNew (alloc_bytes n sizeofT) = some p → p ∉ s.owned ∧ p ∉ s.registered
  | .deallocate a n => (⟨a, n⟩ : Deallocation) ∈ s.held

/-- The state after a sequence of calls. -/
def run (sizeofT : Nat) : AllocState → List AllocCall → AllocState
  | s, [] => s
  | s, c :: cs => run sizeofT (step sizeofT s c) cs

/-- Every call of the sequence is admissible in the state it is made in. -/
def admissible_run (sizeofT : Nat) : AllocState → List AllocCall → Prop
  | _, [] => True
  | s, c :: cs => admissible sizeofT s c ∧ admissible_run sizeofT (step sizeofT s c) cs

/-- No pointer occurs twice among the registered and the held regions. -/
def separated (s : AllocState) : Prop :=
  ((s.deallocations ++ s.held).map (fun d => d.t)).Nodup

end AllocState

/-! ## A system of handles sharing the pool -/

/-- The pool, the memory and the handle objects of a program.  A handle object is
named by its position in `handles`; `none` marks a destroyed object. -/
structure Sys (T : Type) where
  w : World T
  handles : List (Option vector_intrinsic)

/-- One public operation on the handles of a program.  Operations that may
allocate carry the behaviour of the system allocator at that moment. -/
inductive HandleOp (T : Type) where
  | construct
  | assign (i : Nat) (xs : List (Iter T)) (sysNew : SysNew)
  | assign_ptr (i : Nat) (begin_ end_ : Ptr) (sysNew : SysNew)
  | resize (i : Nat) (n : Nat) (value : T) (sysNew : SysNew)
  | move_construct (j : Nat)
  | move_assign (i j : Nat)
  | destruct (i : Nat)

/-- The pointer a handle object owns: its `data_` when it is live and non-null. -/
def own_ptr : Option vector_intrinsic → Option Ptr
  | some h => if h.data_ = nullptr then none else some h.data_
  | none => none

namespace Sys

variable {T : Type}

/-- A program that has not created a handle yet; the pool instance starts with an
empty registry. -/
def init (mem : Ptr → T) : Sys T :=
  { w := { deallocations := [], mem := mem }, handles := [] }

/-- The live handle object at position `i`, if any. -/
def live (s : Sys T) (i : Nat) : Option vector_intrinsic :=
  match s.handles[i]? with
  | some (some h) => some h
  | _ => none

/-- The pointers in the free registry. -/
def registered (s : Sys T) : List Ptr := s.w.deallocations.map (fun d => d.t)

/-- The pointers owned by live handles. -/
def owned (s : Sys T) : List Ptr := s.handles.filterMap own_ptr

/-- A single-handle method that may allocate, run on the object at position `i`;
`none` when there is no such live object or `std::bad_alloc` leaves the
method. -/
def on_handle (s : Sys T) (i : Nat) (f : vector_intrinsic → World T → Outcome T) :
    Option (Sys T) :=
  match s.live i with
  | none => none
  | some h =>
    let o := f h s.w
    if o.threw then none else some { w := o.w, handles := s.handles.set i (some o.h) }

/-- Effect of one operation; `none` when it names an object that is not live or
does not complete normally. -/
def step (sizeofT : Nat) (s : Sys T) : HandleOp T → Option (Sys T)
  | .construct =>
    some { s with handles := s.handles ++ [some vector_intrinsic.construct] }
  | .assign i xs sysNew =>
    on_handle s i (fun h w => vector_intrinsic.assign h w xs sizeofT sysNew)
  | .assign_ptr i begin_ end_ sysNew =>
    on_handle s i (fun h w => vector_intrinsic.assign_ptr h w begin_ end_ sizeofT sysNew)
  | .resize i n value sysNew =>
    on_handle s i (fun h w => vector_intrinsic.resize h w n value sizeofT sysNew)
  | .move_construct j =>
    match s.live j with
    | none => none
    | some m =>
      let r := vector_intrinsic.move_construct m
      some { s with handles := s.handles.set j (some r.2) ++ [some r.1] }
  | .move_assign i j =>
    match s.live i, s.live j with
    | some h, some m =>
      if i = j then
        let r := vector_intrinsic.move_assign_self h s.w
        some { w := r.2, handles := s.handles.set i (some r.1) }
      else
        let r := vector_intrinsic.move_assign h m s.w
        some { w := r.2.2, handles := (s.handles.set i (some r.1)).set j (some r.2.1) }
    | _, _ => none
  | .destruct i =>
    match s.live i with
    | none => none
    | some h =>
      some { w := (vector_intrinsic.destruct h s.w).2, handles := s.handles.set i none }

/-- The system allocator, if an operation reaches it, answers with a pointer
that is neither in the registry nor owned by a live handle. -/
def admissible (s : Sys T) : HandleOp T → Prop
  | .assign _ _ sysNew | .assign_ptr _ _ _ sysNew | .resize _ _ _ sysNew =>
    ∀ b p, sysNew b = some p → p ∉ s.registered ∧ p ∉ s.owned
  | _ => True

/-- The state after a sequence of operations that all complete normally. -/
def run (sizeofT : Nat) : Sys T → List (HandleOp T) → Option (Sys T)
  | s, [] => some s
  | s, op :: ops =>
    match step sizeofT s op with
    | some s1 => run sizeofT s1 ops
    | none => none

/-- Every operation of the sequence is admissible in the state it is run in. -/
def admissible_run (sizeofT : Nat) : Sys T → List (HandleOp T) → Prop
  | _, [] => True
  | s, op :: ops =>
    admissible s op ∧
      match step sizeofT s op with
      | some s1 => admissible_run sizeofT s1 ops
      | none => True

/-- No pointer occurs twice among the registered pointers and the pointers owned
by live handles. -/
def separated (s : Sys T) : Prop := (s.registered ++ s.owned).Nodup

end Sys

/-- A run of eight handle operations, used to illustrate the ownership invariant. -/
def handles_example_ops : List (HandleOp Nat) :=
  [.construct, .resize 0 2 7 (fun _ => some 100), .construct, .move_assign 1 0,
    .construct, .resize 2 3 9 (fun _ => some 200), .destruct 1, .move_construct 2]

/-- The state `handles_example_ops` leads to from the initial state with zeroed
memory. -/
def handles_example_final : Sys Nat :=
  { w := { deallocations := [⟨100, 2⟩],
           mem := fill (fill (fun _ => 0) 100 7 2) 200 9 3 },
    handles := [some ⟨nullptr, 0⟩, none, some ⟨nullptr, 0⟩, some ⟨200, 3⟩] }

/-! ## `image.h`: splitting a frame -/

/-- What a loop or a call of `image.h` leaves behind: the memory, and whether an
exception left it. -/
structure SplitOutcome (V : Type) where
  mem : Ptr → V
  threw : Bool

/-- What `split_frame_parallel_sides` leaves behind: the memory, whether an
exception left the call, and whether the task given to the pool ended with an
exception (which `std::packaged_task` stores in the shared state of
`a_future`). -/
structure ParallelOutcome (V : Type) where
  mem : Ptr → V
  threw : Bool
  a_failed : Bool

/-- A callable that always returns: `f` seen as a `SPLIT_A`/`SPLIT_B` argument.
Callables are functions `V → Option V`, `none` standing for a thrown exception. -/
def returning {V : Type} (f : V → V) : V → Option V := fun x => some (f x)

/-- One side of `split_frame_parallel_sides`, lines 41-42 and 48-49:
`for (int i = 0; i < count; ++i, ++s, ++a) *a = split(*s);` with `k` iterations
to go.  The loop ends at the first call of `split` that throws. -/
def side_loop {V : Type} (split : V → Option V) (mem : Ptr → V) (a s : Ptr) :
    Nat → SplitOutcome V
  | 0 => { mem := mem, threw := false }
  | k + 1 =>
    match split (mem s) with
    | none => { mem := mem, threw := true }
    | some v => side_loop split (Function.update mem a v) (a + 1) (s + 1) k

/-- The loop of `split_frame_simple`, lines 58-62:
`*a++ = split_a(*source); *b++ = split_b(*source++);` with `k` iterations to go. -/
def simple_loop {V : Type} (split_a split_b : V → Option V) (mem : Ptr → V)
    (a b source : Ptr) : Nat → SplitOutcome V
  | 0 => { mem := mem, threw := false }
  | k + 1 =>
    match split_a (mem source) with
    | none => { mem := mem, threw := true }
    | some va =>
      match split_b (Function.update mem a va source) with
      | none => { mem := Function.update mem a va, threw := true }
      | some vb =>
        simple_loop split_a split_b (Function.update (Function.update mem a va) b vb)
          (a + 1) (b + 1) (source + 1) k

/-- The function `split_frame_simple`; `dest0`, `dest1` are `dest[0]`, `dest[1]`.  An
`int` count that is zero or negative gives no iteration. -/
def split_frame_simple {V : Type} (mem : Ptr → V) (dest0 dest1 : Ptr) (count : Int)
    (source : Ptr) (split_a split_b : V → Option V) : SplitOutcome V :=
  simple_loop split_a split_b mem dest0 dest1 source count.toNat

/-- The function `split_frame_parallel_sides`.  The thread pool (`ctpl_stl.h`) is
not part of the sources at hand and enters as two parameters: `pushed` tells
whether `pool.push` queued the task and returned a future (`false`: it threw in
the calling thread), and `a_first` tells which of the two loops, each taken as
a whole, runs first.  An exception of the caller's own loop leaves the call;
an exception of the task stays in `a_future`, since `std::future::wait`
returns without rethrowing. -/
def split_frame_parallel_sides {V : Type} (pushed a_first : Bool) (mem : Ptr → V)
    (dest0 dest1 : Ptr) (count : Int) (source : Ptr) (split_a split_b : V → Option V) :
    ParallelOutcome V :=
  if pushed then
    if a_first then
      let ra := side_loop split_a mem dest0 source count.toNat
      let rb := side_loop split_b ra.mem dest1 source count.toNat
      { mem := rb.mem, threw := rb.threw, a_failed := ra.threw }
    else
      let rb := side_loop split_b mem dest1 source count.toNat
      if rb.threw then
        { mem := rb.mem, threw := true, a_failed := false }
      else
        let ra := side_loop split_a rb.mem dest0 source count.toNat
        { mem := ra.mem, threw := false, a_failed := ra.threw }
  else
    { mem := mem, threw := true, a_failed := false }

/-- The function `split_frame`: it calls `split_frame_parallel_sides`. -/
def split_frame {V : Type} (pushed a_first : Bool) (mem : Ptr → V)
    (dest0 dest1 : Ptr) (count : Int) (source : Ptr) (split_a split_b : V → Option V) :
    ParallelOutcome V :=
  split_frame_parallel_sides pushed a_first mem dest0 dest1 count source split_a split_b

/-- Three regions of `k` elements that are pairwise disjoint. -/
def regions_disjoint (dest0 dest1 source k : Nat) : Prop :=
  (dest0 + k ≤ dest1 ∨ dest1 + k ≤ dest0) ∧
  (dest0 + k ≤ source ∨ source + k ≤ dest0) ∧
  (dest1 + k ≤ source ∨ source + k ≤ dest1)

/-- The contents a split must produce: `split_a` of the source at `dest0`, `split_b` of
the source at `dest1`, everything else as before. -/
def split_result {V : Type} (mem : Ptr → V) (dest0 dest1 source k : Nat) (fa fb : V → V) :
    Ptr → V :=
  fun x =>
    if dest0 ≤ x ∧ x < dest0 + k then fa (mem (source + (x - dest0)))
    else if dest1 ≤ x ∧ x < dest1 + k then fb (mem (source + (x - dest1)))
    else mem x

/-- What a split of `count` elements must have done to the memory `mem`, giving `m`:
both destinations hold the extracted elements, every address outside the two
written regions is as before (in particular destination elements at an index
from `count` on, and the source), and a count of zero or less writes nothing. -/
def split_post {V : Type} (mem m : Ptr → V) (dest0 dest1 : Ptr) (count : Int) (source : Ptr)
    (fa fb : V → V) : Prop :=
  (∀ i : Nat, i < count.toNat →
    m (dest0 + i) = fa (mem (source + i)) ∧ m (dest1 + i) = fb (mem (source + i))) ∧
  (∀ x : Nat, ¬ (dest0 ≤ x ∧ x < dest0 + count.toNat) →
    ¬ (dest1 ≤ x ∧ x < dest1 + count.toNat) → m x = mem x) ∧
  (∀ j : Nat, count.toNat ≤ j →
    (¬ (dest1 ≤ dest0 + j ∧ dest0 + j < dest1 + count.toNat) →
      m (dest0 + j) = mem (dest0 + j)) ∧
    (¬ (dest0 ≤ dest1 + j ∧ dest1 + j < dest0 + count.toNat) →
      m (dest1 + j) = mem (dest1 + j))) ∧
  (∀ i : Nat, i < count.toNat → m (source + i) = mem (source + i)) ∧
  (count ≤ 0 → m = mem)

/-- Cells of the example memory: a source element is a pair, a destination
element a single number. -/
inductive Cell where
  | pair (a b : Nat)
  | scalar (a : Nat)
deriving DecidableEq, Repr

/-- The extraction `first` of the example. -/
def Cell.first : Cell → Cell
  | .pair a _ => .scalar a
  | c => c

/-- The extraction `second` of the example. -/
def Cell.second : Cell → Cell
  | .pair _ b => .scalar b
  | c => c

/-- Example memory: the source `[(1,10), (2,20), (3,30), (4,40), (5,50)]` at addresses
`0..4`, zeros elsewhere. -/
def split_example_mem : Ptr → Cell
  | 0 => .pair 1 10
  | 1 => .pair 2 20
  | 2 => .pair 3 30
  | 3 => .pair 4 40
  | 4 => .pair 5 50
  | _ => .scalar 0

/-- A callable that throws on the pair `(3, 30)` and extracts the first component
otherwise. -/
def split_example_throwing : Cell → Option Cell
  | .pair 3 30 => none
  | c => some c.first

/-! ## `framedata_allocator`: the pool instance on an explicit heap -/

namespace framedata_allocator

variable {T : Type}

/-- The method `framedata_allocator<T>::allocate`, lines 186-189: it forwards to the
singleton instance, whose registry is part of the world. -/
def allocate (w : World T) (n sizeofT : Nat) (sysNew : SysNew) : Option Ptr × World T :=
  ((static_framedata_allocator.allocate w.deallocations n sizeofT sysNew).1,
    { w with deallocations :=
      (static_framedata_allocator.allocate w.deallocations n sizeofT sysNew).2 })

/-- The method `framedata_allocator<T>::deallocate`, lines 191-194. -/
def deallocate (w : World T) (a : Ptr) (n : Nat) : World T :=
  { w with deallocations := static_framedata_allocator.deallocate w.deallocations a n }

/-- The world after one call on the allocator. -/
def step (sizeofT : Nat) (w : World T) : AllocCall → World T
  | .allocate n sysNew => (allocate w n sizeofT sysNew).2
  | .deallocate a n => deallocate w a n

/-- The world after a sequence of calls on the allocator. -/
def run (sizeofT : Nat) : World T → List AllocCall → World T
  | w, [] => w
  | w, c :: cs => run sizeofT (step sizeofT w c) cs

end framedata_allocator

/-! ## Comparing the two registries -/

/-- The relation between a flat-list registry and a map registry: for every count
both hold the same number of free regions of that count. -/
def same_counts (ds : List Deallocation) (m : static_framedata_allocator_map.Registry) :
    Prop :=
  ∀ k : Nat, ds.countP (fun d => decide (d.n = k))
    = (static_framedata_allocator_map.find m k).length

/-! ## Recency order, in the words of the spec -/

/-- Following the words of the spec ("scanned in most-recently-freed order") and of
the comment in `allocate` ("favor the most recently deallocated"): with the free
regions listed in the order of their deallocation, the region to hand out for
count `n` is the last one of that count. -/
def most_recent (ds : List Deallocation) (n : Nat) : Option Ptr :=
  (ds.reverse.find? (fun d => decide (d.n = n))).map (fun d => d.t)

/-- Following the words of the spec: taking the most recently deallocated region
of count `n` out of the list leaves the order of the other regions. -/
def recency_remove (ds : List Deallocation) (n : Nat) : List Deallocation :=
  (ds.reverse.eraseP (fun d => decide (d.n = n))).reverse

/-- Following the words of the spec: the free regions in the order of their
deallocation after one call. -/
def recency_step (ds : List Deallocation) : AllocCall → List Deallocation
  | .allocate n _ => recency_remove ds n
  | .deallocate a n => ds ++ [⟨a, n⟩]

/-- Following the words of the spec: the free regions in the order of their
deallocation after a sequence of calls. -/
def recency_run : List Deallocation → List AllocCall → List Deallocation
  | ds, [] => ds
  | ds, c :: cs => recency_run (recency_step ds c) cs

/-- Calls that lead to a registry whose order is no longer the order of
deallocation: three regions are allocated (`10` of count 2, `20` and `30` of count
1), deallocated in that order, and the region of count 2 is allocated again. -/
def recency_example_calls : List AllocCall :=
  [.allocate 2 (fun _ => some 10), .allocate 1 (fun _ => some 20),
    .allocate 1 (fun _ => some 30), .deallocate 10 2, .deallocate 20 1, .deallocate 30 1,
    .allocate 2 (fun _ => some 40)]

/-! ## Release before reallocation -/

/-- What `vector_intrinsic::allocate(n)` has done to a handle `h` holding a region:
the old region is in the registry with its own count, the handle has size `n`
and another data pointer, and the registry is the old one plus the old region,
less the entry taken out for the new region if one was taken. -/
def released_first {T : Type} (h : vector_intrinsic) (w : World T) (n : Nat) (o : Outcome T) :
    Prop :=
  (⟨h.data_, h.size_⟩ : Deallocation) ∈ o.w.deallocations ∧
  o.h.size = n ∧
  o.h.data ≠ h.data_ ∧
  (List.Perm (w.deallocations ++ [⟨h.data_, h.size_⟩]) (⟨o.h.data_, n⟩ :: o.w.deallocations) ∨
    o.w.deallocations = w.deallocations ++ [⟨h.data_, h.size_⟩])

/-! ## Well-formed handles -/

/-- Well-formedness of a handle, given the pairs `G` the pool has handed out: a
null `data()` goes with `size() = 0`, `end() - begin()` is `size()`, and a non-null `data()`
was handed out by the pool for the count `size()`. -/
def vector_intrinsic.well_formed (a : vector_intrinsic) (G : List Deallocation) : Prop :=
  (a.data = nullptr → a.size = 0) ∧
  a.end_ - a.begin = a.size ∧
  (a.data ≠ nullptr → (⟨a.data, a.size⟩ : Deallocation) ∈ G)

namespace Sys

variable {T : Type}

/-- The throwing `::operator new` never returns a null pointer: the system
allocator of an operation, if it answers, answers with a non-null pointer. -/
def sys_nonnull : HandleOp T → Prop
  | .assign _ _ sysNew | .assign_ptr _ _ _ sysNew | .resize _ _ _ sysNew =>
    ∀ b p, sysNew b = some p → p ≠ nullptr
  | _ => True

/-- What the pool hands to the live handle at position `i` when the handle calls
`vector_intrinsic::allocate(n)`: there the pool's `allocate(n)` is called after the
handle's own `deallocate()`.  The result is the pair of the pointer returned and
the count asked for. -/
def pool_grant (sizeofT : Nat) (s : Sys T) (i n : Nat) (sysNew : SysNew) :
    Option Deallocation :=
  match s.live i with
  | none => none
  | some h =>
    match (framedata_allocator.allocate (vector_intrinsic.deallocate h s.w).2 n sizeofT
        sysNew).1 with
    | some p => some ⟨p, n⟩
    | none => none

/-- The pair the pool hands out during one operation, if the operation asks the
pool: `assign` asks for the length of the range, `resize(n, v)` for `n`. -/
def grant (sizeofT : Nat) (s : Sys T) : HandleOp T → Option Deallocation
  | .assign i xs sysNew => pool_grant sizeofT s i xs.length sysNew
  | .assign_ptr i begin_ end_ sysNew => pool_grant sizeofT s i (distance begin_ end_) sysNew
  | .resize i n _ sysNew => pool_grant sizeofT s i n sysNew
  | _ => none

/-- All pairs (pointer, count) the pool has handed out along a sequence of
operations that complete normally. -/
def grants (sizeofT : Nat) : Sys T → List (HandleOp T) → List Deallocation
  | _, [] => []
  | s, op :: ops =>
    match step sizeofT s op with
    | some s1 => (grant sizeofT s op).toList ++ grants sizeofT s1 ops
    | none => []

/-- Every live handle is well formed, given the pairs `G` the pool has handed out. -/
def well_formed (G : List Deallocation) (s : Sys T) : Prop :=
  ∀ i a, s.live i = some a → a.well_formed G

end Sys

/-- A run of handle operations, used to illustrate well-formedness: `h0` is
constructed and filled with three elements (fresh region `100`), moved into a new
handle `h1`, `h0` is resized to two elements (fresh region `200`) and `h1` is
move-assigned to itself, which registers `(100, 3)`; `h0` then takes that region by
`resize(3, 9)`. -/
def well_formed_example_ops : List (HandleOp Nat) :=
  [.construct, .assign 0 [.value 1, .value 2, .value 3] (fun _ => some 100),
    .move_construct 0,
    .resize 0 2 7 (fun _ => some 200), .move_assign 1 1, .resize 0 3 9 (fun _ => none)]

/-- The state `well_formed_example_ops` leads to from the initial state with zeroed
memory. -/
def well_formed_example_final : Sys Nat :=
  { w := { deallocations := [⟨200, 2⟩],
           mem := fill (fill (std_copy (fun _ => 0) [.value 1, .value 2, .value 3] 100)
             200 7 2) 100 9 3 },
    handles := [some ⟨100, 3⟩, some ⟨nullptr, 0⟩] }

namespace Sys

variable {T : Type}

/-- A single-handle method that may allocate, run on the object at position `i`, when
`std::bad_alloc` leaves the method: the exception unwinds to the caller and the
object lives on with the fields the method has stored.  The result is `none` when
there is no such live object or the method completes normally. -/
def on_handle_failed (s : Sys T) (i : Nat) (f : vector_intrinsic → World T → Outcome T) :
    Option (Sys T) :=
  match s.live i with
  | none => none
  | some h =>
    let o := f h s.w
    if o.threw then some { w := o.w, handles := s.handles.set i (some o.h) } else none

/-- Effect of one operation that `std::bad_alloc` leaves; `none` when the operation
names an object that is not live, completes normally, or cannot throw. -/
def step_failed (sizeofT : Nat) (s : Sys T) : HandleOp T → Option (Sys T)
  | .assign i xs sysNew =>
    on_handle_failed s i (fun h w => vector_intrinsic.assign h w xs sizeofT sysNew)
  | .assign_ptr i begin_ end_ sysNew =>
    on_handle_failed s i
      (fun h w => vector_intrinsic.assign_ptr h w begin_ end_ sizeofT sysNew)
  | .resize i n value sysNew =>
    on_handle_failed s i (fun h w => vector_intrinsic.resize h w n value sizeofT sysNew)
  | _ => none

end Sys

/-- One default-constructed handle over an empty registry and zeroed memory. -/
def failed_resize_example_start : Sys Nat :=
  { w := { deallocations := [], mem := fun _ => 0 }, handles := [some ⟨nullptr, 0⟩] }

/-- The state `failed_resize_example_start` is in after `resize(3, 9)` on its handle has
thrown. -/
def failed_resize_example_thrown : Sys Nat :=
  { w := { deallocations := [], mem := fun _ => 0 }, handles := [some ⟨nullptr, 3⟩] }

/-- The state after a second handle is move-constructed from the handle of
`failed_resize_example_thrown`. -/
def failed_resize_example_final : Sys Nat :=
  { w := { deallocations := [], mem := fun _ => 0 },
    handles := [some ⟨nullptr, 0⟩, some ⟨nullptr, 3⟩] }

/-! ## Properties of the allocators -/

namespace static_framedata_allocator_array

theorem perm_getLast_dropLast (l : List Deallocation) (d : Deallocation) (h : l ≠ []) :
    List.Perm l (l.getLastD d :: l.dropLast) := by
  have e : l = l.dropLast ++ [l.getLast h] := (List.dropLast_append_getLast h).symm
  have e2 : l.getLastD d = l.getLast h := by
    cases l with
    | nil => exact absurd rfl h
    | cons a as => rfl
  rw [e2]
  conv => lhs; rw [e]
  exact List.perm_append_singleton _ _

theorem swap_remove_perm (ds : List Deallocation) : ∀ (i : Nat) (d : Deallocation),
    ds[i]? = some d →
    List.Perm ds (d :: (if i + 1 ≠ ds.length then ds.set i (ds.getLastD d) else ds).dropLast) := by
  induction ds with
  | nil => intro i d h; simp at h
  | cons x xs ih =>
    intro i d h
    cases i with
    | zero =>
      simp at h
      subst h
      cases xs with
      | nil => simp
      | cons y ys =>
        have e : (if 0 + 1 ≠ (x :: y :: ys).length
              then (x :: y :: ys).set 0 ((x :: y :: ys).getLastD x) else x :: y :: ys).dropLast
            = (y :: ys).getLastD x :: (y :: ys).dropLast := by
          have hc2 : ¬ (0 + 1 = (x :: y :: ys).length) := by simp
          simp only [ne_eq, hc2, not_false_eq_true, if_true, List.set_cons_zero]
          rw [List.dropLast_cons_of_ne_nil (by simp)]
          simp [List.getLastD]
        rw [e]
        exact List.Perm.cons x (perm_getLast_dropLast (y :: ys) x (by simp))
    | succ j =>
      simp at h
      have ih1 := ih j d (by simpa using h)
      cases xs with
      | nil => simp at h
      | cons y ys =>
        have e : (if j + 1 + 1 ≠ (x :: y :: ys).length
              then (x :: y :: ys).set (j + 1) ((x :: y :: ys).getLastD d)
              else x :: y :: ys)
            = x :: (if j + 1 ≠ (y :: ys).length
              then (y :: ys).set j ((y :: ys).getLastD d) else y :: ys) := by
          by_cases hc : j + 1 = (y :: ys).length
          · simp [hc]
          · have hc2 : ¬ (j + 1 + 1 = (x :: y :: ys).length) := by simpa using hc
            simp [hc, hc2, List.getLastD]
            split <;> rfl
        rw [e]
        have ne : (if j + 1 ≠ (y :: ys).length
              then (y :: ys).set j ((y :: ys).getLastD d) else y :: ys) ≠ [] := by
          split <;> simp
        rw [List.dropLast_cons_of_ne_nil ne]
        exact (List.Perm.cons x ih1).trans (List.Perm.swap d x _)

theorem scan_some (ds : List Deallocation) (n : Nat) (t : Ptr) (ds1 : List Deallocation) :
    ∀ k, scan ds n k = some (t, ds1) →
      ∃ i, i < k ∧ ds[i]? = some ⟨t, n⟩ ∧
        (∀ j d, i < j → j < k → ds[j]? = some d → d.n ≠ n) ∧
        ds1 = (if i + 1 ≠ ds.length then ds.set i (ds.getLastD ⟨t, n⟩) else ds).dropLast := by
  intro k
  induction k with
  | zero => intro h; simp [scan] at h
  | succ k ih =>
    intro h
    unfold scan at h
    cases hd : ds[k]? with
    | none => rw [hd] at h; simp at h
    | some d =>
      rw [hd] at h
      simp only at h
      by_cases hn : d.n = n
      · simp only [hn, if_true, Option.some.injEq, Prod.mk.injEq] at h
        obtain ⟨h1, h2⟩ := h
        have hd2 : d = ⟨t, n⟩ := by cases d; simp_all
        refine ⟨k, Nat.lt_succ_self k, by rw [hd, hd2], ?_, ?_⟩
        · intro j d2 h3 h4; omega
        · rw [← h2, hd2]
      · simp only [hn, if_false] at h
        obtain ⟨i, hi, hg, hs, he⟩ := ih h
        refine ⟨i, Nat.lt_succ_of_lt hi, hg, ?_, he⟩
        intro j d2 h3 h4 h5
        by_cases hjk : j = k
        · subst hjk; rw [hd] at h5; cases h5; exact hn
        · exact hs j d2 h3 (by omega) h5

theorem scan_none (ds : List Deallocation) (n : Nat) :
    ∀ k, k ≤ ds.length → (scan ds n k = none ↔ ∀ j d, j < k → ds[j]? = some d → d.n ≠ n) := by
  intro k
  induction k with
  | zero => intro _; simp [scan]
  | succ k ih =>
    intro hk
    have hlt : k < ds.length := hk
    unfold scan
    have hd : ds[k]? = some (ds.get ⟨k, hlt⟩) := by simp [List.getElem?_eq_getElem hlt]
    rw [hd]
    simp only
    by_cases hn : (ds.get ⟨k, hlt⟩).n = n
    · simp only [hn, if_true]
      constructor
      · intro h; simp at h
      · intro h; exact absurd hn (h k _ (Nat.lt_succ_self k) hd)
    · simp only [hn, if_false]
      rw [ih (Nat.le_of_lt hlt)]
      constructor
      · intro h j d hj hg
        by_cases hjk : j = k
        · subst hjk; rw [hd] at hg; cases hg; exact hn
        · exact h j d (by omega) hg
      · intro h j d hj hg
        exact h j d (by omega) hg

theorem take_some {ds : List Deallocation} {n : Nat} {t : Ptr} {ds1 : List Deallocation}
    (h : take ds n = some (t, ds1)) :
    (⟨t, n⟩ : Deallocation) ∈ ds ∧ List.Perm ds (⟨t, n⟩ :: ds1) := by
  obtain ⟨i, _, hg, _, he⟩ := scan_some ds n t ds1 ds.length h
  refine ⟨List.getElem?_mem hg, ?_⟩
  rw [he]
  exact swap_remove_perm ds i ⟨t, n⟩ hg

theorem take_none {ds : List Deallocation} {n : Nat} :
    take ds n = none ↔ ∀ d ∈ ds, d.n ≠ n := by
  unfold take
  rw [scan_none ds n ds.length (Nat.le_refl _)]
  constructor
  · intro h d hd
    obtain ⟨j, hj, he⟩ := List.getElem_of_mem hd
    exact h j d hj (by rw [List.getElem?_eq_getElem hj, he])
  · intro h j d _ hg
    exact h d (List.getElem?_mem hg)

theorem take_push (ds : List Deallocation) (p : Ptr) (n : Nat) :
    take (deallocate ds p n) n = some (p, ds) := by
  unfold take deallocate
  rw [List.length_append, List.length_singleton]
  unfold scan
  simp

theorem allocate_of_take_some {ds : List Deallocation} {n : Nat} {t : Ptr}
    {ds1 : List Deallocation} (h : take ds n = some (t, ds1)) (sizeofT : Nat)
    (sysNew : SysNew) : allocate ds n sizeofT sysNew = (some t, ds1) := by
  simp [allocate, h]

theorem allocate_of_take_none {ds : List Deallocation} {n : Nat}
    (h : take ds n = none) (sizeofT : Nat) (sysNew : SysNew) :
    allocate ds n sizeofT sysNew = (sysNew (alloc_bytes n sizeofT), ds) := by
  simp [allocate, h]

end static_framedata_allocator_array

namespace static_framedata_allocator_map

theorem find_store (m : Registry) (n : Nat) (v : List Ptr) : find (store m n v) n = v := by
  induction m with
  | nil => simp [store, find]
  | cons kv rest ih =>
    obtain ⟨k, w⟩ := kv
    unfold store
    by_cases h1 : k = n
    · simp [h1, find]
    · by_cases h2 : n < k
      · simp [h1, h2, find]
      · simp [h1, h2, find, ih]

theorem allocate_deallocate (m : Registry) (p : Ptr) (n sizeofT : Nat) (sysNew : SysNew) :
    (allocate (deallocate m p n) n sizeofT sysNew).1 = some p := by
  unfold allocate deallocate
  simp [find_store]

end static_framedata_allocator_map

/-- C1: for every count `n` (zero included) and every registry, if `allocate(n)`
returns `p`, then after `deallocate(p, n)` the next `allocate(n)` returns `p` again
(and the registry is back to what it was in between), whatever the system
allocator would have answered; this holds for the flat-list registry and for
the size-indexed map registry. -/
theorem allocate_deallocate_allocate_same
    (ds : List Deallocation) (m : static_framedata_allocator_map.Registry)
    (n sizeofT : Nat) (sys1 sys2 : SysNew) :
    (∀ p, (static_framedata_allocator_array.allocate ds n sizeofT sys1).1 = some p →
      static_framedata_allocator_array.allocate
        (static_framedata_allocator_array.deallocate
          (static_framedata_allocator_array.allocate ds n sizeofT sys1).2 p n)
        n sizeofT sys2
        = (some p, (static_framedata_allocator_array.allocate ds n sizeofT sys1).2)) ∧
    (∀ p, (static_framedata_allocator_map.allocate m n sizeofT sys1).1 = some p →
      (static_framedata_allocator_map.allocate
        (static_framedata_allocator_map.deallocate
          (static_framedata_allocator_map.allocate m n sizeofT sys1).2 p n)
        n sizeofT sys2).1 = some p) := by
  constructor
  · intro p _
    exact static_framedata_allocator_array.allocate_of_take_some
      (static_framedata_allocator_array.take_push _ p n) sizeofT sys2
  · intro p _
    exact static_framedata_allocator_map.allocate_deallocate _ p n sizeofT sys2

/-- C1 at `n = 0`: the flat list `[(7,3), (8,0), (9,3)]` hands out `8`, the map
`{3 ↦ [7, 9]}` falls through to the system allocator (`40`); both return the
same pointer after it is given back, although the system allocator now fails. -/
theorem allocate_deallocate_allocate_same_witness :
    (static_framedata_allocator_array.allocate [⟨7, 3⟩, ⟨8, 0⟩, ⟨9, 3⟩] 0 1
        (fun _ => some 40)).1 = some 8 ∧
    (static_framedata_allocator_map.allocate [(3, [7, 9])] 0 1 (fun _ => some 40)).1
        = some 40 ∧
    static_framedata_allocator_array.allocate
        (static_framedata_allocator_array.deallocate
          (static_framedata_allocator_array.allocate [⟨7, 3⟩, ⟨8, 0⟩, ⟨9, 3⟩] 0 1
            (fun _ => some 40)).2 8 0)
        0 1 (fun _ => none)
      = (some 8, (static_framedata_allocator_array.allocate [⟨7, 3⟩, ⟨8, 0⟩, ⟨9, 3⟩] 0 1
            (fun _ => some 40)).2) ∧
    (static_framedata_allocator_map.allocate
        (static_framedata_allocator_map.deallocate
          (static_framedata_allocator_map.allocate [(3, [7, 9])] 0 1 (fun _ => some 40)).2 40 0)
        0 1 (fun _ => none)).1 = some 40 :=
  ⟨by decide, by decide,
    (allocate_deallocate_allocate_same [⟨7, 3⟩, ⟨8, 0⟩, ⟨9, 3⟩] [(3, [7, 9])] 0 1
      (fun _ => some 40) (fun _ => none)).1 8 (by decide),
    (allocate_deallocate_allocate_same [⟨7, 3⟩, ⟨8, 0⟩, ⟨9, 3⟩] [(3, [7, 9])] 0 1
      (fun _ => some 40) (fun _ => none)).2 40 (by decide)⟩

/-- C2: if the locked block of `allocate(n)` hands out a pointer `t` from the
registry, then `allocate(n)` returns `t` and the pair `(t, n)` was registered: the
count is exactly `n`.  In particular, for `n1 ≠ n` every entry `(p, n1)` stays in the
registry with the multiplicity it had, and when no pointer is registered twice
the pointer handed out differs from every pointer registered with a count
other than `n`. -/
theorem allocate_reuses_exact_count (ds : List Deallocation) (n sizeofT : Nat)
    (sysNew : SysNew) (t : Ptr) (ds1 : List Deallocation)
    (h : static_framedata_allocator_array.take ds n = some (t, ds1)) :
    static_framedata_allocator_array.allocate ds n sizeofT sysNew = (some t, ds1) ∧
    (⟨t, n⟩ : Deallocation) ∈ ds ∧
    (∀ p n1, n1 ≠ n → ds1.count ⟨p, n1⟩ = ds.count ⟨p, n1⟩) ∧
    (∀ p n1, n1 ≠ n → (⟨p, n1⟩ : Deallocation) ∈ ds → (ds.map (fun d => d.t)).Nodup →
      t ≠ p) := by
  obtain ⟨hmem, hperm⟩ := static_framedata_allocator_array.take_some h
  refine ⟨static_framedata_allocator_array.allocate_of_take_some h sizeofT sysNew, hmem, ?_, ?_⟩
  · intro p n1 hne
    rw [hperm.count_eq, List.count_cons]
    have : ((⟨t, n⟩ : Deallocation) == ⟨p, n1⟩) = false := by
      simp
      intro _ h2
      exact hne h2.symm
    simp [this]
  · intro p n1 hne hp hnd htp
    subst htp
    have := List.inj_on_of_nodup_map hnd hmem hp rfl
    simp at this
    exact hne this.symm

/-- C2 on the registry `[(7,3), (8,5), (9,3)]` with `n = 5`: the pointer `8` comes out,
the entries of count `3` stay. -/
theorem allocate_reuses_exact_count_witness :
    static_framedata_allocator_array.take [⟨7, 3⟩, ⟨8, 5⟩, ⟨9, 3⟩] 5 = some (8, [⟨7, 3⟩, ⟨9, 3⟩]) ∧
    static_framedata_allocator_array.allocate [⟨7, 3⟩, ⟨8, 5⟩, ⟨9, 3⟩] 5 1 (fun _ => none)
      = (some 8, [⟨7, 3⟩, ⟨9, 3⟩]) ∧
    (⟨8, 5⟩ : Deallocation) ∈ [(⟨7, 3⟩ : Deallocation), ⟨8, 5⟩, ⟨9, 3⟩] ∧
    (8 : Ptr) ≠ 9 :=
  have h := allocate_reuses_exact_count [⟨7, 3⟩, ⟨8, 5⟩, ⟨9, 3⟩] 5 1 (fun _ => none) 8
    [⟨7, 3⟩, ⟨9, 3⟩] (by decide)
  ⟨by decide, h.1, h.2.1, h.2.2.2 9 3 (by decide) (by decide) (by decide)⟩

/-- C3: the locked block of `allocate(n)` hands out an entry of the registry `R`
iff `R` holds an entry of count `n`.  When it does, `allocate(n)` returns that
entry's pointer, the entry `(t, n)` is in `R`, and the registry afterwards is a
permutation of `R` with one occurrence of `(t, n)` erased.  When it does not, the
registry is unchanged and the result is whatever `::operator new(n * sizeof(T))`
gives. -/
theorem allocate_registry_effect (ds : List Deallocation) (n sizeofT : Nat)
    (sysNew : SysNew) :
    ((∃ t ds1, static_framedata_allocator_array.take ds n = some (t, ds1)) ↔
      ∃ d ∈ ds, d.n = n) ∧
    (∀ t ds1, static_framedata_allocator_array.take ds n = some (t, ds1) →
      static_framedata_allocator_array.allocate ds n sizeofT sysNew = (some t, ds1) ∧
      (⟨t, n⟩ : Deallocation) ∈ ds ∧
      List.Perm ds1 (ds.erase ⟨t, n⟩)) ∧
    (static_framedata_allocator_array.take ds n = none →
      static_framedata_allocator_array.allocate ds n sizeofT sysNew
        = (sysNew (alloc_bytes n sizeofT), ds)) := by
  refine ⟨?_, ?_, ?_⟩
  · constructor
    · rintro ⟨t, ds1, h⟩
      exact ⟨⟨t, n⟩, (static_framedata_allocator_array.take_some h).1, rfl⟩
    · rintro ⟨d, hd, hn⟩
      cases ht : static_framedata_allocator_array.take ds n with
      | none => exact absurd hn (static_framedata_allocator_array.take_none.1 ht d hd)
      | some r => exact ⟨r.1, r.2, rfl⟩
  · intro t ds1 h
    obtain ⟨hmem, hperm⟩ := static_framedata_allocator_array.take_some h
    refine ⟨static_framedata_allocator_array.allocate_of_take_some h sizeofT sysNew, hmem, ?_⟩
    exact ((List.perm_cons_erase hmem).symm.trans hperm).cons_inv.symm
  · intro h
    exact static_framedata_allocator_array.allocate_of_take_none h sizeofT sysNew

/-- C3 on the registry `[(7,3), (8,5), (9,3)]`: a request for `3` takes `(9,3)` out, a
request for `4` goes to the system allocator and leaves the registry alone. -/
theorem allocate_registry_effect_witness :
    static_framedata_allocator_array.allocate [⟨7, 3⟩, ⟨8, 5⟩, ⟨9, 3⟩] 3 1 (fun _ => some 40)
      = (some 9, [⟨7, 3⟩, ⟨8, 5⟩]) ∧
    List.Perm [(⟨7, 3⟩ : Deallocation), ⟨8, 5⟩]
      ([(⟨7, 3⟩ : Deallocation), ⟨8, 5⟩, ⟨9, 3⟩].erase ⟨9, 3⟩) ∧
    static_framedata_allocator_array.allocate [⟨7, 3⟩, ⟨8, 5⟩, ⟨9, 3⟩] 4 1 (fun _ => some 40)
      = (some 40, [⟨7, 3⟩, ⟨8, 5⟩, ⟨9, 3⟩]) :=
  have h := allocate_registry_effect [⟨7, 3⟩, ⟨8, 5⟩, ⟨9, 3⟩]
  have h3 := (h 3 1 (fun _ => some 40)).2.1 9 [⟨7, 3⟩, ⟨8, 5⟩] (by decide)
  ⟨h3.1, h3.2.2, (h 4 1 (fun _ => some 40)).2.2 (by decide)⟩

namespace AllocState

theorem alloc_separated_init : separated init := by
  simp [separated, init]

theorem alloc_separated_step (sizeofT : Nat) (s : AllocState) (c : AllocCall)
    (hs : separated s) (hc : admissible sizeofT s c) : separated (step sizeofT s c) := by
  cases c with
  | allocate n sysNew =>
    simp only [step]
    cases ht : static_framedata_allocator_array.take s.deallocations n with
    | some r =>
      obtain ⟨t, ds1⟩ := r
      rw [static_framedata_allocator_array.allocate_of_take_some ht]
      obtain ⟨_, hperm⟩ := static_framedata_allocator_array.take_some ht
      have hp : List.Perm (ds1 ++ ⟨t, n⟩ :: s.held) (s.deallocations ++ s.held) :=
        List.perm_middle.trans ((List.Perm.append_right s.held hperm).symm)
      exact ((hp.map _).nodup_iff).2 hs
    | none =>
      rw [static_framedata_allocator_array.allocate_of_take_none ht]
      cases hn : sysNew (alloc_bytes n sizeofT) with
      | none => exact hs
      | some p =>
        obtain ⟨h1, h2⟩ := hc p hn
        have hp : List.Perm (s.deallocations ++ ⟨p, n⟩ :: s.held)
            (⟨p, n⟩ :: (s.deallocations ++ s.held)) := List.perm_middle
        refine ((hp.map _).nodup_iff).2 ?_
        rw [List.map_cons, List.nodup_cons]
        refine ⟨?_, hs⟩
        simp only [List.map_append, List.mem_append, not_or]
        exact ⟨h2, h1⟩
  | deallocate a n =>
    simp only [step, static_framedata_allocator_array.deallocate]
    have hc2 : (⟨a, n⟩ : Deallocation) ∈ s.held := hc
    have hp : List.Perm ((s.deallocations ++ [⟨a, n⟩]) ++ s.held.erase ⟨a, n⟩)
        (s.deallocations ++ s.held) := by
      rw [List.append_assoc]
      exact List.Perm.append_left _ (List.perm_cons_erase hc2).symm
    exact ((hp.map _).nodup_iff).2 hs

theorem alloc_separated_run (sizeofT : Nat) (cs : List AllocCall) :
    ∀ s, separated s → admissible_run sizeofT s cs → separated (run sizeofT s cs) := by
  induction cs with
  | nil => intro s hs _; exact hs
  | cons c cs ih =>
    intro s hs hr
    exact ih _ (alloc_separated_step sizeofT s c hs hr.1) hr.2

end AllocState

/-- C4: from the empty registry, after every sequence of admissible calls (a
caller deallocates only a region it holds, with its count; the system
allocator answers with pointers that are neither held nor registered),
(1) no pointer occurs twice in the registry, (2) no registered pointer is held
by a caller, and (3) a further admissible `allocate` never returns a pointer
that a caller holds. -/
theorem allocator_no_aliasing (sizeofT : Nat) (cs : List AllocCall)
    (hr : AllocState.admissible_run sizeofT AllocState.init cs) :
    (AllocState.run sizeofT AllocState.init cs).registered.Nodup ∧
    (∀ p ∈ (AllocState.run sizeofT AllocState.init cs).registered,
      p ∉ (AllocState.run sizeofT AllocState.init cs).owned) ∧
    (∀ n sysNew p,
      AllocState.admissible sizeofT (AllocState.run sizeofT AllocState.init cs)
        (AllocCall.allocate n sysNew) →
      (static_framedata_allocator_array.allocate
        (AllocState.run sizeofT AllocState.init cs).deallocations n sizeofT sysNew).1 = some p →
      p ∉ (AllocState.run sizeofT AllocState.init cs).owned) := by
  have hs := AllocState.alloc_separated_run sizeofT cs _ AllocState.alloc_separated_init hr
  generalize AllocState.run sizeofT AllocState.init cs = s at hs
  unfold AllocState.separated at hs
  rw [List.map_append, List.nodup_append] at hs
  obtain ⟨h1, _, h3⟩ := hs
  refine ⟨h1, fun p hp hq => h3 hp hq, ?_⟩
  intro n sysNew p hadm hp
  cases ht : static_framedata_allocator_array.take s.deallocations n with
  | some r =>
    obtain ⟨t, ds1⟩ := r
    rw [static_framedata_allocator_array.allocate_of_take_some ht] at hp
    cases hp
    obtain ⟨hmem, _⟩ := static_framedata_allocator_array.take_some ht
    intro hq
    exact h3 (List.mem_map_of_mem (fun d => d.t) hmem) hq
  | none =>
    rw [static_framedata_allocator_array.allocate_of_take_none ht] at hp
    exact (hadm p hp).1

/-- C4 on the calls `a = allocate(2)` (fresh, 10), `b = allocate(2)` (fresh, 20),
`deallocate(a, 2)`, `allocate(2)` (reuses 10): afterwards the registry is empty and
the callers hold 10 and 20. -/
theorem allocator_no_aliasing_witness :
    AllocState.admissible_run 1 AllocState.init
      [.allocate 2 (fun _ => some 10), .allocate 2 (fun _ => some 20),
        .deallocate 10 2, .allocate 2 (fun _ => some 30)] ∧
    (AllocState.run 1 AllocState.init
      [.allocate 2 (fun _ => some 10), .allocate 2 (fun _ => some 20),
        .deallocate 10 2, .allocate 2 (fun _ => some 30)]).registered.Nodup :=
  have hr : AllocState.admissible_run 1 AllocState.init
      [.allocate 2 (fun _ => some 10), .allocate 2 (fun _ => some 20),
        .deallocate 10 2, .allocate 2 (fun _ => some 30)] := by
    simp [AllocState.admissible_run, AllocState.admissible, AllocState.step, AllocState.init,
      AllocState.owned, AllocState.registered, static_framedata_allocator_array.allocate,
      static_framedata_allocator_array.take, static_framedata_allocator_array.scan,
      static_framedata_allocator_array.deallocate]
  ⟨hr, (allocator_no_aliasing 1 _ hr).1⟩

/-! ## Properties of the handle -/

namespace vector_intrinsic

variable {T : Type}

theorem deallocate_mem (h : vector_intrinsic) (w : World T) :
    (deallocate h w).2.mem = w.mem := by
  unfold deallocate
  split <;> rfl

theorem allocate_size (h : vector_intrinsic) (w : World T) (n sizeofT : Nat)
    (sysNew : SysNew) : (allocate h w n sizeofT sysNew).h.size_ = n := by
  simp only [allocate]
  split <;> rfl

theorem allocate_mem (h : vector_intrinsic) (w : World T) (n sizeofT : Nat)
    (sysNew : SysNew) : (allocate h w n sizeofT sysNew).w.mem = w.mem := by
  simp only [allocate]
  split <;> exact deallocate_mem h w

end vector_intrinsic

theorem fill_apply {T : Type} (v : T) : ∀ (k : Nat) (mem : Nat → T) (p a : Nat),
    fill mem p v k a = if p ≤ a ∧ a < p + k then v else mem a := by
  intro k
  induction k with
  | zero =>
    intro mem p a
    have : ¬ (p ≤ a ∧ a < p) := by omega
    simp [fill, this]
  | succ k ih =>
    intro mem p a
    rw [fill, ih]
    by_cases h1 : a = p
    · subst h1
      simp [Function.update]
    · simp only [Function.update, h1, dite_false]
      by_cases h2 : p ≤ a ∧ a < p + (k + 1)
      · rw [if_pos h2, if_pos (by omega)]
      · rw [if_neg h2, if_neg (by omega)]

/-! ## Ownership in a system of handles -/

theorem own_ptr_some (h : vector_intrinsic) :
    own_ptr (some h) = if h.data_ = nullptr then none else some h.data_ := rfl

theorem multiset_transfer (P P1 O O1 ox oy E : Multiset Ptr)
    (h1 : O1 + ox = O + oy) (h2 : P1 + oy ≤ E + (P + ox)) : P1 + O1 ≤ E + (P + O) := by
  have h3 : (P1 + O1) + ox ≤ (E + (P + O)) + ox := by
    calc (P1 + O1) + ox = P1 + (O1 + ox) := by rw [add_assoc]
      _ = P1 + (O + oy) := by rw [h1]
      _ = (P1 + oy) + O := by abel
      _ ≤ (E + (P + ox)) + O := add_le_add_right h2 O
      _ = (E + (P + O)) + ox := by abel
  exact le_of_add_le_add_right h3

theorem owned_set (hs : List (Option vector_intrinsic)) (i : Nat)
    (x y : Option vector_intrinsic) (hi : hs[i]? = some x) :
    ((↑((hs.set i y).filterMap own_ptr) : Multiset Ptr) + ↑(own_ptr x).toList
      = ↑(hs.filterMap own_ptr) + ↑(own_ptr y).toList) := by
  obtain ⟨hlt, hx⟩ := List.getElem?_eq_some.1 hi
  have e1 : hs.set i y = hs.take i ++ y :: hs.drop (i + 1) := by
    rw [List.set_eq_take_append_cons_drop, if_pos hlt]
  have e2 : hs = hs.take i ++ x :: hs.drop (i + 1) := by
    conv => lhs; rw [← List.take_append_drop i hs, List.drop_eq_getElem_cons hlt, hx]
  rw [e1]
  conv => rhs; rw [e2]
  simp only [List.filterMap_append, List.filterMap_cons]
  cases own_ptr x <;> cases own_ptr y <;>
    simp only [Option.toList, ← Multiset.coe_add, ← Multiset.singleton_add,
      ← Multiset.cons_coe, Multiset.coe_nil, add_zero] <;> abel

theorem own_ptr_le (h : vector_intrinsic) :
    (↑(own_ptr (some h)).toList : Multiset Ptr) ≤ {h.data_} := by
  rw [own_ptr_some]
  split
  · simp [Option.toList]
  · simp [Option.toList]

theorem deallocate_accounting {T : Type} (h : vector_intrinsic) (w : World T) :
    (↑((vector_intrinsic.deallocate h w).2.deallocations.map (fun d => d.t)) : Multiset Ptr)
      = ↑(w.deallocations.map (fun d => d.t)) + ↑(own_ptr (some h)).toList ∧
    (vector_intrinsic.deallocate h w).1.data_ = nullptr := by
  unfold vector_intrinsic.deallocate
  by_cases hp : h.data_ = nullptr
  · simp [hp, own_ptr_some, Option.toList]
  · simp [hp, own_ptr_some, Option.toList, vector_intrinsic.clear,
      static_framedata_allocator_array.deallocate]
    rw [← Multiset.coe_singleton, Multiset.coe_add]

theorem allocate_accounting {T : Type} (h : vector_intrinsic) (w : World T)
    (n sizeofT : Nat) (sysNew : SysNew)
    (hok : (vector_intrinsic.allocate h w n sizeofT sysNew).threw = false) :
    ∃ E : Multiset Ptr, E.Nodup ∧ (∀ p ∈ E, ∃ b, sysNew b = some p) ∧
      (↑((vector_intrinsic.allocate h w n sizeofT sysNew).w.deallocations.map (fun d => d.t))
          : Multiset Ptr)
        + ↑(own_ptr (some (vector_intrinsic.allocate h w n sizeofT sysNew).h)).toList
        ≤ E + (↑(w.deallocations.map (fun d => d.t)) + ↑(own_ptr (some h)).toList) := by
  obtain ⟨hd1, _⟩ := deallocate_accounting h w
  simp only [vector_intrinsic.allocate, static_framedata_allocator.allocate] at hok ⊢
  cases ht : static_framedata_allocator_array.take
      (vector_intrinsic.deallocate h w).2.deallocations n with
  | some r =>
    obtain ⟨t, ds1⟩ := r
    rw [static_framedata_allocator_array.allocate_of_take_some ht]
    obtain ⟨_, hperm⟩ := static_framedata_allocator_array.take_some ht
    refine ⟨0, Multiset.nodup_zero, by simp, ?_⟩
    simp only [zero_add]
    rw [← hd1]
    have e : (↑((vector_intrinsic.deallocate h w).2.deallocations.map (fun d => d.t))
        : Multiset Ptr) = ↑(ds1.map (fun d => d.t)) + {t} := by
      rw [Multiset.coe_eq_coe.2 (hperm.map (fun d => d.t))]
      simp only [List.map_cons, ← Multiset.cons_coe, ← Multiset.singleton_add]
      abel
    rw [e]
    exact add_le_add_left (own_ptr_le _) _
  | none =>
    rw [static_framedata_allocator_array.allocate_of_take_none ht] at hok ⊢
    cases hn : sysNew (alloc_bytes n sizeofT) with
    | none => rw [hn] at hok; simp at hok
    | some p =>
      refine ⟨{p}, Multiset.nodup_singleton p, ?_, ?_⟩
      · intro q hq
        rw [Multiset.mem_singleton] at hq
        subst hq
        exact ⟨_, hn⟩
      · simp only
        rw [← hd1, add_comm ({p} : Multiset Ptr)]
        exact add_le_add_left (own_ptr_le _) _

namespace Sys

variable {T : Type}

theorem separated_iff (s : Sys T) :
    separated s ↔
      Multiset.Nodup ((s.registered : Multiset Ptr) + (s.owned : Multiset Ptr)) := by
  rw [Multiset.coe_add, Multiset.coe_nodup]
  rfl

theorem live_eq {s : Sys T} {i : Nat} {h : vector_intrinsic} (hl : s.live i = some h) :
    s.handles[i]? = some (some h) := by
  unfold live at hl
  split at hl
  · rename_i h2 he
    cases hl
    exact he
  · cases hl

theorem on_handle_separated (s s1 : Sys T) (i : Nat)
    (f : vector_intrinsic → World T → Outcome T) (n sizeofT : Nat) (sysNew : SysNew)
    (hf : ∀ h w, (f h w).h = (vector_intrinsic.allocate h w n sizeofT sysNew).h ∧
      (f h w).w.deallocations = (vector_intrinsic.allocate h w n sizeofT sysNew).w.deallocations ∧
      (f h w).threw = (vector_intrinsic.allocate h w n sizeofT sysNew).threw)
    (hfresh : ∀ b p, sysNew b = some p → p ∉ s.registered ∧ p ∉ s.owned)
    (hs : separated s) (hstep : on_handle s i f = some s1) : separated s1 := by
  unfold on_handle at hstep
  cases hl : s.live i with
  | none => rw [hl] at hstep; cases hstep
  | some h =>
    rw [hl] at hstep
    simp only at hstep
    obtain ⟨hf1, hf2, hf3⟩ := hf h s.w
    by_cases hthrew : (f h s.w).threw = true
    · rw [if_pos hthrew] at hstep; cases hstep
    · rw [if_neg hthrew] at hstep
      cases hstep
      have hok : (vector_intrinsic.allocate h s.w n sizeofT sysNew).threw = false := by
        rw [← hf3]; simpa using hthrew
      obtain ⟨E, hE1, hE2, hE3⟩ := allocate_accounting h s.w n sizeofT sysNew hok
      have hO := owned_set s.handles i (some h) (some (f h s.w).h) (live_eq hl)
      rw [separated_iff] at hs ⊢
      have hle : (((f h s.w).w.deallocations.map (fun d => d.t) : List Ptr) : Multiset Ptr)
          + (((s.handles.set i (some (f h s.w).h)).filterMap own_ptr : List Ptr)
              : Multiset Ptr)
          ≤ E + ((s.registered : Multiset Ptr) + (s.owned : Multiset Ptr)) := by
        apply multiset_transfer _ _ _ _ _ _ _ hO
        simp only [registered, hf1, hf2]
        exact hE3
      refine Multiset.nodup_of_le hle ?_
      rw [Multiset.nodup_add]
      refine ⟨hE1, hs, ?_⟩
      rw [Multiset.disjoint_left]
      intro p hpE hp
      obtain ⟨b, hb⟩ := hE2 p hpE
      obtain ⟨h1, h2⟩ := hfresh b p hb
      rw [Multiset.mem_add] at hp
      rcases hp with hp | hp
      · exact h1 (by simpa using hp)
      · exact h2 (by simpa using hp)

end Sys

namespace vector_intrinsic

variable {T : Type}

theorem assign_via_allocate (xs : List (Iter T)) (sizeofT : Nat) (sysNew : SysNew)
    (h : vector_intrinsic) (w : World T) :
    (assign h w xs sizeofT sysNew).h = (allocate h w xs.length sizeofT sysNew).h ∧
    (assign h w xs sizeofT sysNew).w.deallocations
      = (allocate h w xs.length sizeofT sysNew).w.deallocations ∧
    (assign h w xs sizeofT sysNew).threw = (allocate h w xs.length sizeofT sysNew).threw := by
  simp only [assign]
  split <;> exact ⟨rfl, rfl, rfl⟩

theorem assign_ptr_via_allocate (begin_ end_ : Ptr) (sizeofT : Nat) (sysNew : SysNew)
    (h : vector_intrinsic) (w : World T) :
    (assign_ptr h w begin_ end_ sizeofT sysNew).h
      = (allocate h w (distance begin_ end_) sizeofT sysNew).h ∧
    (assign_ptr h w begin_ end_ sizeofT sysNew).w.deallocations
      = (allocate h w (distance begin_ end_) sizeofT sysNew).w.deallocations ∧
    (assign_ptr h w begin_ end_ sizeofT sysNew).threw
      = (allocate h w (distance begin_ end_) sizeofT sysNew).threw := by
  simp only [assign_ptr]
  split <;> exact ⟨rfl, rfl, rfl⟩

theorem resize_via_allocate (n : Nat) (v : T) (sizeofT : Nat) (sysNew : SysNew)
    (h : vector_intrinsic) (w : World T) :
    (resize h w n v sizeofT sysNew).h = (allocate h w n sizeofT sysNew).h ∧
    (resize h w n v sizeofT sysNew).w.deallocations
      = (allocate h w n sizeofT sysNew).w.deallocations ∧
    (resize h w n v sizeofT sysNew).threw = (allocate h w n sizeofT sysNew).threw := by
  simp only [resize, resize_with_initialization, resize_without_initialization]
  split
  · split <;> exact ⟨rfl, rfl, rfl⟩
  · exact ⟨rfl, rfl, rfl⟩

end vector_intrinsic

namespace Sys

variable {T : Type}

theorem step_separated (sizeofT : Nat) (s s1 : Sys T) (op : HandleOp T)
    (hs : separated s) (hadm : admissible s op) (hstep : step sizeofT s op = some s1) :
    separated s1 := by
  cases op with
  | construct =>
    simp only [step, Option.some.injEq] at hstep
    subst hstep
    simpa [separated, owned, registered, own_ptr, vector_intrinsic.construct,
      vector_intrinsic.clear] using hs
  | assign i xs sysNew =>
    exact on_handle_separated s s1 i _ xs.length sizeofT sysNew
      (vector_intrinsic.assign_via_allocate xs sizeofT sysNew) hadm hs hstep
  | assign_ptr i begin_ end_ sysNew =>
    exact on_handle_separated s s1 i _ (distance begin_ end_) sizeofT sysNew
      (vector_intrinsic.assign_ptr_via_allocate begin_ end_ sizeofT sysNew) hadm hs hstep
  | resize i n v sysNew =>
    exact on_handle_separated s s1 i _ n sizeofT sysNew
      (vector_intrinsic.resize_via_allocate n v sizeofT sysNew) hadm hs hstep
  | move_construct j =>
    simp only [step] at hstep
    cases hl : s.live j with
    | none => rw [hl] at hstep; cases hstep
    | some m =>
      rw [hl] at hstep
      simp only [Option.some.injEq] at hstep
      subst hstep
      have hO := owned_set s.handles j (some m)
        (some (vector_intrinsic.move_construct m).2) (live_eq hl)
      rw [separated_iff] at hs ⊢
      have e : ((s.registered : Multiset Ptr) + (s.owned : Multiset Ptr))
          = (s.registered : Multiset Ptr)
            + (((s.handles.set j (some (vector_intrinsic.move_construct m).2)
                ++ [some (vector_intrinsic.move_construct m).1]).filterMap own_ptr
                : List Ptr) : Multiset Ptr) := by
        congr 1
        have e2 : own_ptr (some (vector_intrinsic.move_construct m).2) = none := rfl
        have e3 : own_ptr (some (vector_intrinsic.move_construct m).1) = own_ptr (some m) :=
          rfl
        rw [e2] at hO
        simp only [Option.toList, Multiset.coe_nil, add_zero] at hO
        rw [List.filterMap_append, ← Multiset.coe_add]
        simp only [owned]
        rw [← hO]
        congr 1
      rw [e] at hs
      exact hs
  | move_assign i j =>
    simp only [step] at hstep
    cases hli : s.live i with
    | none => rw [hli] at hstep; cases hstep
    | some h =>
      cases hlj : s.live j with
      | none => rw [hli, hlj] at hstep; cases hstep
      | some m =>
        rw [hli, hlj] at hstep
        simp only at hstep
        obtain ⟨hd1, _⟩ := deallocate_accounting h s.w
        rw [separated_iff] at hs ⊢
        by_cases hij : i = j
        · rw [if_pos hij, Option.some.injEq] at hstep
          subst hstep
          have hO := owned_set s.handles i (some h)
            (some (vector_intrinsic.move_assign_self h s.w).1) (live_eq hli)
          have e2 : own_ptr (some (vector_intrinsic.move_assign_self h s.w).1) = none := rfl
          rw [e2] at hO
          simp only [Option.toList, Multiset.coe_nil, add_zero] at hO
          have e : ((s.registered : Multiset Ptr) + (s.owned : Multiset Ptr))
              = (((vector_intrinsic.move_assign_self h s.w).2.deallocations.map
                    (fun d => d.t) : List Ptr) : Multiset Ptr)
                + (((s.handles.set i (some (vector_intrinsic.move_assign_self h s.w).1)
                    ).filterMap own_ptr : List Ptr) : Multiset Ptr) := by
            simp only [owned]
            rw [← hO]
            simp only [vector_intrinsic.move_assign_self]
            rw [hd1]
            simp only [registered]
            abel
          rw [e] at hs
          exact hs
        · rw [if_neg hij, Option.some.injEq] at hstep
          subst hstep
          have hO1 := owned_set s.handles i (some h)
            (some (vector_intrinsic.move_assign h m s.w).1) (live_eq hli)
          have hj1 : (s.handles.set i (some (vector_intrinsic.move_assign h m s.w).1))[j]?
              = some (some m) := by
            rw [List.getElem?_set, if_neg hij]
            exact live_eq hlj
          have hO2 := owned_set _ j (some m)
            (some (vector_intrinsic.move_assign h m s.w).2.1) hj1
          have e2 : own_ptr (some (vector_intrinsic.move_assign h m s.w).2.1) = none := rfl
          have e3 : own_ptr (some (vector_intrinsic.move_assign h m s.w).1)
              = own_ptr (some m) := rfl
          rw [e2] at hO2
          rw [e3] at hO1
          simp only [Option.toList, Multiset.coe_nil, add_zero] at hO2
          rw [← hO2] at hO1
          have hO3 : ((((s.handles.set i (some (vector_intrinsic.move_assign h m s.w).1)).set j
                (some (vector_intrinsic.move_assign h m s.w).2.1)).filterMap own_ptr
                : List Ptr) : Multiset Ptr) + ↑(own_ptr (some h)).toList
              = ↑(s.handles.filterMap own_ptr) := by
            apply add_right_cancel (b := (↑(own_ptr (some m)).toList : Multiset Ptr))
            rw [← hO1]
            abel
          have e : ((s.registered : Multiset Ptr) + (s.owned : Multiset Ptr))
              = (((vector_intrinsic.move_assign h m s.w).2.2.deallocations.map
                    (fun d => d.t) : List Ptr) : Multiset Ptr)
                + ((((s.handles.set i (some (vector_intrinsic.move_assign h m s.w).1)).set j
                    (some (vector_intrinsic.move_assign h m s.w).2.1)).filterMap own_ptr
                    : List Ptr) : Multiset Ptr) := by
            simp only [owned]
            rw [← hO3]
            simp only [vector_intrinsic.move_assign]
            rw [hd1]
            simp only [registered]
            abel
          rw [e] at hs
          exact hs
  | destruct i =>
    simp only [step] at hstep
    cases hl : s.live i with
    | none => rw [hl] at hstep; cases hstep
    | some h =>
      rw [hl] at hstep
      simp only [Option.some.injEq] at hstep
      subst hstep
      obtain ⟨hd1, _⟩ := deallocate_accounting h s.w
      have hO := owned_set s.handles i (some h) none (live_eq hl)
      have e2 : own_ptr none = none := rfl
      rw [e2] at hO
      simp only [Option.toList, Multiset.coe_nil, add_zero] at hO
      rw [separated_iff] at hs ⊢
      have e : ((s.registered : Multiset Ptr) + (s.owned : Multiset Ptr))
          = (((vector_intrinsic.destruct h s.w).2.deallocations.map
                (fun d => d.t) : List Ptr) : Multiset Ptr)
            + (((s.handles.set i none).filterMap own_ptr : List Ptr) : Multiset Ptr) := by
        simp only [owned]
        rw [← hO]
        simp only [vector_intrinsic.destruct]
        rw [hd1]
        simp only [registered]
        abel
      rw [e] at hs
      exact hs

theorem sys_separated_init (mem : Ptr → T) : separated (init mem) := by
  simp [separated, init, registered, owned]

theorem run_separated (sizeofT : Nat) (ops : List (HandleOp T)) :
    ∀ s s1 : Sys T, separated s → admissible_run sizeofT s ops →
      run sizeofT s ops = some s1 → separated s1 := by
  induction ops with
  | nil =>
    intro s s1 hs _ hrun
    simp only [run, Option.some.injEq] at hrun
    subst hrun
    exact hs
  | cons op ops ih =>
    intro s s1 hs hadm hrun
    simp only [run] at hrun
    simp only [admissible_run] at hadm
    cases hstep : step sizeofT s op with
    | none => rw [hstep] at hrun; cases hrun
    | some s2 =>
      rw [hstep] at hrun hadm
      exact ih s2 s1 (step_separated sizeofT s s2 op hs hadm.1 hstep) hadm.2 hrun

theorem own_ptr_of_live {s : Sys T} {i : Nat} {a : vector_intrinsic}
    (hl : s.live i = some a) (ha : a.data_ ≠ nullptr) :
    ∃ hi : i < s.handles.length, own_ptr s.handles[i] = some a.data_ := by
  obtain ⟨hi, he⟩ := List.getElem?_eq_some.1 (live_eq hl)
  exact ⟨hi, by rw [he, own_ptr_some, if_neg ha]⟩

theorem separated_exclusive (s : Sys T) (hs : separated s) :
    (∀ i j a b, i ≠ j → s.live i = some a → s.live j = some b → a.data_ ≠ nullptr →
      a.data_ ≠ b.data_) ∧
    (∀ i a, s.live i = some a → a.data_ ≠ nullptr → a.data_ ∉ s.registered) := by
  unfold separated at hs
  rw [List.nodup_append] at hs
  obtain ⟨_, hO, hdisj⟩ := hs
  have hpw : ∀ (i j : Nat) (hi : i < s.handles.length) (hj : j < s.handles.length), i < j →
      ∀ p, own_ptr s.handles[i] = some p → ∀ q, own_ptr s.handles[j] = some q → p ≠ q := by
    have := (List.pairwise_filterMap (R := fun (p q : Ptr) => p ≠ q)).1 hO
    rw [List.pairwise_iff_getElem] at this
    intro i j hi hj hij p hp q hq
    exact this i j hi hj hij p hp q hq
  constructor
  · intro i j a b hij hla hlb ha hab
    have hb : b.data_ ≠ nullptr := by rw [← hab]; exact ha
    obtain ⟨hi, hoa⟩ := own_ptr_of_live hla ha
    obtain ⟨hj, hob⟩ := own_ptr_of_live hlb hb
    rcases Nat.lt_or_gt_of_ne hij with hlt | hgt
    · exact hpw i j hi hj hlt _ hoa _ hob hab
    · exact hpw j i hj hi hgt _ hob _ hoa hab.symm
  · intro i a hla ha hreg
    obtain ⟨hi, hoa⟩ := own_ptr_of_live hla ha
    have hown : a.data_ ∈ s.owned :=
      List.mem_filterMap.2 ⟨s.handles[i], List.getElem_mem _, hoa⟩
    exact hdisj hreg hown

end Sys

/-- C5: start with an empty pool and no handle, and run any sequence of public
handle operations (default construction, both `assign` overloads, `resize`, move
construction, move assignment, destruction) that all complete normally, the
system allocator answering with pointers that are neither registered nor
owned.  Then no non-null data pointer is owned by two live handles, and no
pointer owned by a live handle is in the free registry. -/
theorem handles_exclusive {T : Type} (sizeofT : Nat) (mem : Ptr → T)
    (ops : List (HandleOp T)) (s : Sys T)
    (hadm : Sys.admissible_run sizeofT (Sys.init mem) ops)
    (hrun : Sys.run sizeofT (Sys.init mem) ops = some s) :
    (∀ i j a b, i ≠ j → s.live i = some a → s.live j = some b → a.data_ ≠ nullptr →
      a.data_ ≠ b.data_) ∧
    (∀ i a, s.live i = some a → a.data_ ≠ nullptr → a.data_ ∉ s.registered) :=
  Sys.separated_exclusive s
    (Sys.run_separated sizeofT ops _ s (Sys.sys_separated_init mem) hadm hrun)

/-- C5 on the run: `h0` constructed and resized to `(100, 2)`; `h1` constructed and
move-assigned from `h0`; `h2` constructed and resized to `(200, 3)`; `h1`
destroyed, which registers `(100, 2)`; `h3` move-constructed from `h2`. -/
theorem handles_exclusive_witness :
    Sys.admissible_run 1 (Sys.init (fun _ => (0 : Nat))) handles_example_ops ∧
    Sys.run 1 (Sys.init (fun _ => (0 : Nat))) handles_example_ops
      = some handles_example_final ∧
    (∀ i a, handles_example_final.live i = some a → a.data_ ≠ nullptr →
      a.data_ ∉ handles_example_final.registered) :=
  have hadm : Sys.admissible_run 1 (Sys.init (fun _ => (0 : Nat))) handles_example_ops := by
    simp [handles_example_ops, Sys.admissible_run, Sys.admissible, Sys.step, Sys.on_handle,
      Sys.live, Sys.init, Sys.registered, Sys.owned, own_ptr, nullptr,
      vector_intrinsic.construct, vector_intrinsic.clear, vector_intrinsic.resize,
      vector_intrinsic.resize_with_initialization, vector_intrinsic.allocate,
      vector_intrinsic.deallocate, vector_intrinsic.move_assign, vector_intrinsic.move_from,
      vector_intrinsic.destruct, vector_intrinsic.move_construct,
      static_framedata_allocator_array.allocate, static_framedata_allocator_array.take,
      static_framedata_allocator_array.scan, static_framedata_allocator_array.deallocate]
  have hrun : Sys.run 1 (Sys.init (fun _ => (0 : Nat))) handles_example_ops
      = some handles_example_final := rfl
  ⟨hadm, hrun, (handles_exclusive 1 _ _ _ hadm hrun).2⟩

/-! ## Contents of the handle's buffer -/

theorem read_length {T : Type} (mem : Nat → T) (p k : Nat) : (read mem p k).length = k := by
  simp [read]

theorem read_succ {T : Type} (mem : Nat → T) (p k : Nat) :
    read mem p (k + 1) = mem p :: read mem (p + 1) k := by
  simp only [read, List.range_succ_eq_map, List.map_cons, List.map_map, Nat.add_zero]
  congr 1
  apply List.map_congr_left
  intro i _
  simp only [Function.comp, Nat.succ_eq_add_one]
  congr 1
  omega

theorem read_congr {T : Type} (m1 m2 : Nat → T) (p k : Nat)
    (h : ∀ i, i < k → m1 (p + i) = m2 (p + i)) : read m1 p k = read m2 p k := by
  simp only [read]
  apply List.map_congr_left
  intro i hi
  exact h i (List.mem_range.1 hi)

theorem std_copy_below {T : Type} : ∀ (xs : List (Iter T)) (mem : Nat → T) (dst a : Nat),
    a < dst → std_copy mem xs dst a = mem a := by
  intro xs
  induction xs with
  | nil => intro mem dst a _; rfl
  | cons x rest ih =>
    intro mem dst a ha
    rw [std_copy, ih _ _ _ (Nat.lt_succ_of_lt ha)]
    simp [Function.update, Nat.ne_of_lt ha]

theorem nat_add_succ_swap (a b : Nat) : a + (b + 1) = a + 1 + b := by omega

theorem contiguous_length {T : Type} (p k : Nat) :
    (contiguous p k : List (Iter T)).length = k := by
  simp [contiguous]

theorem contiguous_succ {T : Type} (p k : Nat) :
    (contiguous p (k + 1) : List (Iter T)) = Iter.stored p :: contiguous (p + 1) k := by
  simp only [contiguous, List.range_succ_eq_map, List.map_cons, List.map_map, Nat.add_zero]
  congr 1
  apply List.map_congr_left
  intro i _
  simp only [Function.comp, Nat.succ_eq_add_one]
  congr 1
  exact nat_add_succ_swap p i

theorem map_deref_contiguous {T : Type} (mem : Nat → T) (p k : Nat) :
    (contiguous p k).map (Iter.deref mem) = read mem p k := by
  simp only [contiguous, read, List.map_map]
  rfl

theorem getElem?_contiguous {T : Type} (p k i q : Nat)
    (h : (contiguous p k : List (Iter T))[i]? = some (Iter.stored q)) : q = p + i ∧ i < k := by
  simp only [contiguous, List.getElem?_map, Option.map_eq_some'] at h
  obtain ⟨j, hj, e⟩ := h
  have hik : i < k := by
    have := (List.getElem?_eq_some.1 hj).1
    simpa using this
  rw [List.getElem?_range hik] at hj
  injection hj with hj
  subst hj
  injection e with e
  exact ⟨e.symm, hik⟩

/-- A forward copy stores the source elements as they stood before the copy, provided
no position reads a slot the copy has stored into before reaching it. -/
theorem read_std_copy {T : Type} : ∀ (xs : List (Iter T)) (mem : Nat → T) (dst : Nat),
    (∀ (i p : Nat), xs[i]? = some (Iter.stored p) → ¬ (dst ≤ p ∧ p < dst + i)) →
    read (std_copy mem xs dst) dst xs.length = xs.map (Iter.deref mem) := by
  intro xs
  induction xs with
  | nil => intro mem dst _; rfl
  | cons x rest ih =>
    intro mem dst hc
    have hrest : ∀ (i p : Nat), rest[i]? = some (Iter.stored p) →
        ¬ (dst + 1 ≤ p ∧ p < dst + 1 + i) := by
      intro i p hp
      have := hc (i + 1) p (by simpa using hp)
      omega
    rw [List.length_cons, read_succ, std_copy, ih _ _ hrest,
      std_copy_below _ _ _ _ (Nat.lt_succ_self dst)]
    simp only [Function.update_same, List.map_cons]
    congr 1
    apply List.map_congr_left
    intro y hy
    cases y with
    | value v => rfl
    | stored p =>
      obtain ⟨j, hj⟩ := List.getElem?_of_mem hy
      have h2 : ¬ (dst ≤ (p : Nat) ∧ (p : Nat) < dst + (j + 1)) :=
        hc (j + 1) p (by simpa using hj)
      have hne : (p : Nat) ≠ dst := by
        intro e
        exact h2 ⟨Nat.le_of_eq e.symm, by rw [e]; exact Nat.lt_add_of_pos_right (Nat.succ_pos j)⟩
      simp [Iter.deref, Function.update, hne]

theorem copy_elems_eq_std_copy {T : Type} : ∀ (k : Nat) (mem : Nat → T) (dst src : Nat),
    copy_elems mem dst src k = std_copy mem (contiguous src k) dst := by
  intro k
  induction k with
  | zero => intro mem dst src; rfl
  | succ k ih =>
    intro mem dst src
    rw [copy_elems, contiguous_succ, std_copy, ih]
    rfl

theorem contiguous_safe {T : Type} (b L d : Nat) (hd : b + L ≤ d ∨ d + L ≤ b) :
    ∀ (i p : Nat), (contiguous b L : List (Iter T))[i]? = some (Iter.stored p) →
      ¬ (d ≤ p ∧ p < d + i) := by
  intro i p hp
  obtain ⟨e, hi⟩ := getElem?_contiguous b L i p hp
  omega

theorem distance_eq (begin_ end_ : Nat) (h1 : begin_ ≤ end_) (h2 : end_ < 2 ^ 64) :
    distance begin_ end_ = end_ - begin_ := by
  unfold distance SIZE_WIDTH
  have e : ((end_ : Int) - (begin_ : Int)) = ((end_ - begin_ : Nat) : Int) := by omega
  rw [e]
  have h3 : ((end_ - begin_ : Nat) : Int) % (2 : Int) ^ 64 = ((end_ - begin_ : Nat) : Int) := by
    apply Int.emod_eq_of_lt
    · omega
    · have : end_ - begin_ < 2 ^ 64 := by omega
      exact_mod_cast this
  rw [h3]
  simp

theorem alloc_bytes_div (n sizeofT : Nat) (h1 : 0 < sizeofT) (h2 : n * sizeofT < 2 ^ 64) :
    alloc_bytes n sizeofT / sizeofT = n := by
  unfold alloc_bytes SIZE_WIDTH
  rw [Nat.mod_eq_of_lt h2, Nat.mul_div_cancel _ h1]

/-- C6, with the conditions the code needs: round trip of `assign`.  Template
overload, for a multi-pass iterator range `xs` (any length, zero included) whose
byte count `xs.length * sizeof(T)` fits `std::size_t`: when the call returns
normally and no position `i` of the range reads a slot among `begin() .. begin() + i - 1`
of the destination, which the copy has stored into before it reads position `i`
(so in particular when the range does not overlap the destination), `size()` and
`end() - begin()` are the length of the range, the pool was asked for exactly
`xs.length * sizeof(T)` bytes, and the elements read from `begin()` to `end()` are the
elements the range had before the call, in order.  The `const T *` overload, for a
pointer range `[begin_, end_)` with `begin_ ≤ end_` that lies in the 64-bit address space,
fits `std::size_t` in bytes and does not overlap the destination (the precondition
of `memcpy`): the same holds, and on this contiguous input the two overloads leave the
same handle and the same world. -/
theorem assign_roundtrip {T : Type} (h : vector_intrinsic) (w : World T) (sizeofT : Nat)
    (sysNew : SysNew) :
    (∀ xs : List (Iter T), xs.length * sizeofT < 2 ^ 64 →
      (vector_intrinsic.assign h w xs sizeofT sysNew).threw = false →
      (∀ (i : Nat) (p : Ptr), xs[i]? = some (Iter.stored p) →
        ¬ ((vector_intrinsic.assign h w xs sizeofT sysNew).h.begin ≤ p ∧
           p < (vector_intrinsic.assign h w xs sizeofT sysNew).h.begin + i)) →
      (vector_intrinsic.assign h w xs sizeofT sysNew).h.size = xs.length ∧
      (vector_intrinsic.assign h w xs sizeofT sysNew).h.end_
        - (vector_intrinsic.assign h w xs sizeofT sysNew).h.begin = xs.length ∧
      alloc_bytes (vector_intrinsic.assign h w xs sizeofT sysNew).h.size sizeofT
        = xs.length * sizeofT ∧
      read (vector_intrinsic.assign h w xs sizeofT sysNew).w.mem
        (vector_intrinsic.assign h w xs sizeofT sysNew).h.begin
        (vector_intrinsic.assign h w xs sizeofT sysNew).h.size = xs.map (Iter.deref w.mem)) ∧
    (∀ begin_ end_ : Ptr, begin_ ≤ end_ → end_ < 2 ^ 64 → 0 < sizeofT →
      (end_ - begin_) * sizeofT < 2 ^ 64 →
      (vector_intrinsic.assign_ptr h w begin_ end_ sizeofT sysNew).threw = false →
      (end_ ≤ (vector_intrinsic.assign_ptr h w begin_ end_ sizeofT sysNew).h.begin ∨
        (vector_intrinsic.assign_ptr h w begin_ end_ sizeofT sysNew).h.end_ ≤ begin_) →
      (vector_intrinsic.assign_ptr h w begin_ end_ sizeofT sysNew).h.size = end_ - begin_ ∧
      (vector_intrinsic.assign_ptr h w begin_ end_ sizeofT sysNew).h.end_
        - (vector_intrinsic.assign_ptr h w begin_ end_ sizeofT sysNew).h.begin
        = end_ - begin_ ∧
      read (vector_intrinsic.assign_ptr h w begin_ end_ sizeofT sysNew).w.mem
        (vector_intrinsic.assign_ptr h w begin_ end_ sizeofT sysNew).h.begin
        (vector_intrinsic.assign_ptr h w begin_ end_ sizeofT sysNew).h.size
        = read w.mem begin_ (end_ - begin_) ∧
      vector_intrinsic.assign_ptr h w begin_ end_ sizeofT sysNew
        = vector_intrinsic.assign h w (contiguous begin_ (end_ - begin_)) sizeofT sysNew) := by
  have generic : ∀ xs : List (Iter T), xs.length * sizeofT < 2 ^ 64 →
      (vector_intrinsic.assign h w xs sizeofT sysNew).threw = false →
      (∀ (i : Nat) (p : Nat), xs[i]? = some (Iter.stored p) →
        ¬ ((vector_intrinsic.allocate h w xs.length sizeofT sysNew).h.data_ ≤ p ∧
           p < (vector_intrinsic.allocate h w xs.length sizeofT sysNew).h.data_ + i)) →
      (vector_intrinsic.assign h w xs sizeofT sysNew).h.size = xs.length ∧
      (vector_intrinsic.assign h w xs sizeofT sysNew).h.end_
        - (vector_intrinsic.assign h w xs sizeofT sysNew).h.begin = xs.length ∧
      alloc_bytes (vector_intrinsic.assign h w xs sizeofT sysNew).h.size sizeofT
        = xs.length * sizeofT ∧
      read (vector_intrinsic.assign h w xs sizeofT sysNew).w.mem
        (vector_intrinsic.assign h w xs sizeofT sysNew).h.begin
        (vector_intrinsic.assign h w xs sizeofT sysNew).h.size
        = xs.map (Iter.deref w.mem) := by
    intro xs hfit hok hsafe
    have hsz := vector_intrinsic.allocate_size h w xs.length sizeofT sysNew
    have hmem := vector_intrinsic.allocate_mem h w xs.length sizeofT sysNew
    have hsize : (vector_intrinsic.assign h w xs sizeofT sysNew).h.size_ = xs.length := by
      simp only [vector_intrinsic.assign]
      split <;> exact hsz
    have hdata : (vector_intrinsic.assign h w xs sizeofT sysNew).h.data_
        = (vector_intrinsic.allocate h w xs.length sizeofT sysNew).h.data_ := by
      simp only [vector_intrinsic.assign]
      split <;> rfl
    refine ⟨hsize, ?_, ?_, ?_⟩
    · simp only [vector_intrinsic.end_, vector_intrinsic.begin, hsize]
      exact Nat.add_sub_cancel_left _ _
    · simp only [vector_intrinsic.size, hsize, alloc_bytes, SIZE_WIDTH]
      exact Nat.mod_eq_of_lt hfit
    · simp only [vector_intrinsic.size, vector_intrinsic.begin, hsize, hdata]
      simp only [vector_intrinsic.assign] at hok ⊢
      split at hok
      · rename_i ht
        rw [ht] at hok
        exact absurd hok (by simp)
      · rename_i ht
        rw [if_neg ht]
        show read (std_copy (vector_intrinsic.allocate h w xs.length sizeofT sysNew).w.mem xs
          (vector_intrinsic.allocate h w xs.length sizeofT sysNew).h.data_)
          (vector_intrinsic.allocate h w xs.length sizeofT sysNew).h.data_ xs.length
          = xs.map (Iter.deref w.mem)
        rw [hmem]
        exact read_std_copy xs _ _ hsafe
  refine ⟨?_, ?_⟩
  · intro xs hfit hok hsafe
    have hdata : (vector_intrinsic.assign h w xs sizeofT sysNew).h.data_
        = (vector_intrinsic.allocate h w xs.length sizeofT sysNew).h.data_ := by
      simp only [vector_intrinsic.assign]
      split <;> rfl
    simp only [vector_intrinsic.begin, hdata] at hsafe
    exact generic xs hfit hok hsafe
  intro begin_ end_ hle hend hsz0 hfit hok hdisj
  have hdist := distance_eq begin_ end_ hle hend
  have hsz := vector_intrinsic.allocate_size h w (end_ - begin_) sizeofT sysNew
  have hmem := vector_intrinsic.allocate_mem h w (end_ - begin_) sizeofT sysNew
  have hsize : (vector_intrinsic.assign_ptr h w begin_ end_ sizeofT sysNew).h.size_
      = end_ - begin_ := by
    simp only [vector_intrinsic.assign_ptr, hdist]
    split <;> exact hsz
  have hdata : (vector_intrinsic.assign_ptr h w begin_ end_ sizeofT sysNew).h.data_
      = (vector_intrinsic.allocate h w (end_ - begin_) sizeofT sysNew).h.data_ := by
    simp only [vector_intrinsic.assign_ptr, hdist]
    split <;> rfl
  have hd2 : begin_ + (end_ - begin_)
        ≤ (vector_intrinsic.allocate h w (end_ - begin_) sizeofT sysNew).h.data_ ∨
      (vector_intrinsic.allocate h w (end_ - begin_) sizeofT sysNew).h.data_
        + (end_ - begin_) ≤ begin_ := by
    simp only [vector_intrinsic.begin, vector_intrinsic.end_, hsize, hdata] at hdisj
    rcases hdisj with hl | hr
    · left
      rw [Nat.add_sub_cancel' hle]
      exact hl
    · right; exact hr
  have agree : vector_intrinsic.assign_ptr h w begin_ end_ sizeofT sysNew
      = vector_intrinsic.assign h w (contiguous begin_ (end_ - begin_)) sizeofT sysNew := by
    simp only [vector_intrinsic.assign_ptr, vector_intrinsic.assign, hdist, contiguous_length,
      memcpy, hsz, alloc_bytes_div _ _ hsz0 hfit, hmem]
    rw [copy_elems_eq_std_copy]
  have hok2 : (vector_intrinsic.assign h w (contiguous begin_ (end_ - begin_)) sizeofT
      sysNew).threw = false := by rw [← agree]; exact hok
  have hfit2 : (contiguous begin_ (end_ - begin_) : List (Iter T)).length * sizeofT < 2 ^ 64 := by
    rw [contiguous_length]; exact hfit
  have hsafe : ∀ (i : Nat) (p : Nat),
      (contiguous begin_ (end_ - begin_) : List (Iter T))[i]? = some (Iter.stored p) →
      ¬ ((vector_intrinsic.allocate h w (contiguous begin_ (end_ - begin_) : List (Iter T)).length
            sizeofT sysNew).h.data_ ≤ p ∧
         p < (vector_intrinsic.allocate h w
            (contiguous begin_ (end_ - begin_) : List (Iter T)).length
            sizeofT sysNew).h.data_ + i) := by
    rw [contiguous_length]
    exact contiguous_safe begin_ (end_ - begin_) _ hd2
  obtain ⟨g1, g2, _, g3⟩ := generic (contiguous begin_ (end_ - begin_)) hfit2 hok2 hsafe
  rw [contiguous_length] at g1 g2
  rw [map_deref_contiguous] at g3
  rw [agree]
  exact ⟨g1, g2, g3, rfl⟩

/-- C6 on a handle holding `(50, 2)` over the registry `[(60, 3)]`, memory `a ↦ 2 * a`,
one-byte elements: assigning the range that reads the addresses `10`, `11` and then
yields the value `7`, and assigning the pointer range `[10, 13)`, both reuse the
region at `60`; the handle then reads `[20, 22, 7]`, respectively `[20, 22, 24]`. -/
theorem assign_roundtrip_witness :
    read (vector_intrinsic.assign ⟨50, 2⟩ (⟨[⟨60, 3⟩], fun a => 2 * a⟩ : World Nat)
        [.stored 10, .stored 11, .value 7] 1 (fun _ => none)).w.mem
      (vector_intrinsic.assign ⟨50, 2⟩ (⟨[⟨60, 3⟩], fun a => 2 * a⟩ : World Nat)
        [.stored 10, .stored 11, .value 7] 1 (fun _ => none)).h.begin
      (vector_intrinsic.assign ⟨50, 2⟩ (⟨[⟨60, 3⟩], fun a => 2 * a⟩ : World Nat)
        [.stored 10, .stored 11, .value 7] 1 (fun _ => none)).h.size = [20, 22, 7] ∧
    read (vector_intrinsic.assign_ptr ⟨50, 2⟩ (⟨[⟨60, 3⟩], fun a => 2 * a⟩ : World Nat) 10 13 1
        (fun _ => none)).w.mem
      (vector_intrinsic.assign_ptr ⟨50, 2⟩ (⟨[⟨60, 3⟩], fun a => 2 * a⟩ : World Nat) 10 13 1
        (fun _ => none)).h.begin
      (vector_intrinsic.assign_ptr ⟨50, 2⟩ (⟨[⟨60, 3⟩], fun a => 2 * a⟩ : World Nat) 10 13 1
        (fun _ => none)).h.size
      = read (fun a => 2 * a) 10 (13 - 10) ∧
    (vector_intrinsic.assign_ptr ⟨50, 2⟩ (⟨[⟨60, 3⟩], fun a => 2 * a⟩ : World Nat) 10 13 1
        (fun _ => none)).h = ⟨60, 3⟩ :=
  have h := assign_roundtrip ⟨50, 2⟩ (⟨[⟨60, 3⟩], fun a => 2 * a⟩ : World Nat) 1
    (fun _ => none)
  ⟨(h.1 [.stored 10, .stored 11, .value 7] (by norm_num) (by decide)
      (by
        intro i p hp
        have hm := List.getElem?_mem hp
        have hb : (vector_intrinsic.assign ⟨50, 2⟩ (⟨[⟨60, 3⟩], fun a => 2 * a⟩ : World Nat)
          [.stored 10, .stored 11, .value 7] 1 (fun _ => none)).h.begin = 60 := by decide
        rw [hb]
        simp only [List.mem_cons, Iter.stored.injEq, List.mem_singleton, List.not_mem_nil,
          or_false, reduceCtorEq] at hm
        rcases hm with e | e <;> rw [e] <;> simp)).2.2.2,
    (h.2 10 13 (by decide) (by norm_num) (by decide) (by norm_num) (by decide)
      (by decide)).2.2.1,
    by decide⟩

/-- C6 as stated fails when the source range reads the destination: on a handle holding
the region `(100, 3)` with contents `[1, 2, 3]`, over an empty registry and one-byte
elements, `assign` of the reversed view of the handle's own buffer (positions
`102, 101, 100`, whose elements are `[3, 2, 1]`) returns normally with `size() = 3` over the
same region, and the handle then reads `[3, 2, 3]`: the first store has overwritten the
element the last position reads. -/
theorem assign_roundtrip_counterexample :
    (vector_intrinsic.assign ⟨100, 3⟩ (⟨[], fun a => a - 99⟩ : World Nat)
      [.stored 102, .stored 101, .stored 100] 1 (fun _ => none)).threw = false ∧
    (vector_intrinsic.assign ⟨100, 3⟩ (⟨[], fun a => a - 99⟩ : World Nat)
      [.stored 102, .stored 101, .stored 100] 1 (fun _ => none)).h = ⟨100, 3⟩ ∧
    ([.stored 102, .stored 101, .stored 100] : List (Iter Nat)).map
      (Iter.deref (fun a => a - 99)) = [3, 2, 1] ∧
    read (vector_intrinsic.assign ⟨100, 3⟩ (⟨[], fun a => a - 99⟩ : World Nat)
        [.stored 102, .stored 101, .stored 100] 1 (fun _ => none)).w.mem
      (vector_intrinsic.assign ⟨100, 3⟩ (⟨[], fun a => a - 99⟩ : World Nat)
        [.stored 102, .stored 101, .stored 100] 1 (fun _ => none)).h.begin
      (vector_intrinsic.assign ⟨100, 3⟩ (⟨[], fun a => a - 99⟩ : World Nat)
        [.stored 102, .stored 101, .stored 100] 1 (fun _ => none)).h.size = [3, 2, 3] := by
  decide

/-- C7: for every `n < 1024` and every value `v`, when `resize(n, v)` returns
normally the handle has `size() = n` and every element at index `0..n-1` is `v`,
whatever the handle held before and whatever the region contained. -/
theorem resize_small_fills {T : Type} (h : vector_intrinsic) (w : World T) (n : Nat) (v : T)
    (sizeofT : Nat) (sysNew : SysNew) (hn : n < 1024)
    (hok : (vector_intrinsic.resize h w n v sizeofT sysNew).threw = false) :
    (vector_intrinsic.resize h w n v sizeofT sysNew).h.size = n ∧
    (∀ i, i < n →
      (vector_intrinsic.resize h w n v sizeofT sysNew).w.mem
        ((vector_intrinsic.resize h w n v sizeofT sysNew).h.data + i) = v) ∧
    read (vector_intrinsic.resize h w n v sizeofT sysNew).w.mem
      (vector_intrinsic.resize h w n v sizeofT sysNew).h.begin
      (vector_intrinsic.resize h w n v sizeofT sysNew).h.size = List.replicate n v := by
  have hsz := vector_intrinsic.allocate_size h w n sizeofT sysNew
  have key : ∀ i, i < n →
      (vector_intrinsic.resize h w n v sizeofT sysNew).w.mem
        ((vector_intrinsic.resize h w n v sizeofT sysNew).h.data_ + i) = v := by
    intro i hi
    simp only [vector_intrinsic.resize, hn, if_true,
      vector_intrinsic.resize_with_initialization] at hok ⊢
    split at hok
    · rename_i ht
      rw [ht] at hok
      exact absurd hok (by simp)
    · rename_i ht
      rw [if_neg ht]
      simp only [vector_intrinsic.begin, vector_intrinsic.end_, hsz]
      rw [fill_apply, if_pos]
      constructor
      · exact Nat.le_add_right _ _
      · rw [Nat.add_sub_cancel_left]
        exact Nat.add_lt_add_left hi _
  have hsize : (vector_intrinsic.resize h w n v sizeofT sysNew).h.size_ = n := by
    simp only [vector_intrinsic.resize, hn, if_true,
      vector_intrinsic.resize_with_initialization]
    split <;> exact hsz
  refine ⟨hsize, key, ?_⟩
  simp only [vector_intrinsic.size, vector_intrinsic.begin, hsize, read]
  apply List.ext_getElem
  · simp
  · intro i h1 h2
    simp only [List.getElem_map, List.getElem_range, List.getElem_replicate]
    exact key i (by simpa using h1)

/-- C7 on an empty handle and an empty pool: `resize(3, 7)` with the system
allocator answering `100` leaves `7, 7, 7` at `100, 101, 102`. -/
theorem resize_small_fills_witness :
    (vector_intrinsic.resize ⟨nullptr, 0⟩ (⟨[], fun _ => 0⟩ : World Nat) 3 7 1
      (fun _ => some 100)).threw = false ∧
    read (vector_intrinsic.resize ⟨nullptr, 0⟩ (⟨[], fun _ => 0⟩ : World Nat) 3 7 1
        (fun _ => some 100)).w.mem
      (vector_intrinsic.resize ⟨nullptr, 0⟩ (⟨[], fun _ => 0⟩ : World Nat) 3 7 1
        (fun _ => some 100)).h.begin
      (vector_intrinsic.resize ⟨nullptr, 0⟩ (⟨[], fun _ => 0⟩ : World Nat) 3 7 1
        (fun _ => some 100)).h.size = List.replicate 3 7 :=
  ⟨by decide,
    (resize_small_fills ⟨nullptr, 0⟩ (⟨[], fun _ => 0⟩ : World Nat) 3 7 1
      (fun _ => some 100) (by decide) (by decide)).2.2⟩

/-- C8: for every `n ≥ 1024` and every `v`, `resize(n, v)` is `allocate(n)` alone: it
yields `size() = n`, leaves the whole memory as it was (so the buffer holds what
the region obtained from the pool already held), and its outcome does not
depend on `v`.  The boundary: `resize(1024, v)` takes this path, `resize(1023, v)`
takes the initialising one. -/
theorem resize_large_no_write {T : Type} (h : vector_intrinsic) (w : World T) (n : Nat) (v : T)
    (sizeofT : Nat) (sysNew : SysNew) (hn : 1024 ≤ n) :
    (vector_intrinsic.resize h w n v sizeofT sysNew).h.size = n ∧
    (vector_intrinsic.resize h w n v sizeofT sysNew).w.mem = w.mem ∧
    read (vector_intrinsic.resize h w n v sizeofT sysNew).w.mem
        (vector_intrinsic.resize h w n v sizeofT sysNew).h.data n
      = read w.mem (vector_intrinsic.resize h w n v sizeofT sysNew).h.data n ∧
    (∀ v2 : T, vector_intrinsic.resize h w n v2 sizeofT sysNew
      = vector_intrinsic.resize h w n v sizeofT sysNew) ∧
    vector_intrinsic.resize h w 1024 v sizeofT sysNew
      = vector_intrinsic.resize_without_initialization h w 1024 v sizeofT sysNew ∧
    vector_intrinsic.resize h w 1023 v sizeofT sysNew
      = vector_intrinsic.resize_with_initialization h w 1023 v sizeofT sysNew := by
  have hlt : ¬ n < 1024 := Nat.not_lt.2 hn
  have e : ∀ v2 : T, vector_intrinsic.resize h w n v2 sizeofT sysNew
      = vector_intrinsic.allocate h w n sizeofT sysNew := by
    intro v2
    simp only [vector_intrinsic.resize, hlt, if_false,
      vector_intrinsic.resize_without_initialization]
  have hm := vector_intrinsic.allocate_mem h w n sizeofT sysNew
  refine ⟨?_, ?_, ?_, ?_, ?_, ?_⟩
  · rw [e]; exact vector_intrinsic.allocate_size h w n sizeofT sysNew
  · rw [e]; exact hm
  · rw [e, hm]
  · intro v2; rw [e, e]
  · simp [vector_intrinsic.resize]
  · simp [vector_intrinsic.resize]

/-- C8 at the boundary `n = 1024` on an empty handle and pool. -/
theorem resize_large_no_write_witness :
    (vector_intrinsic.resize ⟨nullptr, 0⟩ (⟨[], fun a => a⟩ : World Nat) 1024 7 1
      (fun _ => some 100)).h.size = 1024 ∧
    (vector_intrinsic.resize ⟨nullptr, 0⟩ (⟨[], fun a => a⟩ : World Nat) 1024 7 1
      (fun _ => some 100)).w.mem = fun a => a :=
  have h := resize_large_no_write ⟨nullptr, 0⟩ (⟨[], fun a => a⟩ : World Nat) 1024 7 1
    (fun _ => some 100) (by decide)
  ⟨h.1, h.2.1⟩

/-- C9: moving a handle `A` with state `(p, n)` into another handle `B`, by move
construction or move assignment, leaves `B` with `data() = p`, `size() = n` and `A`
with `data() = null`, `size() = 0`; destroying `A` afterwards changes neither the
world (registry and memory) nor `B`.  Move assignment has first returned the
region `B` held, if any, to the registry with `B`'s own count, and touches no
element. -/
theorem move_semantics {T : Type} (A B : vector_intrinsic) (w : World T) :
    ((vector_intrinsic.move_construct A).1.data = A.data_ ∧
      (vector_intrinsic.move_construct A).1.size = A.size_ ∧
      (vector_intrinsic.move_construct A).2.data = nullptr ∧
      (vector_intrinsic.move_construct A).2.size = 0 ∧
      (vector_intrinsic.destruct (vector_intrinsic.move_construct A).2 w).2 = w) ∧
    ((vector_intrinsic.move_assign B A w).1.data = A.data_ ∧
      (vector_intrinsic.move_assign B A w).1.size = A.size_ ∧
      (vector_intrinsic.move_assign B A w).2.1.data = nullptr ∧
      (vector_intrinsic.move_assign B A w).2.1.size = 0 ∧
      (vector_intrinsic.destruct (vector_intrinsic.move_assign B A w).2.1
          (vector_intrinsic.move_assign B A w).2.2).2
        = (vector_intrinsic.move_assign B A w).2.2 ∧
      (vector_intrinsic.move_assign B A w).2.2.mem = w.mem ∧
      (B.data_ ≠ nullptr →
        (vector_intrinsic.move_assign B A w).2.2.deallocations
          = w.deallocations ++ [⟨B.data_, B.size_⟩]) ∧
      (B.data_ = nullptr →
        (vector_intrinsic.move_assign B A w).2.2.deallocations = w.deallocations)) := by
  refine ⟨⟨rfl, rfl, rfl, rfl, ?_⟩, rfl, rfl, rfl, rfl, ?_, ?_, ?_, ?_⟩
  · simp [vector_intrinsic.destruct, vector_intrinsic.deallocate,
      vector_intrinsic.move_construct, vector_intrinsic.move_from, vector_intrinsic.clear]
  · simp [vector_intrinsic.destruct, vector_intrinsic.deallocate,
      vector_intrinsic.move_assign, vector_intrinsic.move_from, vector_intrinsic.clear]
  · exact vector_intrinsic.deallocate_mem B w
  · intro hB
    simp [vector_intrinsic.move_assign, vector_intrinsic.deallocate, hB,
      static_framedata_allocator_array.deallocate]
  · intro hB
    simp [vector_intrinsic.move_assign, vector_intrinsic.deallocate, hB]

/-- C9 for `A = (100, 4)` moved into `B = (200, 2)` over an empty registry. -/
theorem move_semantics_witness :
    (vector_intrinsic.move_assign ⟨200, 2⟩ ⟨100, 4⟩ (⟨[], fun _ => 0⟩ : World Nat)).1
      = ⟨100, 4⟩ ∧
    (vector_intrinsic.move_assign ⟨200, 2⟩ ⟨100, 4⟩
      (⟨[], fun _ => 0⟩ : World Nat)).2.2.deallocations = [⟨200, 2⟩] :=
  ⟨by decide,
    (move_semantics ⟨100, 4⟩ ⟨200, 2⟩ (⟨[], fun _ => 0⟩ : World Nat)).2.2.2.2.2.2.2.1
      (by decide)⟩

/-- C10: releasing a handle with state `(p, n)`, `p` non-null (`deallocate()`, which
is all the destructor does), appends exactly the one entry `(p, n)` to the
registry, touches no element and leaves the handle empty; releasing it again
changes nothing.  Releasing an empty handle, a default-constructed one
included, leaves handle and world unchanged. -/
theorem release_once {T : Type} (h : vector_intrinsic) (w : World T) :
    (h.data_ ≠ nullptr →
      (vector_intrinsic.destruct h w).2.deallocations
          = w.deallocations ++ [⟨h.data_, h.size_⟩] ∧
      (vector_intrinsic.destruct h w).2.mem = w.mem ∧
      (vector_intrinsic.destruct h w).1.data = nullptr ∧
      (vector_intrinsic.destruct h w).1.size = 0 ∧
      vector_intrinsic.deallocate (vector_intrinsic.destruct h w).1
          (vector_intrinsic.destruct h w).2
        = vector_intrinsic.destruct h w) ∧
    (h.data_ = nullptr → vector_intrinsic.destruct h w = (h, w)) ∧
    (vector_intrinsic.construct.data = nullptr ∧ vector_intrinsic.construct.size = 0 ∧
      vector_intrinsic.destruct vector_intrinsic.construct w
        = (vector_intrinsic.construct, w)) ∧
    vector_intrinsic.destruct h w = vector_intrinsic.deallocate h w := by
  refine ⟨?_, ?_, ⟨rfl, rfl, ?_⟩, rfl⟩
  · intro hp
    simp [vector_intrinsic.destruct, vector_intrinsic.deallocate, hp,
      static_framedata_allocator_array.deallocate, vector_intrinsic.clear,
      vector_intrinsic.data, vector_intrinsic.size]
  · intro hp
    simp [vector_intrinsic.destruct, vector_intrinsic.deallocate, hp]
  · simp [vector_intrinsic.destruct, vector_intrinsic.deallocate, vector_intrinsic.construct,
      vector_intrinsic.clear]

/-- C10 for the handle `(100, 4)` over the registry `[(50, 4)]`. -/
theorem release_once_witness :
    (vector_intrinsic.destruct ⟨100, 4⟩
      (⟨[⟨50, 4⟩], fun _ => 0⟩ : World Nat)).2.deallocations = [⟨50, 4⟩, ⟨100, 4⟩] ∧
    (vector_intrinsic.destruct ⟨100, 4⟩ (⟨[⟨50, 4⟩], fun _ => 0⟩ : World Nat)).1
      = ⟨nullptr, 0⟩ ∧
    vector_intrinsic.destruct ⟨nullptr, 0⟩ (⟨[⟨50, 4⟩], fun _ => 0⟩ : World Nat)
      = (⟨nullptr, 0⟩, ⟨[⟨50, 4⟩], fun _ => 0⟩) :=
  have h := release_once ⟨100, 4⟩ (⟨[⟨50, 4⟩], fun _ => 0⟩ : World Nat)
  ⟨(h.1 (by decide)).1, by decide,
    (release_once ⟨nullptr, 0⟩ (⟨[⟨50, 4⟩], fun _ => 0⟩ : World Nat)).2.1 rfl⟩

/-! ## Properties of the frame split -/

theorem side_step_apply {V : Type} (f : V → V) (mem : Nat → V) (a s k x : Nat)
    (hd : a + (k + 1) ≤ s ∨ s + (k + 1) ≤ a) :
    (if a + 1 ≤ x ∧ x < a + 1 + k
        then f (Function.update mem a (f (mem s)) (s + 1 + (x - (a + 1))))
        else Function.update mem a (f (mem s)) x)
      = if a ≤ x ∧ x < a + (k + 1) then f (mem (s + (x - a))) else mem x := by
  by_cases h1 : x = a
  · subst h1
    have c1 : ¬ (x + 1 ≤ x ∧ x < x + 1 + k) := by omega
    have c2 : x ≤ x ∧ x < x + (k + 1) := by omega
    rw [if_neg c1, if_pos c2]
    simp [Function.update]
  · by_cases h2 : a + 1 ≤ x ∧ x < a + 1 + k
    · have c2 : a ≤ x ∧ x < a + (k + 1) := by omega
      have hne : s + 1 + (x - (a + 1)) ≠ a := by omega
      have e : s + 1 + (x - (a + 1)) = s + (x - a) := by omega
      rw [if_pos h2, if_pos c2, Function.update_noteq hne, e]
    · have c2 : ¬ (a ≤ x ∧ x < a + (k + 1)) := by omega
      rw [if_neg h2, if_neg c2, Function.update_noteq h1]

theorem side_loop_returning {V : Type} (f : V → V) : ∀ (k : Nat) (mem : Nat → V) (a s : Nat),
    (a + k ≤ s ∨ s + k ≤ a) →
    side_loop (returning f) mem a s k
      = { mem := fun x => if a ≤ x ∧ x < a + k then f (mem (s + (x - a))) else mem x,
          threw := false } := by
  intro k
  induction k with
  | zero =>
    intro mem a s _
    simp only [side_loop]
    congr 1
    funext x
    have : ¬ (a ≤ x ∧ x < a + 0) := fun h => Nat.lt_irrefl _ (Nat.lt_of_le_of_lt h.1 h.2)
    rw [if_neg this]
  | succ k ih =>
    intro mem a s hd
    simp only [side_loop, returning]
    rw [ih _ _ _ (by omega)]
    congr 1
    funext x
    exact side_step_apply f mem a s k x hd

theorem side_loop_frame {V : Type} (split : V → Option V) : ∀ (k : Nat) (mem : Nat → V)
    (a s x : Nat), ¬ (a ≤ x ∧ x < a + k) → (side_loop split mem a s k).mem x = mem x := by
  intro k
  induction k with
  | zero => intro mem a s x _; rfl
  | succ k ih =>
    intro mem a s x hx
    simp only [side_loop]
    cases hv : split (mem s) with
    | none => rfl
    | some v =>
      simp only
      have hne : x ≠ a := by omega
      rw [ih _ _ _ _ (by omega)]
      exact Function.update_noteq hne _ _

theorem side_loop_filled {V : Type} (split : V → Option V) : ∀ (k : Nat) (mem : Nat → V)
    (a s : Nat), (a + k ≤ s ∨ s + k ≤ a) → (side_loop split mem a s k).threw = false →
    ∀ i, i < k → split (mem (s + i)) = some ((side_loop split mem a s k).mem (a + i)) := by
  intro k
  induction k with
  | zero => intro mem a s _ _ i hi; omega
  | succ k ih =>
    intro mem a s hd hok i hi
    simp only [side_loop] at hok ⊢
    cases hv : split (mem s) with
    | none => rw [hv] at hok; simp at hok
    | some v =>
      rw [hv] at hok
      simp only at hok ⊢
      cases i with
      | zero =>
        have hfr : ¬ (a + 1 ≤ a ∧ a < a + 1 + k) := by omega
        show split (mem s)
          = some ((side_loop split (Function.update mem a v) (a + 1) (s + 1) k).mem a)
        rw [side_loop_frame split k (Function.update mem a v) (a + 1) (s + 1) a hfr, hv]
        simp [Function.update]
      | succ j =>
        have h := ih (Function.update mem a v) (a + 1) (s + 1) (by omega) hok j (by omega)
        have hne : s + 1 + j ≠ a := by omega
        rw [Function.update_noteq hne] at h
        have e1 : s + (j + 1) = s + 1 + j := by omega
        have e2 : a + (j + 1) = a + 1 + j := by omega
        rw [e1, e2]
        exact h

theorem parallel_apply {V : Type} (fa fb : V → V) (mem : Nat → V) (d0 d1 s k x : Nat)
    (hd : regions_disjoint d0 d1 s k) :
    ((if d1 ≤ x ∧ x < d1 + k
        then fb (if d0 ≤ s + (x - d1) ∧ s + (x - d1) < d0 + k
          then fa (mem (s + (s + (x - d1) - d0))) else mem (s + (x - d1)))
        else if d0 ≤ x ∧ x < d0 + k then fa (mem (s + (x - d0))) else mem x)
      = split_result mem d0 d1 s k fa fb x) ∧
    ((if d0 ≤ x ∧ x < d0 + k
        then fa (if d1 ≤ s + (x - d0) ∧ s + (x - d0) < d1 + k
          then fb (mem (s + (s + (x - d0) - d1))) else mem (s + (x - d0)))
        else if d1 ≤ x ∧ x < d1 + k then fb (mem (s + (x - d1))) else mem x)
      = split_result mem d0 d1 s k fa fb x) := by
  obtain ⟨h01, h0s, h1s⟩ := hd
  unfold split_result
  constructor
  · by_cases c1 : d1 ≤ x ∧ x < d1 + k
    · have c0 : ¬ (d0 ≤ x ∧ x < d0 + k) := by omega
      have cs : ¬ (d0 ≤ s + (x - d1) ∧ s + (x - d1) < d0 + k) := by omega
      rw [if_pos c1, if_neg cs, if_neg c0, if_pos c1]
    · rw [if_neg c1]
      by_cases c0 : d0 ≤ x ∧ x < d0 + k
      · rw [if_pos c0, if_pos c0]
      · rw [if_neg c0, if_neg c0, if_neg c1]
  · by_cases c0 : d0 ≤ x ∧ x < d0 + k
    · have cs : ¬ (d1 ≤ s + (x - d0) ∧ s + (x - d0) < d1 + k) := by omega
      rw [if_pos c0, if_neg cs, if_pos c0]
    · rw [if_neg c0, if_neg c0]

theorem split_frame_parallel_sides_returning {V : Type} (a_first : Bool) (mem : Ptr → V)
    (dest0 dest1 : Ptr) (count : Int) (source : Ptr) (fa fb : V → V)
    (hd : regions_disjoint dest0 dest1 source count.toNat) :
    split_frame_parallel_sides true a_first mem dest0 dest1 count source
        (returning fa) (returning fb)
      = { mem := split_result mem dest0 dest1 source count.toNat fa fb,
          threw := false, a_failed := false } := by
  have hd2 := hd
  obtain ⟨h01, h0s, h1s⟩ := hd2
  unfold split_frame_parallel_sides
  cases a_first with
  | true =>
    simp only [if_true]
    rw [side_loop_returning fa _ mem dest0 source h0s, side_loop_returning fb _ _ dest1 source h1s]
    simp only
    congr 1
    funext x
    exact (parallel_apply fa fb mem dest0 dest1 source count.toNat x hd).1
  | false =>
    simp only [if_true, Bool.false_eq_true, if_false]
    rw [side_loop_returning fb _ mem dest1 source h1s]
    simp only [Bool.false_eq_true, if_false]
    rw [side_loop_returning fa _ _ dest0 source h0s]
    simp only
    congr 1
    funext x
    exact (parallel_apply fa fb mem dest0 dest1 source count.toNat x hd).2

theorem simple_step_apply {V : Type} (fa fb : V → V) (mem : Nat → V) (a b s k x : Nat)
    (hd : regions_disjoint a b s (k + 1)) :
    split_result
        (Function.update (Function.update mem a (fa (mem s))) b (fb (mem s)))
        (a + 1) (b + 1) (s + 1) k fa fb x
      = split_result mem a b s (k + 1) fa fb x := by
  obtain ⟨hab, has, hbs⟩ := hd
  unfold split_result
  by_cases ha : x = a
  · subst ha
    have c1 : ¬ (x + 1 ≤ x ∧ x < x + 1 + k) := by omega
    have c2 : ¬ (b + 1 ≤ x ∧ x < b + 1 + k) := by omega
    have c3 : x ≤ x ∧ x < x + (k + 1) := by omega
    have hne : x ≠ b := by omega
    rw [if_neg c1, if_neg c2, if_pos c3, Function.update_noteq hne, Function.update_same,
      Nat.sub_self, Nat.add_zero]
  · by_cases hb : x = b
    · subst hb
      have c1 : ¬ (a + 1 ≤ x ∧ x < a + 1 + k) := by omega
      have c2 : ¬ (x + 1 ≤ x ∧ x < x + 1 + k) := by omega
      have c3 : ¬ (a ≤ x ∧ x < a + (k + 1)) := by omega
      have c4 : x ≤ x ∧ x < x + (k + 1) := by omega
      rw [if_neg c1, if_neg c2, if_neg c3, if_pos c4, Function.update_same,
        Nat.sub_self, Nat.add_zero]
    · by_cases c1 : a + 1 ≤ x ∧ x < a + 1 + k
      · have c3 : a ≤ x ∧ x < a + (k + 1) := by omega
        have n1 : s + 1 + (x - (a + 1)) ≠ b := by omega
        have n2 : s + 1 + (x - (a + 1)) ≠ a := by omega
        have e : s + 1 + (x - (a + 1)) = s + (x - a) := by omega
        rw [if_pos c1, if_pos c3, Function.update_noteq n1, Function.update_noteq n2, e]
      · have c3 : ¬ (a ≤ x ∧ x < a + (k + 1)) := by omega
        rw [if_neg c1, if_neg c3]
        by_cases c2 : b + 1 ≤ x ∧ x < b + 1 + k
        · have c4 : b ≤ x ∧ x < b + (k + 1) := by omega
          have n1 : s + 1 + (x - (b + 1)) ≠ b := by omega
          have n2 : s + 1 + (x - (b + 1)) ≠ a := by omega
          have e : s + 1 + (x - (b + 1)) = s + (x - b) := by omega
          rw [if_pos c2, if_pos c4, Function.update_noteq n1, Function.update_noteq n2, e]
        · have c4 : ¬ (b ≤ x ∧ x < b + (k + 1)) := by omega
          rw [if_neg c2, if_neg c4, Function.update_noteq hb, Function.update_noteq ha]

theorem simple_loop_returning {V : Type} (fa fb : V → V) : ∀ (k : Nat) (mem : Nat → V)
    (a b s : Nat), regions_disjoint a b s k →
    simple_loop (returning fa) (returning fb) mem a b s k
      = { mem := split_result mem a b s k fa fb, threw := false } := by
  intro k
  induction k with
  | zero =>
    intro mem a b s _
    simp only [simple_loop]
    congr 1
    funext x
    have c1 : ¬ (a ≤ x ∧ x < a + 0) := fun h => Nat.lt_irrefl _ (Nat.lt_of_le_of_lt h.1 h.2)
    have c2 : ¬ (b ≤ x ∧ x < b + 0) := fun h => Nat.lt_irrefl _ (Nat.lt_of_le_of_lt h.1 h.2)
    simp only [split_result, if_neg c1, if_neg c2]
  | succ k ih =>
    intro mem a b s hd
    have hd2 := hd
    obtain ⟨hab, has, hbs⟩ := hd2
    have hsa : s ≠ a := by omega
    simp only [simple_loop, returning, Function.update_noteq hsa]
    have hd1 : regions_disjoint (a + 1) (b + 1) (s + 1) k := by
      refine ⟨?_, ?_, ?_⟩ <;> omega
    have h := ih (Function.update (Function.update mem a (fa (mem s))) b (fb (mem s)))
      (a + 1) (b + 1) (s + 1) hd1
    simp only [returning] at h
    rw [h]
    congr 1
    funext x
    exact simple_step_apply fa fb mem a b s k x hd

theorem split_result_post {V : Type} (mem : Nat → V) (dest0 dest1 : Nat) (count : Int)
    (source : Nat) (fa fb : V → V)
    (hd : regions_disjoint dest0 dest1 source count.toNat) :
    split_post mem (split_result mem dest0 dest1 source count.toNat fa fb)
      dest0 dest1 count source fa fb := by
  obtain ⟨h01, h0s, h1s⟩ := hd
  have frame : ∀ x : Nat, ¬ (dest0 ≤ x ∧ x < dest0 + count.toNat) →
      ¬ (dest1 ≤ x ∧ x < dest1 + count.toNat) →
      split_result mem dest0 dest1 source count.toNat fa fb x = mem x := by
    intro x c0 c1
    simp only [split_result, if_neg c0, if_neg c1]
  refine ⟨?_, frame, ?_, ?_, ?_⟩
  · intro i hi
    constructor
    · have c0 : dest0 ≤ dest0 + i ∧ dest0 + i < dest0 + count.toNat := by omega
      simp only [split_result, if_pos c0, Nat.add_sub_cancel_left]
    · have c0 : ¬ (dest0 ≤ dest1 + i ∧ dest1 + i < dest0 + count.toNat) := by omega
      have c1 : dest1 ≤ dest1 + i ∧ dest1 + i < dest1 + count.toNat := by omega
      simp only [split_result, if_neg c0, if_pos c1, Nat.add_sub_cancel_left]
  · intro j hj
    constructor
    · intro c1
      exact frame _ (by omega) c1
    · intro c0
      exact frame _ c0 (by omega)
  · intro i hi
    exact frame _ (by omega) (by omega)
  · intro hc
    have hk : count.toNat = 0 := by omega
    funext x
    exact frame x (by omega) (by omega)

/-- C11: for every count, memory, and total extraction functions `fa`, `fb`, with the
source region and the two destination regions of `count` elements pairwise
disjoint: `split_frame` (the worker having been queued, the two loops in either
order) and `split_frame_simple` both return normally with `destA[i] = fa(source[i])`
and `destB[i] = fb(source[i])` for every `i < count`; every address outside the two
written regions, so every destination element from index `count` on and the
source, is unchanged; for `count ≤ 0` nothing is written. -/
theorem split_frame_correct {V : Type} (a_first : Bool) (mem : Ptr → V)
    (dest0 dest1 : Ptr) (count : Int) (source : Ptr) (fa fb : V → V)
    (hd : regions_disjoint dest0 dest1 source count.toNat) :
    ((split_frame true a_first mem dest0 dest1 count source
        (returning fa) (returning fb)).threw = false ∧
      split_post mem
        (split_frame true a_first mem dest0 dest1 count source
          (returning fa) (returning fb)).mem
        dest0 dest1 count source fa fb) ∧
    ((split_frame_simple mem dest0 dest1 count source
        (returning fa) (returning fb)).threw = false ∧
      split_post mem
        (split_frame_simple mem dest0 dest1 count source (returning fa) (returning fb)).mem
        dest0 dest1 count source fa fb) := by
  have hp := split_result_post mem dest0 dest1 count source fa fb hd
  constructor
  · unfold split_frame
    rw [split_frame_parallel_sides_returning a_first mem dest0 dest1 count source fa fb hd]
    exact ⟨rfl, hp⟩
  · unfold split_frame_simple
    rw [simple_loop_returning fa fb _ mem dest0 dest1 source hd]
    exact ⟨rfl, hp⟩

/-- C11 on the example of the claim: `count = 5`, the source
`[(1,10), (2,20), (3,30), (4,40), (5,50)]` at `0..4`, `destA` at `10`, `destB` at `20`. -/
theorem split_frame_correct_witness :
    regions_disjoint 10 20 0 (5 : Int).toNat ∧
    read (split_frame true false split_example_mem 10 20 5 0
      (returning Cell.first) (returning Cell.second)).mem 10 5
      = [.scalar 1, .scalar 2, .scalar 3, .scalar 4, .scalar 5] ∧
    read (split_frame true false split_example_mem 10 20 5 0
      (returning Cell.first) (returning Cell.second)).mem 20 5
      = [.scalar 10, .scalar 20, .scalar 30, .scalar 40, .scalar 50] ∧
    read (split_frame_simple split_example_mem 10 20 5 0
      (returning Cell.first) (returning Cell.second)).mem 10 5
      = [.scalar 1, .scalar 2, .scalar 3, .scalar 4, .scalar 5] ∧
    split_post split_example_mem
      (split_frame true false split_example_mem 10 20 5 0
        (returning Cell.first) (returning Cell.second)).mem
      10 20 5 0 Cell.first Cell.second :=
  have hd : regions_disjoint 10 20 0 (5 : Int).toNat := by
    simp [regions_disjoint]
  ⟨hd, by decide, by decide, by decide,
    (split_frame_correct false split_example_mem 10 20 5 0 Cell.first Cell.second hd).1.2⟩

/-- C12: taking the two sides of `split_frame_parallel_sides` as two complete loops in
either order, for every count, memory and total extraction functions with the
three regions pairwise disjoint, the memory it leaves is the memory the single
interleaved loop of `split_frame_simple` leaves, and neither throws; `split_frame`
is `split_frame_parallel_sides`, so it has the same output as the serial fallback. -/
theorem split_parallel_eq_simple {V : Type} (a_first : Bool) (mem : Ptr → V)
    (dest0 dest1 : Ptr) (count : Int) (source : Ptr) (fa fb : V → V)
    (hd : regions_disjoint dest0 dest1 source count.toNat) :
    (split_frame_parallel_sides true a_first mem dest0 dest1 count source
        (returning fa) (returning fb)).mem
      = (split_frame_simple mem dest0 dest1 count source (returning fa) (returning fb)).mem ∧
    (split_frame_parallel_sides true a_first mem dest0 dest1 count source
        (returning fa) (returning fb)).threw
      = (split_frame_simple mem dest0 dest1 count source (returning fa) (returning fb)).threw ∧
    (split_frame_parallel_sides true true mem dest0 dest1 count source
        (returning fa) (returning fb))
      = (split_frame_parallel_sides true false mem dest0 dest1 count source
        (returning fa) (returning fb)) ∧
    split_frame true a_first mem dest0 dest1 count source (returning fa) (returning fb)
      = split_frame_parallel_sides true a_first mem dest0 dest1 count source
        (returning fa) (returning fb) ∧
    (split_frame true a_first mem dest0 dest1 count source (returning fa) (returning fb)).mem
      = (split_frame_simple mem dest0 dest1 count source (returning fa) (returning fb)).mem := by
  have e1 := split_frame_parallel_sides_returning a_first mem dest0 dest1 count source fa fb hd
  have e2 : split_frame_simple mem dest0 dest1 count source (returning fa) (returning fb)
      = { mem := split_result mem dest0 dest1 source count.toNat fa fb, threw := false } :=
    simple_loop_returning fa fb _ mem dest0 dest1 source hd
  refine ⟨?_, ?_, ?_, rfl, ?_⟩
  · rw [e1, e2]
  · rw [e1, e2]
  · rw [split_frame_parallel_sides_returning true mem dest0 dest1 count source fa fb hd,
      split_frame_parallel_sides_returning false mem dest0 dest1 count source fa fb hd]
  · unfold split_frame
    rw [e1, e2]

/-- C12 on the example memory: worker first and serial loop leave the same
contents at `destA` and `destB`. -/
theorem split_parallel_eq_simple_witness :
    regions_disjoint 10 20 0 (5 : Int).toNat ∧
    (split_frame_parallel_sides true true split_example_mem 10 20 5 0
        (returning Cell.first) (returning Cell.second)).mem
      = (split_frame_simple split_example_mem 10 20 5 0
        (returning Cell.first) (returning Cell.second)).mem ∧
    read (split_frame_parallel_sides true true split_example_mem 10 20 5 0
        (returning Cell.first) (returning Cell.second)).mem 20 5
      = [.scalar 10, .scalar 20, .scalar 30, .scalar 40, .scalar 50] :=
  have hd : regions_disjoint 10 20 0 (5 : Int).toNat := by
    simp [regions_disjoint]
  ⟨hd,
    (split_parallel_eq_simple true split_example_mem 10 20 5 0 Cell.first Cell.second hd).1,
    by decide⟩

theorem parallel_filled {V : Type} (pushed a_first : Bool) (mem : Nat → V)
    (dest0 dest1 : Nat) (count : Int) (source : Nat) (split_a split_b : V → Option V)
    (hd : regions_disjoint dest0 dest1 source count.toNat)
    (hok : (split_frame_parallel_sides pushed a_first mem dest0 dest1 count source
      split_a split_b).threw = false)
    (ha : (split_frame_parallel_sides pushed a_first mem dest0 dest1 count source
      split_a split_b).a_failed = false) :
    ∀ i : Nat, i < count.toNat →
      split_a (mem (source + i))
        = some ((split_frame_parallel_sides pushed a_first mem dest0 dest1 count source
            split_a split_b).mem (dest0 + i)) ∧
      split_b (mem (source + i))
        = some ((split_frame_parallel_sides pushed a_first mem dest0 dest1 count source
            split_a split_b).mem (dest1 + i)) := by
  obtain ⟨h01, h0s, h1s⟩ := hd
  intro i hi
  unfold split_frame_parallel_sides at hok ha ⊢
  cases pushed with
  | false => simp at hok
  | true =>
    cases a_first with
    | true =>
      simp only [if_true] at hok ha ⊢
      have fa := side_loop_filled split_a _ mem dest0 source h0s ha i hi
      have fb := side_loop_filled split_b _ _ dest1 source h1s hok i hi
      rw [side_loop_frame split_a _ mem dest0 source (source + i) (by omega)] at fb
      rw [side_loop_frame split_b _ _ dest1 source (dest0 + i) (by omega)]
      exact ⟨fa, fb⟩
    | false =>
      simp only [if_true, Bool.false_eq_true, if_false] at hok ha ⊢
      by_cases hb : (side_loop split_b mem dest1 source count.toNat).threw = true
      · rw [if_pos hb] at hok
        simp at hok
      · rw [if_neg hb] at ha ⊢
        simp only at ha ⊢
        have hb2 : (side_loop split_b mem dest1 source count.toNat).threw = false := by
          simpa using hb
        have fb := side_loop_filled split_b _ mem dest1 source h1s hb2 i hi
        have fa := side_loop_filled split_a _ _ dest0 source h0s ha i hi
        rw [side_loop_frame split_b _ mem dest1 source (source + i) (by omega)] at fa
        rw [side_loop_frame split_a _ _ dest0 source (dest1 + i) (by omega)]
        exact ⟨fa, fb⟩

/-- C13, as the code has it: when `pool.push` cannot queue the task and throws, the
call propagates that failure and has written nothing; and whenever the call
returns normally and the task for side A ended without an exception (the
three regions being pairwise disjoint), `destA` and `destB` are populated for all
`count` elements. -/
theorem split_parallel_failure {V : Type} (pushed a_first : Bool) (mem : Ptr → V)
    (dest0 dest1 : Ptr) (count : Int) (source : Ptr) (split_a split_b : V → Option V)
    (hd : regions_disjoint dest0 dest1 source count.toNat) :
    ((split_frame_parallel_sides false a_first mem dest0 dest1 count source
        split_a split_b).threw = true ∧
      (split_frame_parallel_sides false a_first mem dest0 dest1 count source
        split_a split_b).mem = mem) ∧
    ((split_frame_parallel_sides pushed a_first mem dest0 dest1 count source
        split_a split_b).threw = false →
      (split_frame_parallel_sides pushed a_first mem dest0 dest1 count source
        split_a split_b).a_failed = false →
      ∀ i : Nat, i < count.toNat →
        split_a (mem (source + i))
          = some ((split_frame_parallel_sides pushed a_first mem dest0 dest1 count source
              split_a split_b).mem (dest0 + i)) ∧
        split_b (mem (source + i))
          = some ((split_frame_parallel_sides pushed a_first mem dest0 dest1 count source
              split_a split_b).mem (dest1 + i))) :=
  ⟨⟨rfl, rfl⟩,
    parallel_filled pushed a_first mem dest0 dest1 count source split_a split_b hd⟩

/-- C13 on the example memory with the worker queued and both callables
returning: the call returns normally and `destB[4]` is `50`. -/
theorem split_parallel_failure_witness :
    regions_disjoint 10 20 0 (5 : Int).toNat ∧
    (split_frame_parallel_sides true true split_example_mem 10 20 5 0
      (returning Cell.first) (returning Cell.second)).threw = false ∧
    (returning Cell.second) (split_example_mem (0 + 4))
      = some ((split_frame_parallel_sides true true split_example_mem 10 20 5 0
          (returning Cell.first) (returning Cell.second)).mem (20 + 4)) :=
  have hd : regions_disjoint 10 20 0 (5 : Int).toNat := by
    simp [regions_disjoint]
  ⟨hd, by decide,
    ((split_parallel_failure true true split_example_mem 10 20 5 0
      (returning Cell.first) (returning Cell.second) hd).2 (by decide) (by decide)
      4 (by decide)).2⟩

/-- C13 fails as stated: with `split_a` throwing on the third source element the task
for side A ends with an exception after two elements, yet the call returns
normally, with `destA[2..4]` never written. -/
theorem split_parallel_failure_counterexample :
    (split_frame_parallel_sides true true split_example_mem 10 20 5 0
      split_example_throwing (returning Cell.second)).threw = false ∧
    (split_frame_parallel_sides true true split_example_mem 10 20 5 0
      split_example_throwing (returning Cell.second)).a_failed = true ∧
    read (split_frame_parallel_sides true true split_example_mem 10 20 5 0
      split_example_throwing (returning Cell.second)).mem 10 5
      = [.scalar 1, .scalar 2, .scalar 0, .scalar 0, .scalar 0] ∧
    (split_frame_parallel_sides true false split_example_mem 10 20 5 0
      split_example_throwing (returning Cell.second)).threw = false ∧
    read (split_frame_parallel_sides true false split_example_mem 10 20 5 0
      split_example_throwing (returning Cell.second)).mem 10 5
      = [.scalar 1, .scalar 2, .scalar 0, .scalar 0, .scalar 0] := by
  decide

/-! ## Further properties of the allocators -/

/-- C14: for every registry `R`, pointer `p` and count `n`, `deallocate(p, n)` gives `R` with
the one entry `(p, n)` appended: the size is `|R| + 1`, every entry of `R` is still there
at its position, every entry has the multiplicity it had (one more for `(p, n)`),
and deallocating any list of regions in turn makes the registry longer by the
length of that list, so its size has no upper bound. -/
theorem deallocate_appends (ds : List Deallocation) (p : Ptr) (n : Nat) :
    (static_framedata_allocator_array.deallocate ds p n).length = ds.length + 1 ∧
    (∀ (i : Nat) (d : Deallocation), ds[i]? = some d →
      (static_framedata_allocator_array.deallocate ds p n)[i]? = some d) ∧
    (static_framedata_allocator_array.deallocate ds p n)[ds.length]? = some ⟨p, n⟩ ∧
    (∀ d, (static_framedata_allocator_array.deallocate ds p n).count d
      = ds.count d + if d = ⟨p, n⟩ then 1 else 0) ∧
    (∀ xs : List Deallocation,
      (xs.foldl (fun r d => static_framedata_allocator_array.deallocate r d.t d.n) ds).length
        = ds.length + xs.length) := by
  refine ⟨?_, ?_, ?_, ?_, ?_⟩
  · simp [static_framedata_allocator_array.deallocate]
  · intro i d hd
    obtain ⟨hi, _⟩ := List.getElem?_eq_some.1 hd
    unfold static_framedata_allocator_array.deallocate
    rw [List.getElem?_append_left hi]
    exact hd
  · simp [static_framedata_allocator_array.deallocate]
  · intro d
    unfold static_framedata_allocator_array.deallocate
    rw [List.count_append, List.count_singleton]
    by_cases h : d = ⟨p, n⟩
    · simp [h]
    · have h2 : ¬ ((⟨p, n⟩ : Deallocation) = d) := fun e => h e.symm
      simp [h, h2]
  · intro xs
    induction xs generalizing ds with
    | nil => simp
    | cons x xs ih =>
      rw [List.foldl_cons, ih]
      simp [static_framedata_allocator_array.deallocate]
      omega

/-- C14 on the registry `[(7, 3), (8, 5)]` and `deallocate(9, 3)`: three entries, the old
two in place, and `(7, 3)` still there once. -/
theorem deallocate_appends_witness :
    static_framedata_allocator_array.deallocate [⟨7, 3⟩, ⟨8, 5⟩] 9 3
      = [⟨7, 3⟩, ⟨8, 5⟩, ⟨9, 3⟩] ∧
    (static_framedata_allocator_array.deallocate [⟨7, 3⟩, ⟨8, 5⟩] 9 3).length = 2 + 1 ∧
    (static_framedata_allocator_array.deallocate [⟨7, 3⟩, ⟨8, 5⟩] 9 3)[1]? = some ⟨8, 5⟩ :=
  have h := deallocate_appends [⟨7, 3⟩, ⟨8, 5⟩] 9 3
  ⟨by decide, h.1, h.2.1 1 ⟨8, 5⟩ (by decide)⟩

namespace framedata_allocator

variable {T : Type}

theorem run_mem (sizeofT : Nat) (cs : List AllocCall) :
    ∀ w : World T, (run sizeofT w cs).mem = w.mem := by
  induction cs with
  | nil => intro w; rfl
  | cons c cs ih =>
    intro w
    rw [run, ih]
    cases c <;> rfl

end framedata_allocator

/-- C15: on the explicit heap, `allocate` and `deallocate` of the pool leave the
contents of the whole memory as they were, and so does every sequence of such
calls; hence a region deallocated, left in the pool during any sequence of
calls and then returned by `allocate(n)` holds the contents it had when it was
deallocated.  The same holds for the handle's own `allocate` and `deallocate`. -/
theorem allocator_never_writes {T : Type} (w : World T) (sizeofT : Nat) :
    (∀ n sysNew, (framedata_allocator.allocate w n sizeofT sysNew).2.mem = w.mem) ∧
    (∀ a n, (framedata_allocator.deallocate w a n).mem = w.mem) ∧
    (∀ cs p k, read (framedata_allocator.run sizeofT w cs).mem p k = read w.mem p k) ∧
    (∀ a n cs sysNew,
      (framedata_allocator.allocate
        (framedata_allocator.run sizeofT (framedata_allocator.deallocate w a n) cs)
        n sizeofT sysNew).1 = some a →
      read (framedata_allocator.allocate
        (framedata_allocator.run sizeofT (framedata_allocator.deallocate w a n) cs)
        n sizeofT sysNew).2.mem a n = read w.mem a n) ∧
    (∀ (h : vector_intrinsic) n sysNew,
      (vector_intrinsic.allocate h w n sizeofT sysNew).w.mem = w.mem ∧
      (vector_intrinsic.deallocate h w).2.mem = w.mem) := by
  refine ⟨fun _ _ => rfl, fun _ _ => rfl, ?_, ?_, ?_⟩
  · intro cs p k
    rw [framedata_allocator.run_mem]
  · intro a n cs sysNew _
    show read (framedata_allocator.run sizeofT (framedata_allocator.deallocate w a n) cs).mem
      a n = read w.mem a n
    rw [framedata_allocator.run_mem]
    rfl
  · intro h n sysNew
    exact ⟨vector_intrinsic.allocate_mem h w n sizeofT sysNew,
      vector_intrinsic.deallocate_mem h w⟩

/-- C15 on a region `[7, 8, 9]` at `100`: deallocated, kept in the pool over two other
calls, and handed out again with the same contents. -/
theorem allocator_never_writes_witness :
    (framedata_allocator.allocate
      (framedata_allocator.run 1
        (framedata_allocator.deallocate (⟨[], fun a => a - 93⟩ : World Nat) 100 3)
        [.deallocate 200 5, .allocate 5 (fun _ => none)])
      3 1 (fun _ => none)).1 = some 100 ∧
    read (framedata_allocator.allocate
      (framedata_allocator.run 1
        (framedata_allocator.deallocate (⟨[], fun a => a - 93⟩ : World Nat) 100 3)
        [.deallocate 200 5, .allocate 5 (fun _ => none)])
      3 1 (fun _ => none)).2.mem 100 3 = read (fun a => a - 93) 100 3 ∧
    read (fun a => a - 93) 100 3 = [7, 8, 9] :=
  ⟨by decide,
    (allocator_never_writes (⟨[], fun a => a - 93⟩ : World Nat) 1).2.2.2.1 100 3
      [.deallocate 200 5, .allocate 5 (fun _ => none)] (fun _ => none) (by decide),
    by decide⟩

namespace static_framedata_allocator_map

theorem find_store_ne (m : Registry) (n k : Nat) (v : List Ptr) (h : k ≠ n) :
    find (store m n v) k = find m k := by
  induction m with
  | nil =>
    have h2 : ¬ n = k := fun e => h e.symm
    simp [store, find, h2]
  | cons kv rest ih =>
    obtain ⟨k1, w⟩ := kv
    unfold store
    have h2 : ¬ n = k := fun e => h e.symm
    by_cases h1 : k1 = n
    · subst h1
      simp [find, h2]
    · by_cases h3 : n < k1
      · simp [h1, h3, find, h2]
      · simp only [h1, h3, if_false, find]
        rw [ih]

end static_framedata_allocator_map

theorem countP_take {ds : List Deallocation} {n : Nat} {t : Ptr} {ds1 : List Deallocation}
    (h : static_framedata_allocator_array.take ds n = some (t, ds1)) (k : Nat) :
    ds.countP (fun d => decide (d.n = k))
      = ds1.countP (fun d => decide (d.n = k)) + if k = n then 1 else 0 := by
  obtain ⟨_, hperm⟩ := static_framedata_allocator_array.take_some h
  rw [hperm.countP_eq, List.countP_cons]
  by_cases hk : k = n
  · simp [hk]
  · have h2 : ¬ n = k := fun e => hk e.symm
    simp [hk, h2]

/-- C16: let a flat-list registry and a map registry hold, for every count, the same
number of free regions.  Then for every `n`: if the flat list hands out a
registered region of count `n`, so does the map (a pointer stored under key `n`);
if the flat list falls through to the system allocator, so does the map, and
both return what the system allocator gives; after `allocate(n)` the two
registries are related again, and so they are after `deallocate(a, n)`. -/
theorem registries_equivalent (ds : List Deallocation)
    (m : static_framedata_allocator_map.Registry) (n sizeofT : Nat) (sysNew : SysNew)
    (hrel : same_counts ds m) :
    (∀ t ds1, static_framedata_allocator_array.take ds n = some (t, ds1) →
      (⟨t, n⟩ : Deallocation) ∈ ds ∧
      (static_framedata_allocator_array.allocate ds n sizeofT sysNew).1 = some t ∧
      ∃ a, (static_framedata_allocator_map.allocate m n sizeofT sysNew).1 = some a ∧
        a ∈ static_framedata_allocator_map.find m n) ∧
    (static_framedata_allocator_array.take ds n = none →
      static_framedata_allocator_map.find m n = [] ∧
      (static_framedata_allocator_array.allocate ds n sizeofT sysNew).1
        = sysNew (alloc_bytes n sizeofT) ∧
      (static_framedata_allocator_map.allocate m n sizeofT sysNew).1
        = sysNew (alloc_bytes n sizeofT)) ∧
    same_counts (static_framedata_allocator_array.allocate ds n sizeofT sysNew).2
      (static_framedata_allocator_map.allocate m n sizeofT sysNew).2 ∧
    (∀ a, same_counts (static_framedata_allocator_array.deallocate ds a n)
      (static_framedata_allocator_map.deallocate m a n)) := by
  have hit : ∀ t ds1, static_framedata_allocator_array.take ds n = some (t, ds1) →
      static_framedata_allocator_map.find m n ≠ [] := by
    intro t ds1 h he
    have h1 := countP_take h n
    rw [hrel n, he] at h1
    simp at h1
  have miss : static_framedata_allocator_array.take ds n = none →
      static_framedata_allocator_map.find m n = [] := by
    intro h
    have h0 : ds.countP (fun d => decide (d.n = n)) = 0 := by
      rw [List.countP_eq_zero]
      intro d hd
      simpa using static_framedata_allocator_array.take_none.1 h d hd
    rw [hrel n] at h0
    exact List.length_eq_zero.1 h0
  refine ⟨?_, ?_, ?_, ?_⟩
  · intro t ds1 h
    obtain ⟨hmem, _⟩ := static_framedata_allocator_array.take_some h
    refine ⟨hmem, ?_, ?_⟩
    · rw [static_framedata_allocator_array.allocate_of_take_some h]
    · have hne := hit t ds1 h
      refine ⟨(static_framedata_allocator_map.find m n).getLast hne, ?_, List.getLast_mem hne⟩
      unfold static_framedata_allocator_map.allocate
      simp only [List.getLast?_eq_getLast _ hne]
  · intro h
    have he := miss h
    refine ⟨he, ?_, ?_⟩
    · rw [static_framedata_allocator_array.allocate_of_take_none h]
    · unfold static_framedata_allocator_map.allocate
      simp only [he, List.getLast?_nil]
  · intro k
    cases h : static_framedata_allocator_array.take ds n with
    | some r =>
      obtain ⟨t, ds1⟩ := r
      have hne := hit t ds1 h
      rw [static_framedata_allocator_array.allocate_of_take_some h]
      unfold static_framedata_allocator_map.allocate
      simp only [List.getLast?_eq_getLast _ hne]
      have h1 := countP_take h k
      rw [hrel k] at h1
      by_cases hk : k = n
      · subst hk
        rw [static_framedata_allocator_map.find_store, List.length_dropLast]
        simp only [if_true] at h1
        omega
      · rw [static_framedata_allocator_map.find_store_ne _ _ _ _ hk]
        simp only [hk, if_false, Nat.add_zero] at h1
        exact h1.symm
    | none =>
      have he := miss h
      rw [static_framedata_allocator_array.allocate_of_take_none h]
      unfold static_framedata_allocator_map.allocate
      simp only [he, List.getLast?_nil]
      by_cases hk : k = n
      · subst hk
        rw [static_framedata_allocator_map.find_store, ← he]
        exact hrel k
      · rw [static_framedata_allocator_map.find_store_ne _ _ _ _ hk]
        exact hrel k
  · intro a k
    unfold static_framedata_allocator_array.deallocate static_framedata_allocator_map.deallocate
    rw [List.countP_append]
    by_cases hk : k = n
    · subst hk
      rw [static_framedata_allocator_map.find_store, List.length_append, hrel k]
      simp
    · rw [static_framedata_allocator_map.find_store_ne _ _ _ _ hk, hrel k]
      have h2 : ¬ n = k := fun e => hk e.symm
      simp [h2]

/-- C16 on the flat list `[(7,3), (8,5), (9,3)]` and the map `{3 ↦ [9, 7], 5 ↦ [8]}`: a request
for `3` is served from the registry by both (with different pointers), and the
registries left behind are related again. -/
theorem registries_equivalent_witness :
    same_counts [⟨7, 3⟩, ⟨8, 5⟩, ⟨9, 3⟩] [(3, [9, 7]), (5, [8])] ∧
    (static_framedata_allocator_array.allocate [⟨7, 3⟩, ⟨8, 5⟩, ⟨9, 3⟩] 3 1
      (fun _ => none)).1 = some 9 ∧
    (static_framedata_allocator_map.allocate [(3, [9, 7]), (5, [8])] 3 1
      (fun _ => none)).1 = some 7 ∧
    same_counts
      (static_framedata_allocator_array.allocate [⟨7, 3⟩, ⟨8, 5⟩, ⟨9, 3⟩] 3 1
        (fun _ => none)).2
      (static_framedata_allocator_map.allocate [(3, [9, 7]), (5, [8])] 3 1
        (fun _ => none)).2 :=
  have hrel : same_counts [⟨7, 3⟩, ⟨8, 5⟩, ⟨9, 3⟩] [(3, [9, 7]), (5, [8])] := by
    intro k
    by_cases h3 : k = 3
    · subst h3; decide
    · by_cases h5 : k = 5
      · subst h5; decide
      · have e3 : ¬ 3 = k := fun e => h3 e.symm
        have e5 : ¬ 5 = k := fun e => h5 e.symm
        simp [static_framedata_allocator_map.find, e3, e5]
  ⟨hrel, by decide, by decide,
    (registries_equivalent [⟨7, 3⟩, ⟨8, 5⟩, ⟨9, 3⟩] [(3, [9, 7]), (5, [8])] 3 1
      (fun _ => none) hrel).2.2.1⟩

/-- C17 does not hold on the code.  After the calls `recency_example_calls` (all
admissible: three regions allocated, deallocated in the order `10`, `20`, `30`, the
region of count 2 allocated again) the swap with the last entry has left the
registry as `[(30,1), (20,1)]`; `allocate(1)` then returns `20`, although among the free
regions of count 1 the one deallocated most recently is `30`. -/
theorem favor_recent_violated :
    AllocState.admissible_run 1 AllocState.init recency_example_calls ∧
    (AllocState.run 1 AllocState.init recency_example_calls).deallocations
      = [⟨30, 1⟩, ⟨20, 1⟩] ∧
    recency_run [] recency_example_calls = [⟨20, 1⟩, ⟨30, 1⟩] ∧
    most_recent (recency_run [] recency_example_calls) 1 = some 30 ∧
    (static_framedata_allocator_array.allocate
      (AllocState.run 1 AllocState.init recency_example_calls).deallocations 1 1
      (fun _ => none)).1 = some 20 := by
  refine ⟨?_, by decide, by decide, by decide, by decide⟩
  simp [recency_example_calls, AllocState.admissible_run, AllocState.admissible,
    AllocState.step, AllocState.init, AllocState.owned, AllocState.registered,
    static_framedata_allocator_array.allocate, static_framedata_allocator_array.take,
    static_framedata_allocator_array.scan, static_framedata_allocator_array.deallocate]

theorem allocate_released_first {T : Type} (h : vector_intrinsic) (w : World T)
    (n sizeofT : Nat) (sysNew : SysNew)
    (hp : h.data_ ≠ nullptr)
    (hreg : ∀ d ∈ w.deallocations, d.t ≠ h.data_)
    (hfresh : ∀ b q, sysNew b = some q → q ≠ h.data_)
    (hn : n ≠ h.size_)
    (hok : (vector_intrinsic.allocate h w n sizeofT sysNew).threw = false) :
    released_first h w n (vector_intrinsic.allocate h w n sizeofT sysNew) := by
  have hsz := vector_intrinsic.allocate_size h w n sizeofT sysNew
  unfold released_first
  simp only [vector_intrinsic.allocate, static_framedata_allocator.allocate,
    vector_intrinsic.deallocate, hp, ne_eq, not_false_eq_true, if_true,
    static_framedata_allocator.deallocate, vector_intrinsic.clear,
    vector_intrinsic.size, vector_intrinsic.data] at hok ⊢
  cases ht : static_framedata_allocator_array.take
      (static_framedata_allocator_array.deallocate w.deallocations h.data_ h.size_) n with
  | some r =>
    obtain ⟨t, ds1⟩ := r
    rw [static_framedata_allocator_array.allocate_of_take_some ht]
    obtain ⟨hmem, hperm⟩ := static_framedata_allocator_array.take_some ht
    simp only [static_framedata_allocator_array.deallocate] at hmem hperm
    have hne : (⟨h.data_, h.size_⟩ : Deallocation) ≠ ⟨t, n⟩ := by
      intro e
      injection e with _ e2
      exact hn e2.symm
    have hold : (⟨h.data_, h.size_⟩ : Deallocation) ∈ ds1 := by
      have : (⟨h.data_, h.size_⟩ : Deallocation) ∈ (⟨t, n⟩ : Deallocation) :: ds1 :=
        hperm.subset (by simp)
      rcases List.mem_cons.1 this with e | e
      · exact absurd e hne
      · exact e
    have ht2 : t ≠ h.data_ := by
      rcases List.mem_append.1 hmem with e | e
      · exact hreg _ e
      · rw [List.mem_singleton] at e
        exact absurd e.symm hne
    exact ⟨hold, rfl, ht2, Or.inl hperm⟩
  | none =>
    rw [static_framedata_allocator_array.allocate_of_take_none ht] at hok ⊢
    cases hq : sysNew (alloc_bytes n sizeofT) with
    | none => rw [hq] at hok; simp at hok
    | some q =>
      refine ⟨?_, rfl, hfresh _ q hq, Or.inr rfl⟩
      simp [static_framedata_allocator_array.deallocate]

theorem released_first_congr {T : Type} (h : vector_intrinsic) (w : World T) (n : Nat)
    (o1 o2 : Outcome T) (e1 : o1.h = o2.h) (e2 : o1.w.deallocations = o2.w.deallocations)
    (hr : released_first h w n o2) : released_first h w n o1 := by
  unfold released_first at hr ⊢
  rw [e1, e2]
  exact hr

/-- C18: let a handle hold the region `(p, m)`, `p` non-null and, as for every owned
region, neither registered in the pool nor what the system allocator hands
out.  After `assign` of a range of length `n` (either overload) or `resize(n, v)` with
`n ≠ m`, when the call returns normally: `(p, m)` is in the free registry, the handle
has size `n` and a data pointer other than `p`, and the registry is the old one
with `(p, m)` appended, less the one entry taken out for the new region if the
pool had one. -/
theorem reallocation_releases_first {T : Type} (h : vector_intrinsic) (w : World T)
    (sizeofT : Nat) (sysNew : SysNew)
    (hp : h.data_ ≠ nullptr)
    (hreg : ∀ d ∈ w.deallocations, d.t ≠ h.data_)
    (hfresh : ∀ b q, sysNew b = some q → q ≠ h.data_) :
    (∀ xs : List (Iter T), xs.length ≠ h.size_ →
      (vector_intrinsic.assign h w xs sizeofT sysNew).threw = false →
      released_first h w xs.length (vector_intrinsic.assign h w xs sizeofT sysNew)) ∧
    (∀ begin_ end_ : Ptr, distance begin_ end_ ≠ h.size_ →
      (vector_intrinsic.assign_ptr h w begin_ end_ sizeofT sysNew).threw = false →
      released_first h w (distance begin_ end_)
        (vector_intrinsic.assign_ptr h w begin_ end_ sizeofT sysNew)) ∧
    (∀ (n : Nat) (v : T), n ≠ h.size_ →
      (vector_intrinsic.resize h w n v sizeofT sysNew).threw = false →
      released_first h w n (vector_intrinsic.resize h w n v sizeofT sysNew)) := by
  refine ⟨?_, ?_, ?_⟩
  · intro xs hn hok
    obtain ⟨e1, e2, e3⟩ := vector_intrinsic.assign_via_allocate xs sizeofT sysNew h w
    exact released_first_congr h w _ _ _ e1 e2
      (allocate_released_first h w _ sizeofT sysNew hp hreg hfresh hn (by rw [← e3]; exact hok))
  · intro begin_ end_ hn hok
    obtain ⟨e1, e2, e3⟩ :=
      vector_intrinsic.assign_ptr_via_allocate begin_ end_ sizeofT sysNew h w
    exact released_first_congr h w _ _ _ e1 e2
      (allocate_released_first h w _ sizeofT sysNew hp hreg hfresh hn (by rw [← e3]; exact hok))
  · intro n v hn hok
    obtain ⟨e1, e2, e3⟩ := vector_intrinsic.resize_via_allocate n v sizeofT sysNew h w
    exact released_first_congr h w _ _ _ e1 e2
      (allocate_released_first h w _ sizeofT sysNew hp hreg hfresh hn (by rw [← e3]; exact hok))

/-- C18 for the handle `(50, 2)` over the registry `[(60, 3), (70, 2)]`: `resize(3, 9)` takes
`(60, 3)` out and leaves `[(50, 2), (70, 2)]` in some order; `assign` of four elements goes
to the system allocator for `80`. -/
theorem reallocation_releases_first_witness :
    (vector_intrinsic.resize ⟨50, 2⟩ (⟨[⟨60, 3⟩, ⟨70, 2⟩], fun _ => 0⟩ : World Nat) 3 9 1
      (fun _ => some 80)).h = ⟨60, 3⟩ ∧
    released_first ⟨50, 2⟩ (⟨[⟨60, 3⟩, ⟨70, 2⟩], fun _ => 0⟩ : World Nat) 3
      (vector_intrinsic.resize ⟨50, 2⟩ (⟨[⟨60, 3⟩, ⟨70, 2⟩], fun _ => 0⟩ : World Nat) 3 9 1
        (fun _ => some 80)) ∧
    (vector_intrinsic.assign ⟨50, 2⟩ (⟨[⟨60, 3⟩, ⟨70, 2⟩], fun _ => 0⟩ : World Nat)
      [.value 1, .value 2, .value 3, .value 4] 1 (fun _ => some 80)).h = ⟨80, 4⟩ ∧
    released_first ⟨50, 2⟩ (⟨[⟨60, 3⟩, ⟨70, 2⟩], fun _ => 0⟩ : World Nat) 4
      (vector_intrinsic.assign ⟨50, 2⟩ (⟨[⟨60, 3⟩, ⟨70, 2⟩], fun _ => 0⟩ : World Nat)
        [.value 1, .value 2, .value 3, .value 4] 1 (fun _ => some 80)) :=
  have h := reallocation_releases_first ⟨50, 2⟩
    (⟨[⟨60, 3⟩, ⟨70, 2⟩], fun _ => 0⟩ : World Nat) 1 (fun _ => some 80)
    (by decide) (by decide) (by intro b q e; cases e; decide)
  ⟨by decide, h.2.2 3 9 (by decide) (by decide), by decide,
    h.1 [.value 1, .value 2, .value 3, .value 4] (by decide) (by decide)⟩

/-- C20, as the code has it: for every element size and every count `n` whose product
`n * sizeof(T)` is below `2 ^ 64`, the fresh path of `allocate(n)` asks the system
allocator for exactly `n * sizeof(T)` bytes and leaves the registry alone; for
one-byte elements (the `byte` of `frame_data_type`) this covers every `size_t` count. -/
theorem alloc_bytes_exact (ds : List Deallocation) (n sizeofT : Nat) (sysNew : SysNew)
    (hfit : n * sizeofT < 2 ^ SIZE_WIDTH)
    (hmiss : static_framedata_allocator_array.take ds n = none) :
    static_framedata_allocator_array.allocate ds n sizeofT sysNew
      = (sysNew (n * sizeofT), ds) ∧
    alloc_bytes n sizeofT = n * sizeofT ∧
    (∀ k, k < 2 ^ SIZE_WIDTH → alloc_bytes k 1 = k) := by
  have e : alloc_bytes n sizeofT = n * sizeofT := Nat.mod_eq_of_lt hfit
  refine ⟨?_, e, ?_⟩
  · rw [static_framedata_allocator_array.allocate_of_take_none hmiss, e]
  · intro k hk
    unfold alloc_bytes
    rw [Nat.mul_one]
    exact Nat.mod_eq_of_lt hk

/-- C20 for `1000` two-byte elements over the registry `[(7, 3)]`: `2000` bytes are
requested. -/
theorem alloc_bytes_exact_witness :
    static_framedata_allocator_array.allocate [⟨7, 3⟩] 1000 2 (fun b => some b)
      = (some 2000, [⟨7, 3⟩]) ∧
    alloc_bytes 1000 2 = 2000 :=
  have h := alloc_bytes_exact [⟨7, 3⟩] 1000 2 (fun b => some b)
    (by norm_num [SIZE_WIDTH]) (by decide)
  ⟨h.1, h.2.1⟩

/-- C20 fails as stated: for two-byte elements and the count `2 ^ 63`, a valid `size_t`,
the product wraps to `0`, so the fresh path asks the system allocator for `0`
bytes, fewer than the `2 ^ 64` bytes the elements need. -/
theorem alloc_bytes_overflow_counterexample :
    (2 ^ 63 : Nat) < 2 ^ SIZE_WIDTH ∧
    alloc_bytes (2 ^ 63) 2 = 0 ∧
    alloc_bytes (2 ^ 63) 2 < 2 ^ 63 * 2 ∧
    static_framedata_allocator_array.allocate [] (2 ^ 63) 2 (fun b => some b)
      = (some 0, []) := by
  refine ⟨by norm_num [SIZE_WIDTH], by norm_num [alloc_bytes, SIZE_WIDTH],
    by norm_num [alloc_bytes, SIZE_WIDTH], ?_⟩
  have e : alloc_bytes (2 ^ 63) 2 = 0 := by norm_num [alloc_bytes, SIZE_WIDTH]
  rw [static_framedata_allocator_array.allocate_of_take_none (by rfl), e]

/-! ## Reallocation of the same size, self move and failure -/

theorem allocate_same_size {T : Type} (h : vector_intrinsic) (w : World T) (sizeofT : Nat)
    (sysNew : SysNew) (hp : h.data_ ≠ nullptr) :
    (vector_intrinsic.allocate h w h.size_ sizeofT sysNew).threw = false ∧
    (vector_intrinsic.allocate h w h.size_ sizeofT sysNew).h = ⟨h.data_, h.size_⟩ ∧
    (vector_intrinsic.allocate h w h.size_ sizeofT sysNew).w.deallocations
      = w.deallocations := by
  simp only [vector_intrinsic.allocate, static_framedata_allocator.allocate,
    vector_intrinsic.deallocate, hp, ne_eq, not_false_eq_true, if_true,
    static_framedata_allocator.deallocate, vector_intrinsic.clear]
  rw [static_framedata_allocator_array.allocate_of_take_some
    (static_framedata_allocator_array.take_push w.deallocations h.data_ h.size_)]
  exact ⟨rfl, rfl, rfl⟩

/-- C23: for a handle holding `(p, n)` with `p` non-null, `assign` of a range of length `n`
(either overload) and `resize(n, v)` return normally, whatever the system allocator
would do, with `data() = p`, `size() = n` and the free registry exactly as it was
before the call. -/
theorem same_size_reuses_own_region {T : Type} (h : vector_intrinsic) (w : World T)
    (sizeofT : Nat) (sysNew : SysNew) (hp : h.data_ ≠ nullptr) :
    (∀ xs : List (Iter T), xs.length = h.size_ →
      (vector_intrinsic.assign h w xs sizeofT sysNew).threw = false ∧
      (vector_intrinsic.assign h w xs sizeofT sysNew).h.data = h.data_ ∧
      (vector_intrinsic.assign h w xs sizeofT sysNew).h.size = h.size_ ∧
      (vector_intrinsic.assign h w xs sizeofT sysNew).w.deallocations = w.deallocations) ∧
    (∀ begin_ end_ : Ptr, distance begin_ end_ = h.size_ →
      (vector_intrinsic.assign_ptr h w begin_ end_ sizeofT sysNew).threw = false ∧
      (vector_intrinsic.assign_ptr h w begin_ end_ sizeofT sysNew).h.data = h.data_ ∧
      (vector_intrinsic.assign_ptr h w begin_ end_ sizeofT sysNew).h.size = h.size_ ∧
      (vector_intrinsic.assign_ptr h w begin_ end_ sizeofT sysNew).w.deallocations
        = w.deallocations) ∧
    (∀ v : T,
      (vector_intrinsic.resize h w h.size_ v sizeofT sysNew).threw = false ∧
      (vector_intrinsic.resize h w h.size_ v sizeofT sysNew).h.data = h.data_ ∧
      (vector_intrinsic.resize h w h.size_ v sizeofT sysNew).h.size = h.size_ ∧
      (vector_intrinsic.resize h w h.size_ v sizeofT sysNew).w.deallocations
        = w.deallocations) := by
  obtain ⟨a1, a2, a3⟩ := allocate_same_size h w sizeofT sysNew hp
  refine ⟨?_, ?_, ?_⟩
  · intro xs hx
    obtain ⟨e1, e2, e3⟩ := vector_intrinsic.assign_via_allocate xs sizeofT sysNew h w
    rw [hx] at e1 e2 e3
    simp only [vector_intrinsic.data, vector_intrinsic.size]
    rw [e1, e2, e3, a2]
    exact ⟨a1, rfl, rfl, a3⟩
  · intro begin_ end_ hx
    obtain ⟨e1, e2, e3⟩ :=
      vector_intrinsic.assign_ptr_via_allocate begin_ end_ sizeofT sysNew h w
    rw [hx] at e1 e2 e3
    simp only [vector_intrinsic.data, vector_intrinsic.size]
    rw [e1, e2, e3, a2]
    exact ⟨a1, rfl, rfl, a3⟩
  · intro v
    obtain ⟨e1, e2, e3⟩ := vector_intrinsic.resize_via_allocate h.size_ v sizeofT sysNew h w
    simp only [vector_intrinsic.data, vector_intrinsic.size]
    rw [e1, e2, e3, a2]
    exact ⟨a1, rfl, rfl, a3⟩

/-- C23 for the handle `(50, 3)` over the registry `[(60, 3), (70, 2)]` with a failing system
allocator: `assign` of three elements and `resize(3, 9)` keep `50` and the registry. -/
theorem same_size_reuses_own_region_witness :
    (vector_intrinsic.assign ⟨50, 3⟩ (⟨[⟨60, 3⟩, ⟨70, 2⟩], fun _ => 0⟩ : World Nat)
      [.value 1, .value 2, .value 3] 1
      (fun _ => none)).h.data = 50 ∧
    (vector_intrinsic.assign ⟨50, 3⟩ (⟨[⟨60, 3⟩, ⟨70, 2⟩], fun _ => 0⟩ : World Nat)
      [.value 1, .value 2, .value 3] 1
      (fun _ => none)).w.deallocations = [⟨60, 3⟩, ⟨70, 2⟩] ∧
    (vector_intrinsic.resize ⟨50, 3⟩ (⟨[⟨60, 3⟩, ⟨70, 2⟩], fun _ => 0⟩ : World Nat) 3 9 1
      (fun _ => none)).w.deallocations = [⟨60, 3⟩, ⟨70, 2⟩] :=
  have h := same_size_reuses_own_region ⟨50, 3⟩
    (⟨[⟨60, 3⟩, ⟨70, 2⟩], fun _ => 0⟩ : World Nat) 1 (fun _ => none) (by decide)
  ⟨(h.1 [.value 1, .value 2, .value 3] rfl).2.1,
    (h.1 [.value 1, .value 2, .value 3] rfl).2.2.2, (h.2.2 9).2.2.2⟩

/-- C24: for a handle `h` holding `(p, n)` with `p` non-null, `h = std::move(h)` leaves `h` with
`data() = null` and `size() = 0`, appends exactly the one entry `(p, n)` to the free
registry (every entry keeps its multiplicity, `(p, n)` has one more) and touches no
element; destroying `h` afterwards changes nothing.  In a system of handles,
move-assigning the object at position `i` to itself is this operation. -/
theorem self_move_assign {T : Type} (h : vector_intrinsic) (w : World T)
    (hp : h.data_ ≠ nullptr) :
    (vector_intrinsic.move_assign_self h w).1.data = nullptr ∧
    (vector_intrinsic.move_assign_self h w).1.size = 0 ∧
    (vector_intrinsic.move_assign_self h w).2.deallocations
      = w.deallocations ++ [⟨h.data_, h.size_⟩] ∧
    (∀ d, (vector_intrinsic.move_assign_self h w).2.deallocations.count d
      = w.deallocations.count d + if d = ⟨h.data_, h.size_⟩ then 1 else 0) ∧
    (vector_intrinsic.move_assign_self h w).2.mem = w.mem ∧
    vector_intrinsic.destruct (vector_intrinsic.move_assign_self h w).1
        (vector_intrinsic.move_assign_self h w).2
      = vector_intrinsic.move_assign_self h w ∧
    (∀ (sizeofT : Nat) (s : Sys T) (i : Nat), s.w = w → s.live i = some h →
      Sys.step sizeofT s (.move_assign i i)
        = some { w := (vector_intrinsic.move_assign_self h w).2,
                 handles := s.handles.set i (some ⟨nullptr, 0⟩) }) := by
  have e : vector_intrinsic.move_assign_self h w
      = (⟨nullptr, 0⟩, { w with deallocations := w.deallocations ++ [⟨h.data_, h.size_⟩] }) := by
    simp [vector_intrinsic.move_assign_self, vector_intrinsic.deallocate, hp,
      vector_intrinsic.move_from_self, vector_intrinsic.clear,
      static_framedata_allocator_array.deallocate]
  refine ⟨?_, ?_, ?_, ?_, ?_, ?_, ?_⟩
  · rw [e]; rfl
  · rw [e]; rfl
  · rw [e]
  · intro d
    rw [e]
    simp only [List.count_append, List.count_singleton]
    by_cases hd : d = ⟨h.data_, h.size_⟩
    · simp [hd]
    · have h2 : ¬ ((⟨h.data_, h.size_⟩ : Deallocation) = d) := fun x => hd x.symm
      simp [hd, h2]
  · rw [e]
  · rw [e]
    simp [vector_intrinsic.destruct, vector_intrinsic.deallocate]
  · intro sizeofT s i hw hl
    subst hw
    simp only [Sys.step, hl, if_true]
    rw [e]

/-- C24 for the handle `(100, 4)` over the registry `[(50, 4)]`. -/
theorem self_move_assign_witness :
    (vector_intrinsic.move_assign_self ⟨100, 4⟩ (⟨[⟨50, 4⟩], fun _ => 0⟩ : World Nat)).1
      = ⟨nullptr, 0⟩ ∧
    (vector_intrinsic.move_assign_self ⟨100, 4⟩
      (⟨[⟨50, 4⟩], fun _ => 0⟩ : World Nat)).2.deallocations = [⟨50, 4⟩, ⟨100, 4⟩] :=
  ⟨by decide,
    (self_move_assign ⟨100, 4⟩ (⟨[⟨50, 4⟩], fun _ => 0⟩ : World Nat) (by decide)).2.2.1⟩

/-- C22 does not hold on the code.  A handle holding `(50, 2)` over an empty registry,
with the system allocator failing: `resize(3, 9)` and `assign` of three elements
propagate the failure and have returned `(50, 2)` to the registry, but leave the
handle with `data() = null` and `size() = 3`; `end() - begin()` is then `3` over a null
pointer. -/
theorem failed_allocation_keeps_size :
    (vector_intrinsic.resize ⟨50, 2⟩ (⟨[], fun _ => 0⟩ : World Nat) 3 9 1
      (fun _ => none)).threw = true ∧
    (vector_intrinsic.resize ⟨50, 2⟩ (⟨[], fun _ => 0⟩ : World Nat) 3 9 1
      (fun _ => none)).w.deallocations = [⟨50, 2⟩] ∧
    (vector_intrinsic.resize ⟨50, 2⟩ (⟨[], fun _ => 0⟩ : World Nat) 3 9 1
      (fun _ => none)).h.data = nullptr ∧
    (vector_intrinsic.resize ⟨50, 2⟩ (⟨[], fun _ => 0⟩ : World Nat) 3 9 1
      (fun _ => none)).h.size = 3 ∧
    (vector_intrinsic.assign ⟨50, 2⟩ (⟨[], fun _ => 0⟩ : World Nat)
      [.value 7, .value 8, .value 9] 1
      (fun _ => none)).threw = true ∧
    (vector_intrinsic.assign ⟨50, 2⟩ (⟨[], fun _ => 0⟩ : World Nat)
      [.value 7, .value 8, .value 9] 1
      (fun _ => none)).h = ⟨nullptr, 3⟩ ∧
    (vector_intrinsic.assign_ptr ⟨50, 2⟩ (⟨[], fun _ => 0⟩ : World Nat) 10 13 1
      (fun _ => none)).h = ⟨nullptr, 3⟩ ∧
    (vector_intrinsic.resize ⟨50, 2⟩ (⟨[], fun _ => 0⟩ : World Nat) 3 9 1
      (fun _ => none)).h.end_
      - (vector_intrinsic.resize ⟨50, 2⟩ (⟨[], fun _ => 0⟩ : World Nat) 3 9 1
        (fun _ => none)).h.begin = 3 := by
  decide

/-! ## Well-formedness of handles -/

namespace Sys

variable {T : Type}

theorem live_set_cases (hs : List (Option vector_intrinsic)) (w1 w2 : World T) (i k : Nat)
    (x : Option vector_intrinsic) (a : vector_intrinsic)
    (h : live { w := w1, handles := hs.set i x } k = some a) :
    x = some a ∨ live { w := w2, handles := hs } k = some a := by
  unfold live at h ⊢
  simp only at h ⊢
  rw [List.getElem?_set] at h
  by_cases hik : i = k
  · rw [if_pos hik] at h
    by_cases hlt : i < hs.length
    · rw [if_pos hlt] at h
      left
      cases x with
      | none => simp at h
      | some y => simp at h; rw [h]
    · rw [if_neg hlt] at h
      simp at h
  · rw [if_neg hik] at h
    right
    exact h

theorem live_append_cases (hs : List (Option vector_intrinsic)) (w1 w2 : World T) (k : Nat)
    (x : Option vector_intrinsic) (a : vector_intrinsic)
    (h : live { w := w1, handles := hs ++ [x] } k = some a) :
    x = some a ∨ live { w := w2, handles := hs } k = some a := by
  unfold live at h ⊢
  simp only at h ⊢
  by_cases hlt : k < hs.length
  · rw [List.getElem?_append_left hlt] at h
    right
    exact h
  · rw [List.getElem?_append_right (Nat.le_of_not_lt hlt)] at h
    left
    cases hk : k - hs.length with
    | zero =>
      rw [hk] at h
      cases x with
      | none => simp at h
      | some y => simp at h; rw [h]
    | succ j =>
      rw [hk] at h
      simp at h

end Sys

theorem well_formed_mono (a : vector_intrinsic) (G G1 : List Deallocation)
    (hG : ∀ d ∈ G, d ∈ G1) (h : a.well_formed G) : a.well_formed G1 :=
  ⟨h.1, h.2.1, fun hp => hG _ (h.2.2 hp)⟩

theorem well_formed_clear (G : List Deallocation) :
    (⟨nullptr, 0⟩ : vector_intrinsic).well_formed G :=
  ⟨fun _ => rfl, rfl, fun hp => absurd rfl hp⟩

theorem well_formed_granted (p : Ptr) (n : Nat) (G : List Deallocation)
    (hG : (⟨p, n⟩ : Deallocation) ∈ G) (hp : p ≠ nullptr) :
    (⟨p, n⟩ : vector_intrinsic).well_formed G :=
  ⟨fun h0 => absurd h0 hp, Nat.add_sub_cancel_left _ _, fun _ => hG⟩

theorem deallocate_registry_nonnull {T : Type} (h : vector_intrinsic) (w : World T)
    (hw : ∀ d ∈ w.deallocations, d.t ≠ nullptr) :
    ∀ d ∈ (vector_intrinsic.deallocate h w).2.deallocations, d.t ≠ nullptr := by
  unfold vector_intrinsic.deallocate
  by_cases hp : h.data_ = nullptr
  · simpa [hp] using hw
  · simp only [hp, ne_eq, not_false_eq_true, if_true,
      static_framedata_allocator.deallocate, static_framedata_allocator_array.deallocate]
    intro d hd
    rcases List.mem_append.1 hd with e | e
    · exact hw d e
    · rw [List.mem_singleton] at e
      rw [e]
      exact hp

theorem pool_allocate_nonnull (ds : List Deallocation) (n sizeofT : Nat) (sysNew : SysNew)
    (hds : ∀ d ∈ ds, d.t ≠ nullptr) (hsys : ∀ b p, sysNew b = some p → p ≠ nullptr)
    (p : Ptr) (hp : (static_framedata_allocator_array.allocate ds n sizeofT sysNew).1 = some p) :
    p ≠ nullptr ∧
    ∀ d ∈ (static_framedata_allocator_array.allocate ds n sizeofT sysNew).2, d.t ≠ nullptr := by
  cases ht : static_framedata_allocator_array.take ds n with
  | some r =>
    obtain ⟨t, ds1⟩ := r
    rw [static_framedata_allocator_array.allocate_of_take_some ht] at hp ⊢
    obtain ⟨hmem, hperm⟩ := static_framedata_allocator_array.take_some ht
    simp only [Option.some.injEq] at hp
    subst hp
    refine ⟨hds _ hmem, ?_⟩
    intro d hd
    exact hds d (hperm.symm.subset (List.mem_cons_of_mem _ hd))
  | none =>
    rw [static_framedata_allocator_array.allocate_of_take_none ht] at hp ⊢
    exact ⟨hsys _ p hp, hds⟩

theorem allocate_normal {T : Type} (h : vector_intrinsic) (w : World T) (n sizeofT : Nat)
    (sysNew : SysNew)
    (hok : (vector_intrinsic.allocate h w n sizeofT sysNew).threw = false) :
    ∃ p, (framedata_allocator.allocate (vector_intrinsic.deallocate h w).2 n sizeofT
        sysNew).1 = some p ∧
      (vector_intrinsic.allocate h w n sizeofT sysNew).h = ⟨p, n⟩ ∧
      (vector_intrinsic.allocate h w n sizeofT sysNew).w.deallocations
        = (static_framedata_allocator_array.allocate
            (vector_intrinsic.deallocate h w).2.deallocations n sizeofT sysNew).2 := by
  simp only [vector_intrinsic.allocate, framedata_allocator.allocate,
    static_framedata_allocator.allocate] at hok ⊢
  cases hr : static_framedata_allocator_array.allocate
      (vector_intrinsic.deallocate h w).2.deallocations n sizeofT sysNew with
  | mk r1 r2 =>
    rw [hr] at hok
    cases r1 with
    | none => simp at hok
    | some p => exact ⟨p, rfl, rfl, rfl⟩

namespace Sys

variable {T : Type}

theorem on_handle_well_formed (s s1 : Sys T) (i : Nat)
    (f : vector_intrinsic → World T → Outcome T) (n sizeofT : Nat) (sysNew : SysNew)
    (hf : ∀ h w, (f h w).h = (vector_intrinsic.allocate h w n sizeofT sysNew).h ∧
      (f h w).w.deallocations = (vector_intrinsic.allocate h w n sizeofT sysNew).w.deallocations ∧
      (f h w).threw = (vector_intrinsic.allocate h w n sizeofT sysNew).threw)
    (hsys : ∀ b p, sysNew b = some p → p ≠ nullptr)
    (G : List Deallocation)
    (hreg : ∀ d ∈ s.w.deallocations, d.t ≠ nullptr)
    (hwf : well_formed G s)
    (hstep : on_handle s i f = some s1) :
    (∀ d ∈ s1.w.deallocations, d.t ≠ nullptr) ∧
    well_formed (G ++ (pool_grant sizeofT s i n sysNew).toList) s1 := by
  unfold on_handle at hstep
  unfold pool_grant
  cases hl : s.live i with
  | none => rw [hl] at hstep; cases hstep
  | some h =>
    rw [hl] at hstep
    simp only at hstep ⊢
    obtain ⟨hf1, hf2, hf3⟩ := hf h s.w
    by_cases hthrew : (f h s.w).threw = true
    · rw [if_pos hthrew] at hstep; cases hstep
    · rw [if_neg hthrew] at hstep
      cases hstep
      have hok : (vector_intrinsic.allocate h s.w n sizeofT sysNew).threw = false := by
        rw [← hf3]; simpa using hthrew
      obtain ⟨p, hp1, hp2, hp3⟩ := allocate_normal h s.w n sizeofT sysNew hok
      rw [hp1]
      have hnn := pool_allocate_nonnull (vector_intrinsic.deallocate h s.w).2.deallocations
        n sizeofT sysNew (deallocate_registry_nonnull h s.w hreg) hsys p hp1
      constructor
      · intro d hd
        have hd2 : d ∈ (f h s.w).w.deallocations := hd
        rw [hf2, hp3] at hd2
        exact hnn.2 d hd2
      · intro k a hlive
        rcases live_set_cases s.handles _ s.w i k _ a hlive with e | e
        · simp only [Option.some.injEq] at e
          rw [← e, hf1, hp2]
          exact well_formed_granted p n _ (by simp [Option.toList]) hnn.1
        · exact well_formed_mono a G _ (fun d hd => List.mem_append_left _ hd) (hwf k a e)

theorem step_well_formed (sizeofT : Nat) (s s1 : Sys T) (op : HandleOp T)
    (G : List Deallocation)
    (hsys : sys_nonnull op)
    (hreg : ∀ d ∈ s.w.deallocations, d.t ≠ nullptr)
    (hwf : well_formed G s)
    (hstep : step sizeofT s op = some s1) :
    (∀ d ∈ s1.w.deallocations, d.t ≠ nullptr) ∧
    well_formed (G ++ (grant sizeofT s op).toList) s1 := by
  cases op with
  | construct =>
    simp only [step, Option.some.injEq] at hstep
    subst hstep
    refine ⟨hreg, ?_⟩
    intro k a hlive
    simp only [grant, Option.toList, List.append_nil]
    rcases live_append_cases s.handles _ s.w k _ a hlive with e | e
    · simp only [Option.some.injEq] at e
      rw [← e]
      exact well_formed_clear G
    · exact hwf k a e
  | assign i xs sysNew =>
    exact on_handle_well_formed s s1 i _ xs.length sizeofT sysNew
      (vector_intrinsic.assign_via_allocate xs sizeofT sysNew) hsys G hreg hwf hstep
  | assign_ptr i begin_ end_ sysNew =>
    exact on_handle_well_formed s s1 i _ (distance begin_ end_) sizeofT sysNew
      (vector_intrinsic.assign_ptr_via_allocate begin_ end_ sizeofT sysNew) hsys G hreg hwf hstep
  | resize i n v sysNew =>
    exact on_handle_well_formed s s1 i _ n sizeofT sysNew
      (vector_intrinsic.resize_via_allocate n v sizeofT sysNew) hsys G hreg hwf hstep
  | move_construct j =>
    simp only [step] at hstep
    cases hl : s.live j with
    | none => rw [hl] at hstep; cases hstep
    | some m =>
      rw [hl] at hstep
      simp only [Option.some.injEq] at hstep
      subst hstep
      refine ⟨hreg, ?_⟩
      intro k a hlive
      simp only [grant, Option.toList, List.append_nil]
      rcases live_append_cases _ _ s.w k _ a hlive with e | e
      · simp only [Option.some.injEq] at e
        rw [← e]
        exact hwf j m hl
      · rcases live_set_cases s.handles _ s.w j k _ a e with e2 | e2
        · simp only [Option.some.injEq] at e2
          rw [← e2]
          exact well_formed_clear G
        · exact hwf k a e2
  | move_assign i j =>
    simp only [step] at hstep
    cases hli : s.live i with
    | none => rw [hli] at hstep; cases hstep
    | some h =>
      cases hlj : s.live j with
      | none => rw [hli, hlj] at hstep; cases hstep
      | some m =>
        rw [hli, hlj] at hstep
        simp only at hstep
        simp only [grant, Option.toList, List.append_nil]
        by_cases hij : i = j
        · rw [if_pos hij, Option.some.injEq] at hstep
          subst hstep
          refine ⟨deallocate_registry_nonnull h s.w hreg, ?_⟩
          intro k a hlive
          rcases live_set_cases s.handles _ s.w i k _ a hlive with e | e
          · simp only [Option.some.injEq] at e
            rw [← e]
            exact well_formed_clear G
          · exact hwf k a e
        · rw [if_neg hij, Option.some.injEq] at hstep
          subst hstep
          refine ⟨deallocate_registry_nonnull h s.w hreg, ?_⟩
          intro k a hlive
          rcases live_set_cases _ _ s.w j k _ a hlive with e | e
          · simp only [Option.some.injEq] at e
            rw [← e]
            exact well_formed_clear G
          · rcases live_set_cases s.handles _ s.w i k _ a e with e2 | e2
            · simp only [Option.some.injEq] at e2
              rw [← e2]
              exact hwf j m hlj
            · exact hwf k a e2
  | destruct i =>
    simp only [step] at hstep
    cases hl : s.live i with
    | none => rw [hl] at hstep; cases hstep
    | some h =>
      rw [hl] at hstep
      simp only [Option.some.injEq] at hstep
      subst hstep
      simp only [grant, Option.toList, List.append_nil]
      refine ⟨deallocate_registry_nonnull h s.w hreg, ?_⟩
      intro k a hlive
      rcases live_set_cases s.handles _ s.w i k _ a hlive with e | e
      · cases e
      · exact hwf k a e

theorem run_well_formed (sizeofT : Nat) (ops : List (HandleOp T)) :
    ∀ (s s1 : Sys T) (G : List Deallocation),
      (∀ op ∈ ops, sys_nonnull op) →
      (∀ d ∈ s.w.deallocations, d.t ≠ nullptr) →
      well_formed G s →
      run sizeofT s ops = some s1 →
      (∀ d ∈ s1.w.deallocations, d.t ≠ nullptr) ∧
      well_formed (G ++ grants sizeofT s ops) s1 := by
  induction ops with
  | nil =>
    intro s s1 G _ hreg hwf hrun
    simp only [run, Option.some.injEq] at hrun
    subst hrun
    simp only [grants, List.append_nil]
    exact ⟨hreg, hwf⟩
  | cons op ops ih =>
    intro s s1 G hsys hreg hwf hrun
    simp only [run] at hrun
    simp only [grants]
    cases hstep : step sizeofT s op with
    | none => rw [hstep] at hrun; cases hrun
    | some s2 =>
      rw [hstep] at hrun
      simp only
      obtain ⟨hreg2, hwf2⟩ := step_well_formed sizeofT s s2 op G
        (hsys op (List.mem_cons_self _ _)) hreg hwf hstep
      have h := ih s2 s1 _ (fun o ho => hsys o (List.mem_cons_of_mem _ ho)) hreg2 hwf2 hrun
      rw [List.append_assoc] at h
      exact h

end Sys

/-- Well-formedness where no operation fails: start with an empty pool and no
handle, and run any sequence of public
handle operations (default construction, both `assign` overloads, `resize`, move
construction, move assignment, destruction) that all complete normally, the
system allocator never answering with a null pointer.  Then every live handle
has `size() = 0` if `data()` is null, has `end() - begin() = size()`, and, if `data()` is
non-null, holds a pointer the pool handed out for the count `size()`. -/
theorem handles_well_formed {T : Type} (sizeofT : Nat) (mem : Ptr → T)
    (ops : List (HandleOp T)) (s : Sys T)
    (hsys : ∀ op ∈ ops, Sys.sys_nonnull op)
    (hrun : Sys.run sizeofT (Sys.init mem) ops = some s) :
    ∀ i a, s.live i = some a →
      (a.data = nullptr → a.size = 0) ∧
      a.end_ - a.begin = a.size ∧
      (a.data ≠ nullptr →
        (⟨a.data, a.size⟩ : Deallocation) ∈ Sys.grants sizeofT (Sys.init mem) ops) := by
  have h := Sys.run_well_formed sizeofT ops (Sys.init mem) s [] hsys
    (by simp [Sys.init]) (by intro i a hl; simp [Sys.live, Sys.init] at hl) hrun
  rw [List.nil_append] at h
  exact h.2

/-- Well-formedness on the run `well_formed_example_ops`: the pool hands out `(100, 3)`, `(200, 2)` and
`(100, 3)` again; at the end `h0` holds `(100, 3)` and `h1` is empty. -/
theorem handles_well_formed_witness :
    (∀ op ∈ well_formed_example_ops, Sys.sys_nonnull op) ∧
    Sys.run 1 (Sys.init (fun _ => (0 : Nat))) well_formed_example_ops
      = some well_formed_example_final ∧
    Sys.grants 1 (Sys.init (fun _ => (0 : Nat))) well_formed_example_ops
      = [⟨100, 3⟩, ⟨200, 2⟩, ⟨100, 3⟩] ∧
    well_formed_example_final.live 0 = some ⟨100, 3⟩ ∧
    ((⟨100, 3⟩ : vector_intrinsic).data ≠ nullptr →
      (⟨(⟨100, 3⟩ : vector_intrinsic).data, (⟨100, 3⟩ : vector_intrinsic).size⟩ : Deallocation)
        ∈ Sys.grants 1 (Sys.init (fun _ => (0 : Nat))) well_formed_example_ops) :=
  have hsys : ∀ op ∈ well_formed_example_ops, Sys.sys_nonnull op := by
    intro op hop
    simp only [well_formed_example_ops, List.mem_cons, List.mem_singleton, List.mem_nil_iff,
      or_false] at hop
    rcases hop with e | e | e | e | e | e <;> subst e <;> simp [Sys.sys_nonnull, nullptr]
  have hrun : Sys.run 1 (Sys.init (fun _ => (0 : Nat))) well_formed_example_ops
      = some well_formed_example_final := rfl
  ⟨hsys, hrun, by decide, rfl,
    (handles_well_formed 1 _ _ _ hsys hrun 0 ⟨100, 3⟩ rfl).2.2⟩

/-- C21 does not hold on the code, by the defect behind C22: `allocate` stores
`size_` before the pool call that may throw.  One handle is default constructed;
`resize(3, 9)` on it with a failing system allocator does not complete normally
and leaves the handle as `(null, 3)`; the move construction of a second handle from
it then completes normally, and the new handle is live with `data() = null` and
`size() = 3`: it is not well formed, whatever the pool has handed out. -/
theorem failed_resize_breaks_well_formed :
    Sys.run 1 (Sys.init (fun _ => (0 : Nat))) [.construct]
      = some failed_resize_example_start ∧
    (vector_intrinsic.resize ⟨nullptr, 0⟩ failed_resize_example_start.w 3 9 1
      (fun _ => none)).threw = true ∧
    Sys.step 1 failed_resize_example_start (.resize 0 3 9 (fun _ => none)) = none ∧
    Sys.step_failed 1 failed_resize_example_start (.resize 0 3 9 (fun _ => none))
      = some failed_resize_example_thrown ∧
    Sys.step 1 failed_resize_example_thrown (.move_construct 0)
      = some failed_resize_example_final ∧
    failed_resize_example_final.live 1 = some ⟨nullptr, 3⟩ ∧
    (⟨nullptr, 3⟩ : vector_intrinsic).data = nullptr ∧
    (⟨nullptr, 3⟩ : vector_intrinsic).size = 3 ∧
    ∀ G : List Deallocation, ¬ Sys.well_formed G failed_resize_example_final := by
  refine ⟨rfl, rfl, rfl, rfl, rfl, rfl, rfl, rfl, ?_⟩
  intro G hwf
  have h := (hwf 1 ⟨nullptr, 3⟩ rfl).1 rfl
  exact absurd h (by decide)

end FrameData
